import Mathlib

/-!
Offscreen capture pipeline of Vulkan-glTF-PBR: camera path, readback, sweep.

A shallow embedding of

* `base/pathread.hpp`: `getInterpolatedView`, `getPath` (lines 71-85, the part after parsing);
* `src/main.cpp`: `to3chan`, `output_image_float`, the readback copy, the file name and the
  host protocol of `renderCustom`, the sweep controller `render`, and the object creations
  and releases of `setupCustomStuff` and `destroyCustomStuff`;
* `base/VulkanExampleBase.h`: `Settings`, `available_features`.

Conventions of the embedding

* `float` values of the camera path are rationals: the statements about poses are statements
  in exact arithmetic.  The square root used by `glm::normalize` is a parameter `sqrt : ℚ → ℚ`
  of the definitions, so every theorem holds for whatever the square root returns.
* The lengths that `getInterpolatedView` normalises are not rational in general, so the
  statement about the orthonormal rotation is made over a second embedding of
  `getInterpolatedView`, in the namespace `OverField`: the same definitions with components
  in an arbitrary field `K` and `sqrt : K → K`; over the rationals the two embeddings give
  the same matrix.
* `int` frame indices are mathematical integers (a path whose frame span overflows `int`
  is outside the embedding); `size_t` counters and image dimensions are natural numbers.
  The conversions of the source that are defined and visible at ordinary inputs are kept:
  `cps.size() - 1` on an empty vector, `int → size_t` of the interval bounds, and the
  `size_t → int` narrowing of the index handed to `renderCustom`.
* An access outside a `std::vector` is a `Run.fault`; a loop is run with fuel and
  `Run.outOfFuel` is the only outcome that is not an outcome of the program.
* Mapped device memory is byte addressed (`Nat → β` for an arbitrary type `β` of bytes);
  a `float` object is the four bytes it occupies.  The host array `data` of `renderCustom`
  is a function on all float indices; the extent of its allocation is not modelled.
-/

namespace PBR

/-! ## Outcomes -/

/-- Undefined accesses of the source that the embedding detects. -/
inductive Fault where
  | cps_oob
  | pathViews_oob
  | feature_buffers_oob
  | output_prefixes_oob
  deriving DecidableEq, Repr

/-- Outcome of running a piece of the program. -/
inductive Run (α : Type) where
  | done (a : α)
  | fault (f : Fault)
  | outOfFuel
  deriving DecidableEq, Repr

/-- Apply a function to the value of a finished run. -/
def Run.map {α β : Type} (g : α → β) : Run α → Run β
  | .done a => .done (g a)
  | .fault f => .fault f
  | .outOfFuel => .outOfFuel

/-- Sequencing of runs. -/
def Run.bind {α β : Type} (r : Run α) (k : α → Run β) : Run β :=
  match r with
  | .done a => k a
  | .fault f => .fault f
  | .outOfFuel => .outOfFuel

/-! ## glm vectors and matrices (exact arithmetic) -/

/-- The type `glm::vec3`. -/
structure Vec3 where
  x : ℚ
  y : ℚ
  z : ℚ
  deriving DecidableEq, Repr

/-- The type `glm::vec4`. -/
structure Vec4 where
  x : ℚ
  y : ℚ
  z : ℚ
  w : ℚ
  deriving DecidableEq, Repr

/-- Component-wise sum `a + b`. -/
def Vec3.add (a b : Vec3) : Vec3 := ⟨a.x + b.x, a.y + b.y, a.z + b.z⟩

/-- Scalar multiple `c * v`. -/
def Vec3.scale (c : ℚ) (v : Vec3) : Vec3 := ⟨c * v.x, c * v.y, c * v.z⟩

/-- Unary minus `-v`. -/
def Vec3.neg (v : Vec3) : Vec3 := ⟨-v.x, -v.y, -v.z⟩

/-- The function `glm::dot`. -/
def Vec3.dot (a b : Vec3) : ℚ := a.x * b.x + a.y * b.y + a.z * b.z

/-- The function `glm::cross`. -/
def Vec3.cross (a b : Vec3) : Vec3 :=
  ⟨a.y * b.z - b.y * a.z, a.z * b.x - b.z * a.x, a.x * b.y - b.x * a.y⟩

/-- The function `glm::normalize`: `v * inversesqrt(dot(v, v))`. -/
def normalize (sqrt : ℚ → ℚ) (v : Vec3) : Vec3 := Vec3.scale (1 / sqrt (Vec3.dot v v)) v

/-- The type `glm::mat3`, column major. -/
structure Mat3 where
  c0 : Vec3
  c1 : Vec3
  c2 : Vec3
  deriving DecidableEq, Repr

/-- The type `glm::mat4`, column major. -/
structure Mat4 where
  c0 : Vec4
  c1 : Vec4
  c2 : Vec4
  c3 : Vec4
  deriving DecidableEq, Repr

/-- The function `glm::transpose` on `mat3`. -/
def Mat3.transpose (m : Mat3) : Mat3 :=
  ⟨⟨m.c0.x, m.c1.x, m.c2.x⟩, ⟨m.c0.y, m.c1.y, m.c2.y⟩, ⟨m.c0.z, m.c1.z, m.c2.z⟩⟩

/-- The conversion `glm::mat4(mat3)`: the 3x3 block, completed by the identity. -/
def Mat4.ofMat3 (m : Mat3) : Mat4 :=
  ⟨⟨m.c0.x, m.c0.y, m.c0.z, 0⟩, ⟨m.c1.x, m.c1.y, m.c1.z, 0⟩, ⟨m.c2.x, m.c2.y, m.c2.z, 0⟩,
   ⟨0, 0, 0, 1⟩⟩

/-- The function `glm::translate(v)`: the identity with `v` in the last column. -/
def Mat4.translate (v : Vec3) : Mat4 :=
  ⟨⟨1, 0, 0, 0⟩, ⟨0, 1, 0, 0⟩, ⟨0, 0, 1, 0⟩, ⟨v.x, v.y, v.z, 1⟩⟩

/-- Matrix times column vector. -/
def Mat4.mulVec (m : Mat4) (v : Vec4) : Vec4 :=
  ⟨m.c0.x * v.x + m.c1.x * v.y + m.c2.x * v.z + m.c3.x * v.w,
   m.c0.y * v.x + m.c1.y * v.y + m.c2.y * v.z + m.c3.y * v.w,
   m.c0.z * v.x + m.c1.z * v.y + m.c2.z * v.z + m.c3.z * v.w,
   m.c0.w * v.x + m.c1.w * v.y + m.c2.w * v.z + m.c3.w * v.w⟩

/-- Matrix product `a * b`. -/
def Mat4.mul (a b : Mat4) : Mat4 :=
  ⟨a.mulVec b.c0, a.mulVec b.c1, a.mulVec b.c2, a.mulVec b.c3⟩

/-! ## pathread.hpp -/

/-- The struct `CameraCheckpoint`. -/
structure CameraCheckpoint where
  point : Vec3
  dir : Vec3
  t : Int
  deriving DecidableEq, Repr

/-- The fields `point` and `dir` of the local `cc` of `getInterpolatedView`
(its field `t` is never assigned nor read). -/
structure Pose where
  point : Vec3
  dir : Vec3
  deriving DecidableEq, Repr

/-- Line 31: `float coeff = float(t - cc1.t) / float(cc2.t - cc1.t)`. -/
def coeff (cc1 cc2 : CameraCheckpoint) (t : Int) : ℚ :=
  ((t - cc1.t : Int) : ℚ) / ((cc2.t - cc1.t : Int) : ℚ)

/-- Lines 31-34 of `getInterpolatedView`: the interpolated checkpoint `cc`. -/
def interpolatedPose (sqrt : ℚ → ℚ) (cc1 cc2 : CameraCheckpoint) (t : Int) : Pose :=
  let coeff := coeff cc1 cc2 t
  { point := Vec3.add (Vec3.scale coeff cc2.point) (Vec3.scale (1 - coeff) cc1.point)
    dir := normalize sqrt (Vec3.add (Vec3.scale coeff cc2.dir) (Vec3.scale (1 - coeff) cc1.dir)) }

/-- Lines 36-42 of `getInterpolatedView`: the view matrix of the pose `cc`. -/
def viewOfPose (sqrt : ℚ → ℚ) (cc : Pose) : Mat4 :=
  let up : Vec3 := ⟨0, 1, 0⟩
  let x_axis := normalize sqrt (Vec3.cross cc.dir up)
  let y_axis := normalize sqrt (Vec3.cross x_axis cc.dir)
  let rotation := Mat3.transpose ⟨x_axis, y_axis, Vec3.neg cc.dir⟩
  Mat4.mul (Mat4.ofMat3 rotation) (Mat4.translate (Vec3.neg cc.point))

/-- The function `getInterpolatedView`. -/
def getInterpolatedView (sqrt : ℚ → ℚ) (cc1 cc2 : CameraCheckpoint) (t : Int) : Mat4 :=
  viewOfPose sqrt (interpolatedPose sqrt cc1 cc2 t)

/-- The value of `cps.size() - 1` in `size_t` arithmetic: it wraps on an empty vector. -/
def sizeMinusOne (size : Nat) : Nat := if size = 0 then 2 ^ 64 - 1 else size - 1

/-- The `while` loop of `getPath` (lines 74-81), with the function applied to
`(cps[current_cp], cps[current_cp + 1], t)` as a parameter `f`; the state is
`(t, current_cp, views)`. -/
def getPathLoop {β : Type} (f : CameraCheckpoint → CameraCheckpoint → Int → β)
    (cps : List CameraCheckpoint) : Nat → Int → Nat → List β → Run (Int × Nat × List β)
  | 0, _, _, _ => .outOfFuel
  | fuel + 1, t, current_cp, views =>
    if current_cp < sizeMinusOne cps.length then
      match cps[current_cp]?, cps[current_cp + 1]? with
      | some a, some b =>
        let views := views ++ [f a b t]
        let t := t + 1
        if t ≥ b.t then getPathLoop f cps fuel t (current_cp + 1) views
        else getPathLoop f cps fuel t current_cp views
      | _, _ => .fault .cps_oob
    else .done (t, current_cp, views)

/-- Lines 71-85 of `getPath`, from the parsed checkpoints to the returned vector, with the
function applied to each `(cps[i], cps[i + 1], t)` as a parameter. -/
def getPathWith {β : Type} (f : CameraCheckpoint → CameraCheckpoint → Int → β)
    (fuel : Nat) (cps : List CameraCheckpoint) : Run (List β) :=
  match cps[0]? with
  | none => .fault .cps_oob
  | some c0 =>
    (getPathLoop f cps fuel c0.t 0 []).bind fun (t, current_cp, views) =>
      if current_cp = 0 then .fault .cps_oob
      else
        match cps[current_cp - 1]?, cps[current_cp]? with
        | some a, some b => .done (views ++ [f a b t])
        | _, _ => .fault .cps_oob

/-- The function `getPath` on the parsed checkpoints: the views it returns. -/
def getPath (sqrt : ℚ → ℚ) (fuel : Nat) (cps : List CameraCheckpoint) : Run (List Mat4) :=
  getPathWith (getInterpolatedView sqrt) fuel cps

/-- The poses `cc` from which `getPath` builds its views, in the order of the views. -/
def getPathPoses (sqrt : ℚ → ℚ) (fuel : Nat) (cps : List CameraCheckpoint) : Run (List Pose) :=
  getPathWith (interpolatedPose sqrt) fuel cps

/-- The frame indices `t` at which `getPath` calls `getInterpolatedView`, in call order. -/
def getPathFrames (fuel : Nat) (cps : List CameraCheckpoint) : Run (List Int) :=
  getPathWith (fun _ _ t => t) fuel cps

/-- A camera path has strictly increasing frame indices. -/
def StrictlyIncreasing (cps : List CameraCheckpoint) : Prop :=
  List.Pairwise (fun a b : CameraCheckpoint => a.t < b.t) cps

instance (cps : List CameraCheckpoint) : Decidable (StrictlyIncreasing cps) := by
  unfold StrictlyIncreasing; infer_instance

/-- Frame index of the first checkpoint (0 on an empty list). -/
def firstT (cps : List CameraCheckpoint) : Int := (cps.head?.map (·.t)).getD 0

/-- Frame index of the last checkpoint (0 on an empty list). -/
def lastT (cps : List CameraCheckpoint) : Int := (cps.getLast?.map (·.t)).getD 0

/-- Plain linear blend `(1 - c) * a + c * b`. -/
def lerp (a b : Vec3) (c : ℚ) : Vec3 := Vec3.add (Vec3.scale (1 - c) a) (Vec3.scale c b)

/-- A square root on the rationals for the examples: exact on squares of rationals. -/
def qsqrt : ℚ → ℚ := fun q => Rat.sqrt q

/-- An example path: three checkpoints at the frames 0, 10 and 20. -/
def examplePath : List CameraCheckpoint :=
  [⟨⟨0, 0, 0⟩, ⟨0, 0, 2⟩, 0⟩, ⟨⟨1, 2, 0⟩, ⟨0, 0, 2⟩, 10⟩, ⟨⟨3, 2, 1⟩, ⟨0, 3, 4⟩, 20⟩]

/-! ## main.cpp: readback conversion of `renderCustom` -/

/-- A `float` object in memory: the four bytes it occupies (`sizeof(out_type)` is 4). -/
structure F32 (β : Type) where
  b0 : β
  b1 : β
  b2 : β
  b3 : β
  deriving DecidableEq, Repr

/-- The float found at byte offset `off` of a byte-addressed memory. -/
def floatAtByte {β : Type} (img : Nat → β) (off : Nat) : F32 β :=
  ⟨img off, img (off + 1), img (off + 2), img (off + 3)⟩

/-- The value `*p` of a `float* p` that points `p` floats past the mapped base address. -/
def loadFloat {β : Type} (img : Nat → β) (p : Nat) : F32 β := floatAtByte img (4 * p)

/-- The fields of `VkSubresourceLayout` that `renderCustom` reads. -/
structure VkSubresourceLayout where
  offset : Nat
  size : Nat
  rowPitch : Nat
  deriving DecidableEq, Repr

/-- Lines 104-106, the body of the loop of `to3chan`: the three assignments
`data[3 * i + k] = data[4 * i + k]`, in the order `k = 0, 1, 2`. -/
def to3chanPixel {α : Type} (data : Nat → α) (i : Nat) : Nat → α :=
  let data := Function.update data (3 * i + 0) (data (4 * i + 0))
  let data := Function.update data (3 * i + 1) (data (4 * i + 1))
  Function.update data (3 * i + 2) (data (4 * i + 2))

/-- The function `to3chan`: the loop body for `i` from 0 up to `width * height`, in place. -/
def to3chan {α : Type} (data : Nat → α) (width height : Nat) : Nat → α :=
  (List.range (width * height)).foldl to3chanPixel data

/-- The call `memcpy(data, tmp, n)` of line 2264 seen from the float array `data`:
byte `r` of `data[i]` is overwritten by byte `r` of `tmp[i]` when `4 * i + r < n`.
The array is indexed by all natural numbers: which of the floats lie inside the allocation
of `height * width * 4` floats is not part of this function. -/
def memcpyFloats {β : Type} (img : Nat → β) (tmp n : Nat) (data : Nat → F32 β) : Nat → F32 β :=
  fun i =>
    let s := loadFloat img (tmp + i)
    let d := data i
    ⟨if 4 * i < n then s.b0 else d.b0, if 4 * i + 1 < n then s.b1 else d.b1,
     if 4 * i + 2 < n then s.b2 else d.b2, if 4 * i + 3 < n then s.b3 else d.b3⟩

/-- State of the copy loops of lines 2266-2278: the array `data` and the cursors `dataP`
(floats past `data`) and `tp` (floats past the mapped base address). -/
structure CopyState (β : Type) where
  data : Nat → F32 β
  dataP : Nat
  tp : Nat

/-- Line 2272: `*(dataP++) = *(tp++)`. -/
def copyFloat {β : Type} (img : Nat → β) (s : CopyState β) : CopyState β :=
  ⟨Function.update s.data s.dataP (loadFloat img s.tp), s.dataP + 1, s.tp + 1⟩

/-- Lines 2269-2274: one scanline, `width` texels of 4 floats each, read from `tmp`. -/
def copyRow {β : Type} (img : Nat → β) (width tmp : Nat) (data : Nat → F32 β) (dataP : Nat) :
    CopyState β :=
  Nat.iterate (Nat.iterate (copyFloat img) 4) width ⟨data, dataP, tmp⟩

/-- Lines 2266-2278: `height` scanlines; after each one `tmp += srl.rowPitch / sizeof(out_type)`.
The state is `(data, dataP, tmp)`. -/
def copyRows {β : Type} (img : Nat → β) (width height rowPitch tmp : Nat)
    (data : Nat → F32 β) : Nat → F32 β :=
  (Nat.iterate
    (fun (s : (Nat → F32 β) × Nat × Nat) =>
      let r := copyRow img width s.2.2 s.1 s.2.1
      (r.data, r.dataP, s.2.2 + rowPitch / 4))
    height (data, 0, tmp)).1

/-- Lines 2259-2288 of `renderCustom`: from the mapped memory `img` (bytes past the address
that `vkMapMemory` returns) to the array handed to `output_image_float`; `data0` is the
content of the freshly allocated array `data`. -/
def readback {β : Type} (img : Nat → β) (srl : VkSubresourceLayout) (width height : Nat)
    (data0 : Nat → F32 β) : Nat → F32 β :=
  let tmp := srl.offset / 4
  let data :=
    if srl.rowPitch = width * 4 * 4 then memcpyFloats img tmp srl.size data0
    else copyRows img width height srl.rowPitch tmp data0
  to3chan data width height

/-- The source pixels in the words of the specification: float `i` of the image, whose
first byte is at byte offset `srl.offset` of the mapped memory. -/
def imageFloats {β : Type} (img : Nat → β) (srl : VkSubresourceLayout) (i : Nat) : F32 β :=
  floatAtByte img (srl.offset + 4 * i)

/-- The tightly packed alpha-dropped copy of a 4-channel float array, in the words of the
specification: float `m` of the copy is channel `m % 3` of pixel `m / 3`. -/
def alphaDropped {α : Type} (src : Nat → α) (m : Nat) : α := src (4 * (m / 3) + m % 3)

/-- An example of mapped memory: the byte at offset `b` is labelled `b`. -/
def byteLabels : Nat → Nat := fun b => b

/-! ## main.cpp: file name and sweep controller -/

/-- The constant `OUTPUT_INDEX_PAD` (line 17). -/
def OUTPUT_INDEX_PAD : Nat := 1

/-- The constant `num_available_features`. -/
def num_available_features : Nat := 4

/-- The initialised entries of `available_features`. -/
def available_features : List String := ["", "normal", "albedo", "position"]

/-- The struct `Settings`, the fields read by the capture code; `V` is the type of the
entries of `pathViews`. -/
structure Settings (V : Type) where
  followPath : Bool
  pathViews : List V
  feature_buffers : List String
  output_prefixes : List String
  start_index : Int
  interval_t0 : Int
  interval_t1 : Int

/-- Conversion of an `int` to `size_t`. -/
def toSizeT (i : Int) : Nat := (i % 2 ^ 64).toNat

/-- Conversion of a `size_t` to `int`: the value modulo `2 ^ 32`, in two's complement. -/
def toInt32 (n : Nat) : Int :=
  if n % 2 ^ 32 < 2 ^ 31 then ((n % 2 ^ 32 : Nat) : Int) else ((n % 2 ^ 32 : Nat) : Int) - 2 ^ 32

/-- Line 2761: `start_count`. -/
def start_count {V : Type} (settings : Settings V) : Nat :=
  if settings.interval_t0 = -1 then 0 else toSizeT settings.interval_t0

/-- Line 2762: `end_count`. -/
def end_count {V : Type} (settings : Settings V) : Nat :=
  if settings.interval_t1 = -1 then settings.pathViews.length
  else toSizeT (settings.interval_t1 + 1)

/-- Output of `oss << std::setfill(fill) << std::setw(width) << s`. -/
def padLeft (width : Nat) (fill : Char) (s : String) : String :=
  String.mk (List.replicate (width - s.length) fill) ++ s

/-- Lines 2283-2285: the file name built by `renderCustom` from the prefix and its `int`
parameter `count`. -/
def fileName (pfx : String) (count : Int) : String :=
  pfx ++ padLeft OUTPUT_INDEX_PAD '0' (toString count) ++ ".exr"

/-- Line 2813: the first argument `count + settings.start_index` of `renderCustom`, a
`size_t` sum received by an `int` parameter. -/
def frameArg {V : Type} (settings : Settings V) (count : Nat) : Int :=
  toInt32 ((count + toSizeT settings.start_index) % 2 ^ 64)

/-- One captured frame: the file written, the camera pose and the debug view in force. -/
structure Capture (V : Type) where
  file : String
  camera : Option V
  debugViewEquation : Nat
  deriving DecidableEq, Repr

/-- The state that `render` reads and writes: the flag `prepared`, the statics `count` and
`feature_count`, the flag `quit`, `shaderValuesParams.debugViewEquation`, the pose last
set on the camera, and the frames captured so far. -/
structure SweepState (V : Type) where
  prepared : Bool
  count : Nat
  feature_count : Nat
  quit : Bool
  debugViewEquation : Nat
  camera : Option V
  captures : List (Capture V)
  deriving DecidableEq, Repr

/-- The state before the first call of `render`: the statics hold their initialisers
(lines 2764-2765), nothing is captured. -/
def initialState {V : Type} (settings : Settings V) : SweepState V :=
  { prepared := true, count := start_count settings, feature_count := 0, quit := false,
    debugViewEquation := 0, camera := none, captures := [] }

/-- Lines 2784-2786: the camera takes the pose `settings.pathViews[count]`. -/
def followCamera {V : Type} (settings : Settings V) (s : SweepState V) : Run (SweepState V) :=
  match settings.pathViews[s.count]? with
  | none => .fault .pathViews_oob
  | some decomp => .done { s with camera := some decomp }

/-- Lines 2790-2803: at the first frame of a pass the feature name selects the debug view. -/
def selectFeature {V : Type} (settings : Settings V) (s : SweepState V) : Run (SweepState V) :=
  if s.count = start_count settings ∧ settings.feature_buffers.length ≠ 0 then
    match settings.feature_buffers[s.feature_count]? with
    | none => .fault .feature_buffers_oob
    | some name =>
      match (available_features.take num_available_features).findIdx? (fun a => a == name) with
      | some i => .done { s with debugViewEquation := i }
      | none => .done s
  else .done s

/-- The function `renderCustom` as the sweep sees it: without path following it returns at
once; otherwise one frame is rendered, read back and written to the file named at lines
2283-2285.  The parameter `feature_index` is kept as the natural number `feature_count`
that `render` passes (its conversion to `int` and back is the identity below `2 ^ 31`). -/
def renderCustom {V : Type} (settings : Settings V) (count : Int) (feature_index : Nat)
    (s : SweepState V) : Run (SweepState V) :=
  if !settings.followPath then .done s
  else
    match settings.output_prefixes[feature_index]? with
    | none => .fault .output_prefixes_oob
    | some pfx =>
      .done { s with captures := s.captures ++ [⟨fileName pfx count, s.camera, s.debugViewEquation⟩] }

/-- Lines 2790-2814 of `render`: feature selection, `renderCustom`, `count++`. -/
def renderCapture {V : Type} (settings : Settings V) (s : SweepState V) : Run (SweepState V) :=
  (selectFeature settings s).bind fun s =>
    (renderCustom settings (frameArg settings s.count) s.feature_count s).bind fun s =>
      .done { s with count := s.count + 1 }

/-- The function `render` (lines 2754-2819). -/
def render {V : Type} (settings : Settings V) (s : SweepState V) : Run (SweepState V) :=
  if !s.prepared then .done s
  else if settings.followPath then
    if s.count ≥ end_count settings then
      if settings.feature_buffers.length ≠ 0 then
        match settings.feature_buffers[s.feature_count]? with
        | none => .fault .feature_buffers_oob
        | some _ =>
          let s := { s with count := start_count settings, feature_count := s.feature_count + 1 }
          if s.feature_count ≥ settings.feature_buffers.length then .done { s with quit := true }
          else (followCamera settings s).bind (renderCapture settings)
      else (followCamera settings s).bind (renderCapture settings)
    else (followCamera settings s).bind (renderCapture settings)
  else renderCapture settings s

/-- The state after `n` successive calls of `render`. -/
def renderN {V : Type} (settings : Settings V) : Nat → SweepState V → Run (SweepState V)
  | 0, s => .done s
  | n + 1, s => (renderN settings n s).bind (render settings)

/-- The files that one pass writes for the prefix `pfx`: the frames `start_count` up to
`end_count - 1`, in this order. -/
def passFiles {V : Type} (settings : Settings V) (pfx : String) : List String :=
  (List.range (end_count settings - start_count settings)).map fun i =>
    fileName pfx (frameArg settings (start_count settings + i))

/-- Feature-major order: the files of the pass of the first feature, then those of the
second, and so on. -/
def sweepFiles {V : Type} (settings : Settings V) : List String :=
  ((settings.output_prefixes.take settings.feature_buffers.length).map
    (passFiles settings)).flatten

/-! ## Auxiliary definitions of the sweep proofs and examples -/

/-- The files written when `f` passes are complete and `i` frames of the next pass, whose
prefix is `pfx`, are done. -/
def filesSoFar {V : Type} (settings : Settings V) (f i : Nat) (pfx : String) : List String :=
  ((settings.output_prefixes.take f).map (passFiles settings)).flatten ++
    (List.range i).map fun j => fileName pfx (frameArg settings (start_count settings + j))

/-- The state reached when `f` passes are complete and `i` frames of the pass of feature
`f` are captured. -/
def SweepAt {V : Type} (settings : Settings V) (f i : Nat) (s : SweepState V) : Prop :=
  ∃ pfx, settings.output_prefixes[f]? = some pfx ∧ s.prepared = true ∧ s.quit = false ∧
    s.count = start_count settings + i ∧ s.feature_count = f ∧
    s.captures.map (·.file) = filesSoFar settings f i pfx ∧
    s.captures.length = f * (end_count settings - start_count settings) + i

/-- The sweep of the scenario: features `normal`, `albedo`, prefixes `n_`, `a_`, interval
`[0, 5)` on a path of five poses, labelled by their index. -/
def exampleSweep : Settings Nat :=
  { followPath := true, pathViews := List.range 5, feature_buffers := ["normal", "albedo"],
    output_prefixes := ["n_", "a_"], start_index := 0, interval_t0 := 0, interval_t1 := 4 }

/-- A sweep without feature list over a path of 21 poses, labelled by their index, with the
interval `[0, t1]`. -/
def pathOnlySweep (t1 : Int) : Settings Nat :=
  { followPath := true, pathViews := List.range 21, feature_buffers := [],
    output_prefixes := ["out_"], start_index := 0, interval_t0 := 0, interval_t1 := t1 }

/-- A sweep of one feature over a path of five poses with a start offset of the written
index and no interval. -/
def offsetSweep (start_index : Int) : Settings Nat :=
  { followPath := true, pathViews := List.range 5, feature_buffers := ["normal"],
    output_prefixes := ["n_"], start_index := start_index, interval_t0 := -1,
    interval_t1 := -1 }

/-- The loop of lines 2792-2798 on a feature name: the index of the first entry of
`available_features` equal to the name, if there is one. -/
def firstMatch (name : String) : Option Nat :=
  (available_features.take num_available_features).findIdx? (fun a => a == name)

/-- The value of `debugViewEquation` after the first frames of passes for the given feature
names, starting from the default 0: a recognised name sets it, another name leaves it. -/
def viewAfter (names : List String) : Nat :=
  names.foldl (fun d name => (firstMatch name).getD d) 0

/-- A sweep whose second feature name is not recognised. -/
def unknownFeatureSweep : Settings Nat :=
  { followPath := true, pathViews := List.range 5, feature_buffers := ["normal", "foo"],
    output_prefixes := ["n_", "f_"], start_index := 0, interval_t0 := 0, interval_t1 := 4 }

/-- A sweep of two features over the frames 2 to 5 of a path of eight poses, labelled
100 to 107. -/
def intervalSweep : Settings Nat :=
  { followPath := true, pathViews := (List.range 8).map (· + 100),
    feature_buffers := ["normal", "albedo"], output_prefixes := ["n_", "a_"], start_index := 0,
    interval_t0 := 2, interval_t1 := 5 }

/-- The state that a capturing call of `render` leaves: the camera at `pose`, the debug view
`d`, one more capture, the counter advanced. -/
def captured {V : Type} (settings : Settings V) (s : SweepState V) (fc count : Nat)
    (pfx : String) (pose : V) (d : Nat) : SweepState V :=
  { prepared := true, count := count + 1, feature_count := fc, quit := s.quit,
    debugViewEquation := d, camera := some pose,
    captures := s.captures ++ [⟨fileName pfx (frameArg settings count), some pose, d⟩] }

/-! ## main.cpp: `output_image_float` -/

/-- Conversion of a `size_t` to the 64-bit signed `stride_t`, in two's complement. -/
def toInt64 (n : Nat) : Int :=
  if n % 2 ^ 64 < 2 ^ 63 then ((n % 2 ^ 64 : Nat) : Int) else ((n % 2 ^ 64 : Nat) : Int) - 2 ^ 64

/-- What `output_image_float` hands to the image library: the file name, the `ImageSpec`
(line 127: `width`, `height`, 3 channels of `float`), and the arguments of `write_image`
(lines 129-131): the start `data + dataStart`, counted in floats, the automatic pixel stride
and the row stride `ystride` in bytes. -/
structure WriteImage where
  file_name : String
  width : Int
  height : Int
  nchannels : Nat
  dataStart : Int
  ystride : Int
  deriving DecidableEq, Repr

/-- The function `output_image_float` (lines 110-132); `canCreate` tells whether
`ImageOutput::create` returns an object.  An error is the status of `exit`; otherwise the
result is the image handed to the library and the array `data` after the call (the function
holds no assignment to it).  The row stride is `- width * 3 * sizeof(float)`: the `int`
product `-width * 3` is converted to `size_t`, multiplied there, and received as `stride_t`. -/
def output_image_float {α : Type} (canCreate : Bool) (data : Nat → α) (width height channels : Int)
    (file_name : String) : Except Int (WriteImage × (Nat → α)) :=
  if channels ≠ 3 then .error (-1)
  else if !canCreate then .error (-1)
  else
    .ok ({ file_name := file_name, width := width, height := height, nchannels := 3,
           dataStart := 3 * width * (height - 1),
           ystride := toInt64 ((toSizeT (-width * 3) * 4) % 2 ^ 64) }, data)

/-- Addressing of `ImageOutput::write_image` of the OpenImageIO library with a `float` format
and the automatic pixel stride `nchannels * sizeof(float)`: channel `c` of pixel `x` of the
row `y` of the file (row 0 is the top row) is read `y * ystride + x * (nchannels * 4) + 4 * c`
bytes past the start address; the value is this position in floats past `data`. -/
def fileFloatIndex (w : WriteImage) (y x c : Nat) : Int :=
  (4 * w.dataStart + (y : Int) * w.ystride + (x : Int) * ((w.nchannels : Int) * 4) + 4 * (c : Int)) / 4

/-- The float that the file receives as channel `c` of pixel `x` of row `y`. -/
def fileFloat {α : Type} (w : WriteImage) (data : Nat → α) (y x c : Nat) : α :=
  data (fileFloatIndex w y x c).toNat

/-! ## main.cpp: the host protocol of `renderCustom` -/

/-- The values of `VkResult` that the calls of `renderCustom` can return. -/
inductive VkResult where
  | VK_SUCCESS
  | VK_TIMEOUT
  | VK_ERROR_OUT_OF_HOST_MEMORY
  | VK_ERROR_OUT_OF_DEVICE_MEMORY
  | VK_ERROR_DEVICE_LOST
  | VK_ERROR_MEMORY_MAP_FAILED
  deriving DecidableEq, Repr

/-- The image layouts named in `renderCustom`. -/
inductive VkImageLayout where
  | VK_IMAGE_LAYOUT_UNDEFINED
  | VK_IMAGE_LAYOUT_GENERAL
  | VK_IMAGE_LAYOUT_COLOR_ATTACHMENT_OPTIMAL
  | VK_IMAGE_LAYOUT_TRANSFER_SRC_OPTIMAL
  | VK_IMAGE_LAYOUT_TRANSFER_DST_OPTIMAL
  deriving DecidableEq, Repr

/-- The two images of the copy: `customStuff.fbColor.image`, the colour attachment, and
`customStuff.reachableImage.image`, the host-visible readback image. -/
inductive Image where
  | fbColor
  | reachableImage
  deriving DecidableEq, Repr

/-- The two batches submitted to the queue: the pre-recorded render command buffer
`customStuff.commandBuffers[currentBuffer]` and the copy command buffer
`customStuff.secondCommandBuffer`. -/
inductive Batch where
  | render
  | copy
  deriving DecidableEq, Repr

/-- The operations of `renderCustom` after the `followPath` test, one per statement.  Both
submissions, both waits and both resets name the one fence `customStuff.fence`. -/
inductive Op where
  | vkQueueSubmit (batch : Batch)
  | usleep
  | vkBeginCommandBuffer
  | cmdSetLayout (image : Image) (oldLayout newLayout : VkImageLayout)
  | vkCmdCopyImage (srcLayout dstLayout : VkImageLayout)
  | vkEndCommandBuffer
  | vkWaitForFences (timeout : Nat)
  | vkResetFences
  | vkGetImageSubresourceLayout
  | resetCamera
  | vkMapMemory
  | readPixels
  | vkUnmapMemory
  | writeImage
  deriving DecidableEq, Repr

/-- One operation performed by the host, with the `VkResult` it returned if it returns one. -/
structure Event where
  op : Op
  res : Option VkResult
  deriving DecidableEq, Repr

/-- The statement of `renderCustom` that is executed next; `terminated` is the end of the
process. -/
inductive Pos where
  | followPathCheck
  | submitRender
  | sleep
  | beginCopy
  | colorToTransferSrc
  | reachableToTransferDst
  | copyImage
  | colorToColorAttachment
  | reachableToGeneral
  | endCopy
  | waitRender
  | resetAfterRender
  | submitCopy
  | waitCopy
  | resetAfterCopy
  | getLayout
  | resetCamera
  | mapMemory
  | readPixels
  | unmapMemory
  | writeImage
  | terminated
  deriving DecidableEq, Repr

/-- The host while it runs successive calls of `renderCustom`: the next statement, the number
of calls that have returned, the number of results taken from the device so far, and the
operations performed so far, oldest first. -/
structure HostState where
  pos : Pos
  calls : Nat
  used : Nat
  trace : List Event
  deriving DecidableEq, Repr

/-- A statement without result: the operation is performed and control moves on. -/
def perform (s : HostState) (op : Op) (next : Pos) : HostState :=
  { s with pos := next, trace := s.trace ++ [⟨op, none⟩] }

/-- A call whose result is not looked at (line 2156). -/
def callUnchecked (env : Nat → VkResult) (s : HostState) (op : Op) (next : Pos) : HostState :=
  { s with pos := next, used := s.used + 1, trace := s.trace ++ [⟨op, some (env s.used)⟩] }

/-- Modelled from the spec: the macro `VK_CHECK_RESULT` of `macros.h`, which is not among the
sources; a call wrapped in it that does not return `VK_SUCCESS` is fatal, the process
terminates. -/
def VK_CHECK_RESULT (env : Nat → VkResult) (s : HostState) (op : Op) (next : Pos) : HostState :=
  { s with pos := if env s.used = .VK_SUCCESS then next else .terminated, used := s.used + 1,
           trace := s.trace ++ [⟨op, some (env s.used)⟩] }

/-- One iteration of `do { res = vkWaitForFences(..., timeout); } while (res == VK_TIMEOUT);`
(lines 2222-2224 and 2232-2234): the loop is left when the result is not `VK_TIMEOUT`. -/
def waitIteration (env : Nat → VkResult) (s : HostState) (timeout : Nat) (next : Pos) :
    HostState :=
  { s with pos := if env s.used = .VK_TIMEOUT then s.pos else next, used := s.used + 1,
           trace := s.trace ++ [⟨.vkWaitForFences timeout, some (env s.used)⟩] }

/-- One statement of `renderCustom` (lines 2107-2295); `env n` is the `n`-th result that
the device returns.  After the last statement the function returns and the next call
starts.  The file is taken to be writable: the exit of `output_image_float` is not part of
the protocol. -/
def step (followPath : Bool) (env : Nat → VkResult) (s : HostState) : HostState :=
  match s.pos with
  | .followPathCheck =>
    if !followPath then { s with calls := s.calls + 1 } else { s with pos := .submitRender }
  | .submitRender => VK_CHECK_RESULT env s (.vkQueueSubmit .render) .sleep
  | .sleep => perform s .usleep .beginCopy
  | .beginCopy => callUnchecked env s .vkBeginCommandBuffer .colorToTransferSrc
  | .colorToTransferSrc =>
    perform s (.cmdSetLayout .fbColor .VK_IMAGE_LAYOUT_COLOR_ATTACHMENT_OPTIMAL
      .VK_IMAGE_LAYOUT_TRANSFER_SRC_OPTIMAL) .reachableToTransferDst
  | .reachableToTransferDst =>
    perform s (.cmdSetLayout .reachableImage .VK_IMAGE_LAYOUT_UNDEFINED
      .VK_IMAGE_LAYOUT_TRANSFER_DST_OPTIMAL) .copyImage
  | .copyImage =>
    perform s (.vkCmdCopyImage .VK_IMAGE_LAYOUT_TRANSFER_SRC_OPTIMAL
      .VK_IMAGE_LAYOUT_TRANSFER_DST_OPTIMAL) .colorToColorAttachment
  | .colorToColorAttachment =>
    perform s (.cmdSetLayout .fbColor .VK_IMAGE_LAYOUT_TRANSFER_SRC_OPTIMAL
      .VK_IMAGE_LAYOUT_COLOR_ATTACHMENT_OPTIMAL) .reachableToGeneral
  | .reachableToGeneral =>
    perform s (.cmdSetLayout .reachableImage .VK_IMAGE_LAYOUT_TRANSFER_DST_OPTIMAL
      .VK_IMAGE_LAYOUT_GENERAL) .endCopy
  | .endCopy => VK_CHECK_RESULT env s .vkEndCommandBuffer .waitRender
  | .waitRender => waitIteration env s 10000000 .resetAfterRender
  | .resetAfterRender => VK_CHECK_RESULT env s .vkResetFences .submitCopy
  | .submitCopy => VK_CHECK_RESULT env s (.vkQueueSubmit .copy) .waitCopy
  | .waitCopy => waitIteration env s 10000 .resetAfterCopy
  | .resetAfterCopy => VK_CHECK_RESULT env s .vkResetFences .getLayout
  | .getLayout => perform s .vkGetImageSubresourceLayout .resetCamera
  | .resetCamera => perform s .resetCamera .mapMemory
  | .mapMemory => VK_CHECK_RESULT env s .vkMapMemory .readPixels
  | .readPixels => perform s .readPixels .unmapMemory
  | .unmapMemory => perform s .vkUnmapMemory .writeImage
  | .writeImage => { perform s .writeImage .followPathCheck with calls := s.calls + 1 }
  | .terminated => s

/-- The host before the first call of `renderCustom`. -/
def hostStart : HostState := { pos := .followPathCheck, calls := 0, used := 0, trace := [] }

/-- The host after `k` statements. -/
def runHost (followPath : Bool) (env : Nat → VkResult) : Nat → HostState
  | 0 => hostStart
  | k + 1 => step followPath env (runHost followPath env k)

/-- A device that returns `VK_SUCCESS` every time. -/
def allSuccess : Nat → VkResult := fun _ => .VK_SUCCESS

/-- A device whose result number `n` is `r`, all others being `VK_SUCCESS`. -/
def resultAt (n : Nat) (r : VkResult) : Nat → VkResult :=
  fun m => if m = n then r else .VK_SUCCESS

/-! ## Auxiliary definitions of the protocol proofs -/

/-- Effect of one operation on the number of batches that are submitted and not yet awaited:
a successful submission adds one, a completed fence wait (one that returned `VK_SUCCESS`)
leaves none; a wait that returned `VK_TIMEOUT` or an error has awaited nothing. -/
def unawaitedStep (n : Nat) (ev : Event) : Nat :=
  match ev.op, ev.res with
  | .vkQueueSubmit _, some .VK_SUCCESS => n + 1
  | .vkWaitForFences _, some .VK_SUCCESS => 0
  | _, _ => n

/-- The number of batches submitted and not yet awaited after the operations `tr`. -/
def unawaited (tr : List Event) : Nat := tr.foldl unawaitedStep 0

/-- The number that `unawaited` has before each statement when no wait returned a hard
error; at `terminated` it is not fixed. -/
def unawaitedAt : Pos → Option Nat
  | .followPathCheck | .submitRender | .resetAfterRender | .submitCopy | .resetAfterCopy
  | .getLayout | .resetCamera | .mapMemory | .readPixels | .unmapMemory | .writeImage => some 0
  | .sleep | .beginCopy | .colorToTransferSrc | .reachableToTransferDst | .copyImage
  | .colorToColorAttachment | .reachableToGeneral | .endCopy | .waitRender | .waitCopy => some 1
  | .terminated => none

/-- How far the copy of the current frame has come: no copy submitted so far, submitted,
awaited (a fence wait after the submission has ended), read back. -/
inductive CopyPhase where
  | notSubmitted
  | submitted
  | awaited
  | readBack
  deriving DecidableEq, Repr

/-- Effect of one operation on the phase of the copy: a successful submission of the copy
batch starts it, a fence wait that ends (a result other than `VK_TIMEOUT`) after the
submission makes it awaited, the pixel read after that makes it read back. -/
def copyStep (p : CopyPhase) (ev : Event) : CopyPhase :=
  match ev.op, ev.res with
  | .vkQueueSubmit .copy, some .VK_SUCCESS => .submitted
  | .vkWaitForFences _, some r => if p = .submitted ∧ r ≠ .VK_TIMEOUT then .awaited else p
  | .readPixels, _ => if p = .awaited then .readBack else p
  | _, _ => p

/-- The phase of the copy after the operations `tr`. -/
def copyPhase (tr : List Event) : CopyPhase := tr.foldl copyStep .notSubmitted

/-- The phases that the copy can have before each statement. -/
def phaseAt : Pos → CopyPhase → Prop
  | .waitCopy, p => p = .submitted
  | .resetAfterCopy, p | .getLayout, p | .resetCamera, p | .mapMemory, p | .readPixels, p =>
    p = .awaited
  | .unmapMemory, p | .writeImage, p => p = .readBack
  | .terminated, _ => True
  | _, p => p = .notSubmitted ∨ p = .readBack

/-- The successful submission of the copy batch. -/
def copySubmission : Event := ⟨.vkQueueSubmit .copy, some .VK_SUCCESS⟩

/-- A fence wait that ends: `vkWaitForFences` with a result other than `VK_TIMEOUT`. -/
def endedWait (ev : Event) : Prop :=
  ∃ t r, ev = ⟨.vkWaitForFences t, some r⟩ ∧ r ≠ .VK_TIMEOUT

/-- A completed fence wait: `vkWaitForFences` with the result `VK_SUCCESS`. -/
def completedWait (ev : Event) : Prop := ∃ t, ev = ⟨.vkWaitForFences t, some .VK_SUCCESS⟩

/-- A successful queue submission, of either batch. -/
def submission (ev : Event) : Prop := ∃ b, ev = ⟨.vkQueueSubmit b, some .VK_SUCCESS⟩

/-- The fence `customStuff.fence` as the Vulkan specification describes it: unsignaled,
pending (a submitted batch will signal it), signaled (a wait has returned `VK_SUCCESS`), or
misused (a submission with a fence that is not unsignaled, or a reset of a pending fence). -/
inductive FenceState where
  | unsignaled
  | pending
  | signaled
  | misused
  deriving DecidableEq, Repr

/-- Effect of one operation on the fence. -/
def fenceStep (f : FenceState) (ev : Event) : FenceState :=
  match ev.op, ev.res with
  | .vkQueueSubmit _, some .VK_SUCCESS => if f = .unsignaled then .pending else .misused
  | .vkWaitForFences _, some .VK_SUCCESS => if f = .pending then .signaled else f
  | .vkResetFences, some .VK_SUCCESS =>
    if f = .signaled ∨ f = .unsignaled then .unsignaled else .misused
  | _, _ => f

/-- The fence after the operations `tr`; it is created unsignaled (`fci.flags = 0`,
line 2392 of `setupCustomStuff`). -/
def fenceAfter (tr : List Event) : FenceState := tr.foldl fenceStep .unsignaled

/-- No fence wait of `tr` returned a hard error: each returned `VK_SUCCESS` or `VK_TIMEOUT`. -/
def noHardWaitError (tr : List Event) : Prop :=
  ∀ ev ∈ tr, ∀ t r, ev = ⟨.vkWaitForFences t, some r⟩ → r = .VK_SUCCESS ∨ r = .VK_TIMEOUT

/-- Effect of one operation on the flag that tells whether a fence wait has returned a hard
error. -/
def hardErrorStep (seen : Bool) (ev : Event) : Bool :=
  match ev.op, ev.res with
  | .vkWaitForFences _, some .VK_SUCCESS => seen
  | .vkWaitForFences _, some .VK_TIMEOUT => seen
  | .vkWaitForFences _, some _ => true
  | _, _ => seen

/-- Whether a fence wait of `tr` returned a hard error. -/
def hardErrorSeen (tr : List Event) : Bool := tr.foldl hardErrorStep false

/-- The state of the fence before each statement when no wait returned a hard error. -/
def fenceAt : Pos → Option FenceState
  | .followPathCheck | .submitRender | .submitCopy | .getLayout | .resetCamera | .mapMemory
  | .readPixels | .unmapMemory | .writeImage => some .unsignaled
  | .sleep | .beginCopy | .colorToTransferSrc | .reachableToTransferDst | .copyImage
  | .colorToColorAttachment | .reachableToGeneral | .endCopy | .waitRender | .waitCopy =>
    some .pending
  | .resetAfterRender | .resetAfterCopy => some .signaled
  | .terminated => none

/-- Effect of one operation on the last operation that names the fence. -/
def lastFenceStep (o : Option Event) (ev : Event) : Option Event :=
  match ev.op with
  | .vkQueueSubmit _ | .vkWaitForFences _ | .vkResetFences => some ev
  | _ => o

/-- The last operation of `tr` that names the fence: a submission, a wait or a reset. -/
def lastFenceOp (tr : List Event) : Option Event := tr.foldl lastFenceStep none

/-- The statements before which the last operation on the fence, if there is one, is a
successful reset. -/
def freshAt : Pos → Bool
  | .followPathCheck | .submitRender | .submitCopy | .getLayout | .resetCamera | .mapMemory
  | .readPixels | .unmapMemory | .writeImage => true
  | _ => false

/-- The operations wrapped in `VK_CHECK_RESULT`. -/
def checkedOp : Op → Bool
  | .vkQueueSubmit _ | .vkEndCommandBuffer | .vkResetFences | .vkMapMemory => true
  | _ => false

/-- The operations of one call of `renderCustom` on a device that returns `VK_SUCCESS` every
time, in the order of the source. -/
def captureTrace : List Event :=
  [⟨.vkQueueSubmit .render, some .VK_SUCCESS⟩,
   ⟨.usleep, none⟩,
   ⟨.vkBeginCommandBuffer, some .VK_SUCCESS⟩,
   ⟨.cmdSetLayout .fbColor .VK_IMAGE_LAYOUT_COLOR_ATTACHMENT_OPTIMAL
      .VK_IMAGE_LAYOUT_TRANSFER_SRC_OPTIMAL, none⟩,
   ⟨.cmdSetLayout .reachableImage .VK_IMAGE_LAYOUT_UNDEFINED
      .VK_IMAGE_LAYOUT_TRANSFER_DST_OPTIMAL, none⟩,
   ⟨.vkCmdCopyImage .VK_IMAGE_LAYOUT_TRANSFER_SRC_OPTIMAL
      .VK_IMAGE_LAYOUT_TRANSFER_DST_OPTIMAL, none⟩,
   ⟨.cmdSetLayout .fbColor .VK_IMAGE_LAYOUT_TRANSFER_SRC_OPTIMAL
      .VK_IMAGE_LAYOUT_COLOR_ATTACHMENT_OPTIMAL, none⟩,
   ⟨.cmdSetLayout .reachableImage .VK_IMAGE_LAYOUT_TRANSFER_DST_OPTIMAL
      .VK_IMAGE_LAYOUT_GENERAL, none⟩,
   ⟨.vkEndCommandBuffer, some .VK_SUCCESS⟩,
   ⟨.vkWaitForFences 10000000, some .VK_SUCCESS⟩,
   ⟨.vkResetFences, some .VK_SUCCESS⟩,
   ⟨.vkQueueSubmit .copy, some .VK_SUCCESS⟩,
   ⟨.vkWaitForFences 10000, some .VK_SUCCESS⟩,
   ⟨.vkResetFences, some .VK_SUCCESS⟩,
   ⟨.vkGetImageSubresourceLayout, none⟩,
   ⟨.resetCamera, none⟩,
   ⟨.vkMapMemory, some .VK_SUCCESS⟩,
   ⟨.readPixels, none⟩,
   ⟨.vkUnmapMemory, none⟩,
   ⟨.writeImage, none⟩]

/-- A device that returns `VK_TIMEOUT` for the `n` results from number `first` on and
`VK_SUCCESS` otherwise. -/
def timeoutsAt (first n : Nat) : Nat → VkResult :=
  fun m => if first ≤ m ∧ m < first + n then .VK_TIMEOUT else .VK_SUCCESS

/-- The largest frame index of a checkpoint list (the first one on an empty list). -/
def maxT (cps : List CameraCheckpoint) : Int := cps.foldl (fun m c => max m c.t) (firstT cps)

/-- The view of the call made with the segment cursor at `c` for the frame `t`, when both
checkpoints of the segment exist. -/
def segmentCall {β : Type} (f : CameraCheckpoint → CameraCheckpoint → Int → β)
    (cps : List CameraCheckpoint) (c : Nat) (t : Int) : Option β :=
  match cps[c]?, cps[c + 1]? with
  | some a, some b => some (f a b t)
  | _, _ => none

/-- The views of the calls made with the segment cursor at the successive positions
`cursors`, for the successive frames from `t` on. -/
def callsFrom {β : Type} (f : CameraCheckpoint → CameraCheckpoint → Int → β)
    (cps : List CameraCheckpoint) : Int → List Nat → List (Option β)
  | _, [] => []
  | t, c :: cs => segmentCall f cps c t :: callsFrom f cps (t + 1) cs

/-- A checkpoint list whose frame indices are not increasing: 5, 5, 3, 10. -/
def unorderedPath : List CameraCheckpoint :=
  [⟨⟨0, 0, 0⟩, ⟨0, 0, 1⟩, 5⟩, ⟨⟨1, 0, 0⟩, ⟨0, 0, 1⟩, 5⟩, ⟨⟨2, 0, 0⟩, ⟨0, 0, 1⟩, 3⟩,
   ⟨⟨3, 0, 0⟩, ⟨0, 0, 1⟩, 10⟩]

/-- The decimal value of a string of digits, read from the left; leading zeros do not
count. -/
def decimalValue (cs : List Char) : Nat :=
  cs.foldl (fun acc c => 10 * acc + (c.toNat - 48)) 0

/-! ## pathread.hpp: reading the path file -/

/-- The value that `json::parse` returns, as far as `getPath` looks at it: an array with its
elements, or a value for which `is_array()` is false.  `J` is the type of the elements. -/
inductive JsonTop (J : Type) where
  | array (items : List J)
  | other
  deriving DecidableEq, Repr

/-- The ways in which a call of `getPath` ends without returning: `exit(status)` after a
message on `std::cerr`, an exception of the JSON library that leaves `getPath`, an undefined
access, or (in the embedding only) the loop running out of fuel. -/
inductive PathError where
  | exit (status : Int) (message : String)
  | exception
  | fault (f : Fault)
  | outOfFuel
  deriving DecidableEq, Repr

/-- The loop of lines 67-69: `cpFromObj` applied to the elements in order; the first
element on which it throws ends the loop. -/
def readCheckpoints {J : Type} (cpFromObj : J → Option CameraCheckpoint) :
    List J → Option (List CameraCheckpoint)
  | [] => some []
  | j :: rest =>
    match cpFromObj j with
    | none => none
    | some c =>
      match readCheckpoints cpFromObj rest with
      | none => none
      | some cps => some (c :: cps)

/-- The function `getPath` from its argument `str` (lines 45-86).  `fs` is the content of
the file when it can be opened; `parse` is `json::parse` of the JSON library, `none` when it
throws; `cpFromObj` is the conversion of one element (lines 20-26), which rests on the
accessors of the library, `none` when they throw.  The part after the loop of line 67 is
`getPath` on the checkpoints. -/
def getPathFromFile {J : Type} (sqrt : ℚ → ℚ) (fuel : Nat)
    (parse : String → Option (JsonTop J)) (cpFromObj : J → Option CameraCheckpoint)
    (str : String) (fs : Option String) : Except PathError (List Mat4) :=
  match fs with
  | none => .error (.exit 0 ("Could not open file " ++ str ++ "\n"))
  | some ss =>
    match parse ss with
    | none => .error .exception
    | some (.other) => .error (.exit 0 "JSON object was not a list!\n")
    | some (.array items) =>
      match readCheckpoints cpFromObj items with
      | none => .error .exception
      | some cps =>
        match getPath sqrt fuel cps with
        | .done views => .ok views
        | .fault f => .error (.fault f)
        | .outOfFuel => .error .outOfFuel

/-- A stand-in for `json::parse` in the examples: the empty string is a parse error, the
string `[]` is the empty array, the string `[c]` is an array of one element, any other
string is a value that is not an array. -/
def sampleParse (s : String) : Option (JsonTop Unit) :=
  if s = "" then none
  else if s = "[]" then some (.array [])
  else if s = "[c]" then some (.array [()])
  else some .other

/-! ## main.cpp: `destroyCustomStuff` -/

/-- A colour or depth target of `CustomStuff`: the handles `image`, `view`, `memory`
(0 is `VK_NULL_HANDLE`). -/
structure TargetImage where
  image : Nat
  view : Nat
  memory : Nat
  deriving DecidableEq, Repr

/-- The member `reachableImage` of `CustomStuff`, the handles that are destroyed. -/
structure ReachableImage where
  image : Nat
  memory : Nat
  deriving DecidableEq, Repr

/-- The struct `CustomStuff` (lines 200-227), the handles that `destroyCustomStuff` passes
to the device. -/
structure CustomStuff where
  fbColor : TargetImage
  reachableImage : ReachableImage
  fbDepth : TargetImage
  framebuffer : Nat
  renderedSemaphore : Nat
  copiedSemaphore : Nat
  fence : Nat
  renderPass : Nat
  deriving DecidableEq, Repr

/-- The device as the destruction calls see it: the handles of the objects that exist, and
the handles passed to a destruction call that were neither `VK_NULL_HANDLE` nor the handle
of an existing object (a use that the Vulkan specification forbids), in call order. -/
structure Device where
  live : List Nat
  invalid : List Nat
  deriving DecidableEq, Repr

/-- A call `vkDestroy...(device, handle, nullptr)` or `vkFreeMemory(device, handle, nullptr)`:
nothing happens on `VK_NULL_HANDLE`, an existing object is released, any other handle is an
invalid use. -/
def vkDestroy (d : Device) (handle : Nat) : Device :=
  if handle = 0 then d
  else if handle ∈ d.live then { d with live := d.live.erase handle }
  else { d with invalid := d.invalid ++ [handle] }

/-- The function `destroyCustomStuff` (lines 2297-2316): thirteen destruction calls, in the
order of the source; no member of `customStuff` is assigned. -/
def destroyCustomStuff (customStuff : CustomStuff) (device : Device) : Device :=
  let device := vkDestroy device customStuff.fence
  let device := vkDestroy device customStuff.renderedSemaphore
  let device := vkDestroy device customStuff.copiedSemaphore
  let device := vkDestroy device customStuff.reachableImage.image
  let device := vkDestroy device customStuff.reachableImage.memory
  let device := vkDestroy device customStuff.fbColor.view
  let device := vkDestroy device customStuff.fbColor.image
  let device := vkDestroy device customStuff.fbColor.memory
  let device := vkDestroy device customStuff.fbDepth.view
  let device := vkDestroy device customStuff.fbDepth.image
  let device := vkDestroy device customStuff.fbDepth.memory
  let device := vkDestroy device customStuff.renderPass
  vkDestroy device customStuff.framebuffer

/-! ## main.cpp: the copy command buffer of `renderCustom` -/

/-- The struct `VkOffset3D`. -/
structure VkOffset3D where
  x : Int
  y : Int
  z : Int
  deriving DecidableEq, Repr

/-- The struct `VkExtent3D`. -/
structure VkExtent3D where
  width : Nat
  height : Nat
  depth : Nat
  deriving DecidableEq, Repr

/-- The struct `VkImageSubresourceLayers`; the aspect is `VK_IMAGE_ASPECT_COLOR_BIT` in both
uses. -/
structure VkImageSubresourceLayers where
  mipLevel : Nat
  baseArrayLayer : Nat
  layerCount : Nat
  deriving DecidableEq, Repr

/-- The struct `VkImageCopy`. -/
structure VkImageCopy where
  srcSubresource : VkImageSubresourceLayers
  srcOffset : VkOffset3D
  dstSubresource : VkImageSubresourceLayers
  dstOffset : VkOffset3D
  extent : VkExtent3D
  deriving DecidableEq, Repr

/-- Lines 2165-2186: the region `ic` of the copy, for the members `width` and `height` of the
example. -/
def ic (width height : Nat) : VkImageCopy :=
  { srcSubresource := ⟨0, 0, 1⟩, srcOffset := ⟨0, 0, 0⟩, dstSubresource := ⟨0, 0, 1⟩,
    dstOffset := ⟨0, 0, 0⟩, extent := ⟨width, height, 1⟩ }

/-- The extent with which `setupCustomStuff` creates the readback image (lines 2413-2415)
and the colour attachment (lines 2447-2449). -/
def imageExtent (width height : Nat) : VkExtent3D := ⟨width, height, 1⟩

/-- A command recorded into `customStuff.secondCommandBuffer`: the image memory barrier of
`cmdSetLayout` with its declared old and new layout, or the image copy with its declared
layouts and its region. -/
inductive Cmd where
  | cmdSetLayout (image : Image) (oldLayout newLayout : VkImageLayout)
  | vkCmdCopyImage (srcImage : Image) (srcImageLayout : VkImageLayout) (dstImage : Image)
      (dstImageLayout : VkImageLayout) (region : VkImageCopy)
  deriving DecidableEq, Repr

/-- Lines 2158-2196 of `renderCustom`: the commands recorded between
`vkBeginCommandBuffer` and `vkEndCommandBuffer`, in the order of the source. -/
def secondCommandBuffer (width height : Nat) : List Cmd :=
  [.cmdSetLayout .fbColor .VK_IMAGE_LAYOUT_COLOR_ATTACHMENT_OPTIMAL
     .VK_IMAGE_LAYOUT_TRANSFER_SRC_OPTIMAL,
   .cmdSetLayout .reachableImage .VK_IMAGE_LAYOUT_UNDEFINED
     .VK_IMAGE_LAYOUT_TRANSFER_DST_OPTIMAL,
   .vkCmdCopyImage .fbColor .VK_IMAGE_LAYOUT_TRANSFER_SRC_OPTIMAL .reachableImage
     .VK_IMAGE_LAYOUT_TRANSFER_DST_OPTIMAL (ic width height),
   .cmdSetLayout .fbColor .VK_IMAGE_LAYOUT_TRANSFER_SRC_OPTIMAL
     .VK_IMAGE_LAYOUT_COLOR_ATTACHMENT_OPTIMAL,
   .cmdSetLayout .reachableImage .VK_IMAGE_LAYOUT_TRANSFER_DST_OPTIMAL
     .VK_IMAGE_LAYOUT_GENERAL]

/-- The layouts in which the two images are. -/
structure ImageLayouts where
  fbColor : VkImageLayout
  reachableImage : VkImageLayout
  deriving DecidableEq, Repr

/-- The layout of an image. -/
def ImageLayouts.get (l : ImageLayouts) : Image → VkImageLayout
  | .fbColor => l.fbColor
  | .reachableImage => l.reachableImage

/-- The layouts after an image has been put into a layout. -/
def ImageLayouts.set (l : ImageLayouts) (image : Image) (layout : VkImageLayout) :
    ImageLayouts :=
  match image with
  | .fbColor => { l with fbColor := layout }
  | .reachableImage => { l with reachableImage := layout }

/-- Both images are created with `initialLayout = VK_IMAGE_LAYOUT_UNDEFINED`
(lines 2420 and 2455). -/
def createdLayouts : ImageLayouts :=
  ⟨.VK_IMAGE_LAYOUT_UNDEFINED, .VK_IMAGE_LAYOUT_UNDEFINED⟩

/-- The render pass of the render batch: attachment 0, the colour attachment, has
`initialLayout = VK_IMAGE_LAYOUT_UNDEFINED` and
`finalLayout = VK_IMAGE_LAYOUT_COLOR_ATTACHMENT_OPTIMAL` (lines 2331-2332), so it is left in
that layout whatever its layout before. -/
def renderPassLayouts (l : ImageLayouts) : ImageLayouts :=
  { l with fbColor := .VK_IMAGE_LAYOUT_COLOR_ATTACHMENT_OPTIMAL }

/-- The layouts after a command has executed: a barrier puts its image into the new layout,
a copy changes no layout. -/
def execCmd (l : ImageLayouts) : Cmd → ImageLayouts
  | .cmdSetLayout image _ newLayout => l.set image newLayout
  | .vkCmdCopyImage _ _ _ _ _ => l

/-- Whether the layouts that a command declares are the layouts the images are in. -/
def declaredMatches (l : ImageLayouts) : Cmd → Bool
  | .cmdSetLayout image oldLayout _ => l.get image = oldLayout
  | .vkCmdCopyImage srcImage srcImageLayout dstImage dstImageLayout _ =>
    l.get srcImage = srcImageLayout && l.get dstImage = dstImageLayout

/-- The layouts before each command of a list, and after the last one. -/
def layoutsAlong (l : ImageLayouts) : List Cmd → List ImageLayouts
  | [] => [l]
  | c :: cs => l :: layoutsAlong (execCmd l c) cs

/-- For each command of a list, whether its declared layouts are the actual ones. -/
def matchesAlong (l : ImageLayouts) : List Cmd → List Bool
  | [] => []
  | c :: cs => declaredMatches l c :: matchesAlong (execCmd l c) cs

/-- One frame: the render pass, then the commands of the copy command buffer. -/
def frameLayouts (width height : Nat) (l : ImageLayouts) : ImageLayouts :=
  (secondCommandBuffer width height).foldl execCmd (renderPassLayouts l)

/-- The layouts after `n` frames. -/
def layoutsAfter (width height : Nat) : Nat → ImageLayouts
  | 0 => createdLayouts
  | n + 1 => frameLayouts width height (layoutsAfter width height n)

/-- The operation of the host protocol that records a command. -/
def Cmd.op : Cmd → Op
  | .cmdSetLayout image oldLayout newLayout => .cmdSetLayout image oldLayout newLayout
  | .vkCmdCopyImage _ srcImageLayout _ dstImageLayout _ =>
    .vkCmdCopyImage srcImageLayout dstImageLayout

/-! ## main.cpp: the readback copy of `renderCustom` -/

/-- Lines 2259-2279 of `renderCustom`: the array `data` after the copy from the mapped
memory and before `to3chan`; `data0` is the content of the array before the copy.  The
array `new out_type[height * width * 4]` is the part of indices below `height * width * 4`
of the function; a result that differs from `data0` at another index is a write past the
end of the array. -/
def readbackCopy {β : Type} (img : Nat → β) (srl : VkSubresourceLayout) (width height : Nat)
    (data0 : Nat → F32 β) : Nat → F32 β :=
  let tmp := srl.offset / 4
  if srl.rowPitch = width * 4 * 4 then memcpyFloats img tmp srl.size data0
  else copyRows img width height srl.rowPitch tmp data0

/-! ## main.cpp: `setupCustomStuff` -/

/-- A successful creation call (`vkCreate...` or `vkAllocateMemory`): the new object, named
by the handle that the device returns, exists from now on. -/
def vkCreate (d : Device) (handle : Nat) : Device := { d with live := d.live ++ [handle] }

/-- Modelled from the spec: a creation call wrapped in the macro `VK_CHECK_RESULT` of
`macros.h`, which is not among the sources.  `env n` is the outcome of the creation call
number `n`: the handle of the new object, or `none` when the call does not return
`VK_SUCCESS`, which ends the process. -/
def createChecked (env : Nat → Option Nat) (n : Nat) (device : Device) :
    Option (Nat × Device) :=
  match env n with
  | none => none
  | some handle => some (handle, vkCreate device handle)

/-- The object creations of `setupCustomStuff` (lines 2319-2547), in the order of the
source: render pass, fence, two semaphores, readback image and its memory, colour image,
memory and view, depth image, memory and view, framebuffer.  The result is `none` when the
process has ended in a failed creation.  Call number 13 is `vkAllocateCommandBuffers`: the
command buffers belong to the command pool and are not among the objects that
`destroyCustomStuff` releases. -/
def setupCustomStuff (env : Nat → Option Nat) (device : Device) :
    Option (CustomStuff × Device) :=
  match createChecked env 0 device with
  | none => none
  | some (renderPass, device) =>
  match createChecked env 1 device with
  | none => none
  | some (fence, device) =>
  match createChecked env 2 device with
  | none => none
  | some (renderedSemaphore, device) =>
  match createChecked env 3 device with
  | none => none
  | some (copiedSemaphore, device) =>
  match createChecked env 4 device with
  | none => none
  | some (reachableImage, device) =>
  match createChecked env 5 device with
  | none => none
  | some (reachableMemory, device) =>
  match createChecked env 6 device with
  | none => none
  | some (colorImage, device) =>
  match createChecked env 7 device with
  | none => none
  | some (colorMemory, device) =>
  match createChecked env 8 device with
  | none => none
  | some (colorView, device) =>
  match createChecked env 9 device with
  | none => none
  | some (depthImage, device) =>
  match createChecked env 10 device with
  | none => none
  | some (depthMemory, device) =>
  match createChecked env 11 device with
  | none => none
  | some (depthView, device) =>
  match createChecked env 12 device with
  | none => none
  | some (framebuffer, device) =>
  match env 13 with
  | none => none
  | some _ =>
    some ({ fbColor := ⟨colorImage, colorView, colorMemory⟩,
            reachableImage := ⟨reachableImage, reachableMemory⟩,
            fbDepth := ⟨depthImage, depthView, depthMemory⟩,
            framebuffer := framebuffer, renderedSemaphore := renderedSemaphore,
            copiedSemaphore := copiedSemaphore, fence := fence, renderPass := renderPass },
          device)

/-- The thirteen handles of `customStuff` in the order in which `setupCustomStuff` creates
the objects. -/
def CustomStuff.created (c : CustomStuff) : List Nat :=
  [c.renderPass, c.fence, c.renderedSemaphore, c.copiedSemaphore, c.reachableImage.image,
   c.reachableImage.memory, c.fbColor.image, c.fbColor.memory, c.fbColor.view,
   c.fbDepth.image, c.fbDepth.memory, c.fbDepth.view, c.framebuffer]

/-- The thirteen handles of `customStuff` in the order in which `destroyCustomStuff` passes
them to the device. -/
def CustomStuff.destroyed (c : CustomStuff) : List Nat :=
  [c.fence, c.renderedSemaphore, c.copiedSemaphore, c.reachableImage.image,
   c.reachableImage.memory, c.fbColor.view, c.fbColor.image, c.fbColor.memory,
   c.fbDepth.view, c.fbDepth.image, c.fbDepth.memory, c.renderPass, c.framebuffer]

/-- A device that names the object of creation call `n` by the handle `n + 1` and never
fails. -/
def countingDevice : Nat → Option Nat := fun n => some (n + 1)

/-- The target that `setupCustomStuff` makes on `countingDevice`. -/
def countedStuff : CustomStuff :=
  { fbColor := ⟨7, 9, 8⟩, reachableImage := ⟨5, 6⟩, fbDepth := ⟨10, 12, 11⟩, framebuffer := 13,
    renderedSemaphore := 3, copiedSemaphore := 4, fence := 2, renderPass := 1 }

/-! ## pathread.hpp: `getInterpolatedView` over a field with square roots -/

namespace OverField

/-- The type `glm::vec3`, with components in `K`. -/
structure Vec3 (K : Type) where
  x : K
  y : K
  z : K
  deriving DecidableEq, Repr

/-- The type `glm::vec4`, with components in `K`. -/
structure Vec4 (K : Type) where
  x : K
  y : K
  z : K
  w : K
  deriving DecidableEq, Repr

/-- Component-wise sum `a + b`. -/
def Vec3.add {K : Type} [Field K] (a b : Vec3 K) : Vec3 K := ⟨a.x + b.x, a.y + b.y, a.z + b.z⟩

/-- Scalar multiple `c * v`. -/
def Vec3.scale {K : Type} [Field K] (c : K) (v : Vec3 K) : Vec3 K := ⟨c * v.x, c * v.y, c * v.z⟩

/-- Unary minus `-v`. -/
def Vec3.neg {K : Type} [Field K] (v : Vec3 K) : Vec3 K := ⟨-v.x, -v.y, -v.z⟩

/-- The function `glm::dot`. -/
def Vec3.dot {K : Type} [Field K] (a b : Vec3 K) : K := a.x * b.x + a.y * b.y + a.z * b.z

/-- The function `glm::cross`. -/
def Vec3.cross {K : Type} [Field K] (a b : Vec3 K) : Vec3 K :=
  ⟨a.y * b.z - b.y * a.z, a.z * b.x - b.z * a.x, a.x * b.y - b.x * a.y⟩

/-- The function `glm::normalize`: `v * inversesqrt(dot(v, v))`. -/
def normalize {K : Type} [Field K] (sqrt : K → K) (v : Vec3 K) : Vec3 K :=
  Vec3.scale (1 / sqrt (Vec3.dot v v)) v

/-- The type `glm::mat3`, column major. -/
structure Mat3 (K : Type) where
  c0 : Vec3 K
  c1 : Vec3 K
  c2 : Vec3 K
  deriving DecidableEq, Repr

/-- The type `glm::mat4`, column major. -/
structure Mat4 (K : Type) where
  c0 : Vec4 K
  c1 : Vec4 K
  c2 : Vec4 K
  c3 : Vec4 K
  deriving DecidableEq, Repr

/-- The function `glm::transpose` on `mat3`. -/
def Mat3.transpose {K : Type} (m : Mat3 K) : Mat3 K :=
  ⟨⟨m.c0.x, m.c1.x, m.c2.x⟩, ⟨m.c0.y, m.c1.y, m.c2.y⟩, ⟨m.c0.z, m.c1.z, m.c2.z⟩⟩

/-- The conversion `glm::mat4(mat3)`: the 3x3 block, completed by the identity. -/
def Mat4.ofMat3 {K : Type} [Field K] (m : Mat3 K) : Mat4 K :=
  ⟨⟨m.c0.x, m.c0.y, m.c0.z, 0⟩, ⟨m.c1.x, m.c1.y, m.c1.z, 0⟩, ⟨m.c2.x, m.c2.y, m.c2.z, 0⟩,
   ⟨0, 0, 0, 1⟩⟩

/-- The function `glm::translate(v)`: the identity with `v` in the last column. -/
def Mat4.translate {K : Type} [Field K] (v : Vec3 K) : Mat4 K :=
  ⟨⟨1, 0, 0, 0⟩, ⟨0, 1, 0, 0⟩, ⟨0, 0, 1, 0⟩, ⟨v.x, v.y, v.z, 1⟩⟩

/-- Matrix times column vector. -/
def Mat4.mulVec {K : Type} [Field K] (m : Mat4 K) (v : Vec4 K) : Vec4 K :=
  ⟨m.c0.x * v.x + m.c1.x * v.y + m.c2.x * v.z + m.c3.x * v.w,
   m.c0.y * v.x + m.c1.y * v.y + m.c2.y * v.z + m.c3.y * v.w,
   m.c0.z * v.x + m.c1.z * v.y + m.c2.z * v.z + m.c3.z * v.w,
   m.c0.w * v.x + m.c1.w * v.y + m.c2.w * v.z + m.c3.w * v.w⟩

/-- Matrix product `a * b`. -/
def Mat4.mul {K : Type} [Field K] (a b : Mat4 K) : Mat4 K :=
  ⟨a.mulVec b.c0, a.mulVec b.c1, a.mulVec b.c2, a.mulVec b.c3⟩

/-- Matrix times column vector, for `mat3`. -/
def Mat3.mulVec {K : Type} [Field K] (m : Mat3 K) (v : Vec3 K) : Vec3 K :=
  ⟨m.c0.x * v.x + m.c1.x * v.y + m.c2.x * v.z,
   m.c0.y * v.x + m.c1.y * v.y + m.c2.y * v.z,
   m.c0.z * v.x + m.c1.z * v.y + m.c2.z * v.z⟩

/-- Matrix product `a * b`, for `mat3`. -/
def Mat3.mul {K : Type} [Field K] (a b : Mat3 K) : Mat3 K :=
  ⟨a.mulVec b.c0, a.mulVec b.c1, a.mulVec b.c2⟩

/-- The struct `CameraCheckpoint`. -/
structure CameraCheckpoint (K : Type) where
  point : Vec3 K
  dir : Vec3 K
  t : Int
  deriving DecidableEq, Repr

/-- The fields `point` and `dir` of the local `cc` of `getInterpolatedView`
(its field `t` is never assigned nor read). -/
structure Pose (K : Type) where
  point : Vec3 K
  dir : Vec3 K
  deriving DecidableEq, Repr

/-- Line 31: `float coeff = float(t - cc1.t) / float(cc2.t - cc1.t)`. -/
def coeff {K : Type} [Field K] (cc1 cc2 : CameraCheckpoint K) (t : Int) : K :=
  ((t - cc1.t : Int) : K) / ((cc2.t - cc1.t : Int) : K)

/-- Lines 31-34 of `getInterpolatedView`: the interpolated checkpoint `cc`. -/
def interpolatedPose {K : Type} [Field K] (sqrt : K → K) (cc1 cc2 : CameraCheckpoint K)
    (t : Int) : Pose K :=
  let coeff := coeff cc1 cc2 t
  { point := Vec3.add (Vec3.scale coeff cc2.point) (Vec3.scale (1 - coeff) cc1.point)
    dir := normalize sqrt (Vec3.add (Vec3.scale coeff cc2.dir) (Vec3.scale (1 - coeff) cc1.dir)) }

/-- Lines 36-42 of `getInterpolatedView`: the view matrix of the pose `cc`. -/
def viewOfPose {K : Type} [Field K] (sqrt : K → K) (cc : Pose K) : Mat4 K :=
  let up : Vec3 K := ⟨0, 1, 0⟩
  let x_axis := normalize sqrt (Vec3.cross cc.dir up)
  let y_axis := normalize sqrt (Vec3.cross x_axis cc.dir)
  let rotation := Mat3.transpose ⟨x_axis, y_axis, Vec3.neg cc.dir⟩
  Mat4.mul (Mat4.ofMat3 rotation) (Mat4.translate (Vec3.neg cc.point))

/-- The function `getInterpolatedView`. -/
def getInterpolatedView {K : Type} [Field K] (sqrt : K → K) (cc1 cc2 : CameraCheckpoint K)
    (t : Int) : Mat4 K :=
  viewOfPose sqrt (interpolatedPose sqrt cc1 cc2 t)

/-- A rational vector as a vector over the field of rationals. -/
def ofVec3 (v : PBR.Vec3) : Vec3 ℚ := ⟨v.x, v.y, v.z⟩

/-- A rational `vec4` as a vector over the field of rationals. -/
def ofVec4 (v : PBR.Vec4) : Vec4 ℚ := ⟨v.x, v.y, v.z, v.w⟩

/-- A rational matrix as a matrix over the field of rationals. -/
def ofMat4 (m : PBR.Mat4) : Mat4 ℚ := ⟨ofVec4 m.c0, ofVec4 m.c1, ofVec4 m.c2, ofVec4 m.c3⟩

/-- A rational checkpoint as a checkpoint over the field of rationals. -/
def ofCheckpoint (cc : PBR.CameraCheckpoint) : CameraCheckpoint ℚ :=
  ⟨ofVec3 cc.point, ofVec3 cc.dir, cc.t⟩

end OverField

/-! ## Theorems: the camera path -/

/-- In a strictly increasing path an earlier checkpoint has a smaller frame index. -/
theorem strict_lt {cps : List CameraCheckpoint} (h : StrictlyIncreasing cps) {i j : Nat}
    {a b : CameraCheckpoint} (ha : cps[i]? = some a) (hb : cps[j]? = some b) (hij : i < j) :
    a.t < b.t := by
  obtain ⟨hi, rfl⟩ := List.getElem?_eq_some.1 ha
  obtain ⟨hj, rfl⟩ := List.getElem?_eq_some.1 hb
  exact (List.pairwise_iff_getElem.1 h) i j hi hj hij

/-- In a strictly increasing path frame indices are monotone in the position. -/
theorem strict_le {cps : List CameraCheckpoint} (h : StrictlyIncreasing cps) {i j : Nat}
    {a b : CameraCheckpoint} (ha : cps[i]? = some a) (hb : cps[j]? = some b) (hij : i ≤ j) :
    a.t ≤ b.t := by
  rcases Nat.lt_or_ge i j with hlt | hge
  · exact le_of_lt (strict_lt h ha hb hlt)
  · have : i = j := le_antisymm hij hge
    subst this
    rw [ha] at hb
    cases hb
    exact le_refl _

/-- The frame index of the last checkpoint, by position. -/
theorem lastT_eq {cps : List CameraCheckpoint} {l : CameraCheckpoint}
    (h : cps[cps.length - 1]? = some l) : lastT cps = l.t := by
  simp [lastT, List.getLast?_eq_getElem?, h]

/-- The frame index of the first checkpoint, by position. -/
theorem firstT_eq {cps : List CameraCheckpoint} {c : CameraCheckpoint}
    (h : cps[0]? = some c) : firstT cps = c.t := by
  simp [firstT, List.head?_eq_getElem?, h]

/-- Two segments of a strictly increasing path that contain the same frame are the same. -/
theorem segment_unique {cps : List CameraCheckpoint} (h : StrictlyIncreasing cps) {i j : Nat}
    {a b a' b' : CameraCheckpoint} {s : Int}
    (ha : cps[i]? = some a) (hb : cps[i + 1]? = some b)
    (ha' : cps[j]? = some a') (hb' : cps[j + 1]? = some b')
    (h1 : a.t ≤ s) (h2 : s < b.t) (h1' : a'.t ≤ s) (h2' : s < b'.t) : i = j := by
  rcases Nat.lt_trichotomy i j with hlt | heq | hgt
  · have := strict_le h hb ha' (by omega)
    omega
  · exact heq
  · have := strict_le h hb' ha (by omega)
    omega

/-- Invariant of the loop of `getPath` on a strictly increasing path: started at frame `t`
inside the segment `current_cp` (or at the last checkpoint), with enough fuel, the loop
ends at the last checkpoint with `t = t_last`, having appended one view per frame from `t`
to `t_last - 1`, each built from the segment that contains its frame. -/
theorem getPathLoop_spec {β : Type} (f : CameraCheckpoint → CameraCheckpoint → Int → β)
    (cps : List CameraCheckpoint) (hinc : StrictlyIncreasing cps) :
    ∀ (fuel : Nat) (t : Int) (cur : Nat) (views : List β) (a : CameraCheckpoint),
      cps[cur]? = some a → a.t ≤ t → (∀ b, cps[cur + 1]? = some b → t < b.t) →
      (cur + 1 = cps.length → t = a.t) → (lastT cps - t).toNat < fuel →
      ∃ ext, getPathLoop f cps fuel t cur views = .done (lastT cps, cps.length - 1, views ++ ext) ∧
        (ext.length : Int) = lastT cps - t ∧
        ∀ k, k < ext.length → ∃ j a b, cps[j]? = some a ∧ cps[j + 1]? = some b ∧
          a.t ≤ t + k ∧ t + k < b.t ∧ ext[k]? = some (f a b (t + k)) := by
  intro fuel
  induction fuel with
  | zero => intro t cur views a _ _ _ _ hf; omega
  | succ fuel ih =>
    intro t cur views a ha hlo hhi hend hf
    have hcur : cur < cps.length := (List.getElem?_eq_some.1 ha).1
    have hne : cps.length ≠ 0 := by omega
    rcases Nat.lt_or_ge (cur + 1) cps.length with hlt | hge
    · -- inside the loop
      obtain ⟨b, hb⟩ : ∃ b, cps[cur + 1]? = some b := ⟨cps[cur + 1], List.getElem?_eq_getElem hlt⟩
      have htb := hhi b hb
      obtain ⟨l, hl⟩ : ∃ l, cps[cps.length - 1]? = some l :=
        ⟨cps[cps.length - 1], List.getElem?_eq_getElem (by omega)⟩
      have hlast := lastT_eq hl
      have hbl : b.t ≤ l.t := strict_le hinc hb hl (by omega)
      have hcond : cur < sizeMinusOne cps.length := by
        simp only [sizeMinusOne, if_neg hne]; omega
      by_cases hsw : t + 1 ≥ b.t
      · obtain ⟨ext, he, hlen, hk⟩ := ih (t + 1) (cur + 1) (views ++ [f a b t]) b hb (by omega)
          (fun c hc => by have := strict_lt hinc hb hc (by omega); omega)
          (fun _ => by omega) (by omega)
        refine ⟨f a b t :: ext, ?_, ?_, ?_⟩
        · rw [getPathLoop, if_pos hcond]
          simp only [ha, hb, if_pos hsw, he, List.append_assoc, List.singleton_append]
        · simp only [List.length_cons]; push_cast; omega
        · intro k hk'
          cases k with
          | zero => exact ⟨cur, a, b, ha, hb, by simpa using hlo, by simpa using htb, by simp⟩
          | succ k =>
            obtain ⟨j, a', b', h1, h2, h3, h4, h5⟩ := hk k (by simpa using hk')
            refine ⟨j, a', b', h1, h2, by push_cast; omega, by push_cast; omega, ?_⟩
            simp only [List.getElem?_cons_succ, h5]
            congr 2; push_cast; ring
      · obtain ⟨ext, he, hlen, hk⟩ := ih (t + 1) cur (views ++ [f a b t]) a ha (by omega)
          (fun c hc => by rw [hb] at hc; cases hc; omega)
          (fun h => by omega) (by omega)
        refine ⟨f a b t :: ext, ?_, ?_, ?_⟩
        · rw [getPathLoop, if_pos hcond]
          simp only [ha, hb, if_neg hsw, he, List.append_assoc, List.singleton_append]
        · simp only [List.length_cons]; push_cast; omega
        · intro k hk'
          cases k with
          | zero => exact ⟨cur, a, b, ha, hb, by simpa using hlo, by simpa using htb, by simp⟩
          | succ k =>
            obtain ⟨j, a', b', h1, h2, h3, h4, h5⟩ := hk k (by simpa using hk')
            refine ⟨j, a', b', h1, h2, by push_cast; omega, by push_cast; omega, ?_⟩
            simp only [List.getElem?_cons_succ, h5]
            congr 2; push_cast; ring
    · -- the loop is left
      have hcl : cur = cps.length - 1 := by omega
      have hcond : ¬ cur < sizeMinusOne cps.length := by
        simp only [sizeMinusOne, if_neg hne]; omega
      have hta := hend (by omega)
      have hlast : lastT cps = a.t := lastT_eq (by rw [← hcl]; exact ha)
      refine ⟨[], ?_, ?_, ?_⟩
      · rw [getPathLoop, if_neg hcond, hlast, hta, ← hcl]; simp
      · simp [hlast, hta]
      · intro k hk; simp at hk


/-- The loop commutes with a function applied to every view. -/
theorem getPathLoop_map {β γ : Type} (f : CameraCheckpoint → CameraCheckpoint → Int → β)
    (g : β → γ) (cps : List CameraCheckpoint) :
    ∀ (fuel : Nat) (t : Int) (cur : Nat) (views : List β),
      getPathLoop (fun a b t => g (f a b t)) cps fuel t cur (views.map g) =
        (getPathLoop f cps fuel t cur views).map (fun r => (r.1, r.2.1, r.2.2.map g)) := by
  intro fuel
  induction fuel with
  | zero => intro t cur views; simp [getPathLoop, Run.map]
  | succ fuel ih =>
    intro t cur views
    rw [getPathLoop, getPathLoop]
    split
    · cases h1 : cps[cur]? with
      | none => simp [Run.map]
      | some a =>
        cases h2 : cps[cur + 1]? with
        | none => simp [Run.map]
        | some b =>
          simp only []
          have := ih (t + 1) (cur + 1) (views ++ [f a b t])
          have := ih (t + 1) cur (views ++ [f a b t])
          simp only [List.map_append, List.map_cons, List.map_nil] at *
          split <;> simp [*]
    · simp [Run.map]

/-- The result of `getPath` commutes with a function applied to every view. -/
theorem getPathWith_map {β γ : Type} (f : CameraCheckpoint → CameraCheckpoint → Int → β)
    (g : β → γ) (fuel : Nat) (cps : List CameraCheckpoint) :
    getPathWith (fun a b t => g (f a b t)) fuel cps = (getPathWith f fuel cps).map (List.map g) := by
  unfold getPathWith
  cases h0 : cps[0]? with
  | none => simp [Run.map]
  | some c0 =>
    simp only []
    have := getPathLoop_map f g cps fuel c0.t 0 []
    simp only [List.map_nil] at this
    rw [this]
    cases getPathLoop f cps fuel c0.t 0 [] with
    | done r =>
      obtain ⟨t, cur, views⟩ := r
      simp only [Run.map, Run.bind]
      split
      · rfl
      · cases cps[cur - 1]? <;> cases cps[cur]? <;> simp [Run.map]
    | fault e => simp [Run.map, Run.bind]
    | outOfFuel => simp [Run.map, Run.bind]

/-- What `getPath` returns on a strictly increasing path of at least two checkpoints. -/
theorem getPathWith_spec {β : Type} (f : CameraCheckpoint → CameraCheckpoint → Int → β)
    (cps : List CameraCheckpoint) (fuel : Nat) (hlen : 2 ≤ cps.length)
    (hinc : StrictlyIncreasing cps) (hfuel : (lastT cps - firstT cps).toNat < fuel) :
    ∃ views, getPathWith f fuel cps = .done views ∧
      firstT cps < lastT cps ∧
      views.length = (lastT cps - firstT cps).toNat + 1 ∧
      (∀ j a b t, cps[j]? = some a → cps[j + 1]? = some b → a.t ≤ t → t < b.t →
        views[(t - firstT cps).toNat]? = some (f a b t)) ∧
      (∀ a b, cps[cps.length - 2]? = some a → cps[cps.length - 1]? = some b →
        views[(lastT cps - firstT cps).toNat]? = some (f a b (lastT cps))) ∧
      (∀ k, k < views.length → ∃ j a b, cps[j]? = some a ∧ cps[j + 1]? = some b ∧
        a.t ≤ firstT cps + k ∧ firstT cps + k ≤ b.t ∧ views[k]? = some (f a b (firstT cps + k))) := by
  obtain ⟨c0, h0⟩ : ∃ c, cps[0]? = some c := ⟨cps[0], List.getElem?_eq_getElem (by omega)⟩
  obtain ⟨c1, h1⟩ : ∃ c, cps[0 + 1]? = some c := ⟨cps[1], List.getElem?_eq_getElem (by omega)⟩
  obtain ⟨A, hA⟩ : ∃ c, cps[cps.length - 2]? = some c :=
    ⟨cps[cps.length - 2], List.getElem?_eq_getElem (by omega)⟩
  obtain ⟨B, hB⟩ : ∃ c, cps[cps.length - 1]? = some c :=
    ⟨cps[cps.length - 1], List.getElem?_eq_getElem (by omega)⟩
  have hB' : cps[cps.length - 2 + 1]? = some B := by
    have : cps.length - 2 + 1 = cps.length - 1 := by omega
    rw [this]; exact hB
  have hfirst := firstT_eq h0
  have hlast := lastT_eq hB
  have h01 : c0.t < c1.t := strict_lt hinc h0 h1 (by omega)
  have h1B : c1.t ≤ B.t := strict_le hinc h1 hB (by omega)
  have hAB : A.t < B.t := strict_lt hinc hA hB (by omega)
  obtain ⟨ext, he, hlenE, hk⟩ := getPathLoop_spec f cps hinc fuel c0.t 0 [] c0 h0 (le_refl _)
    (fun b hb => by rw [h1] at hb; cases hb; exact h01) (fun h => by omega)
    (by rw [← hfirst]; exact hfuel)
  have hrun : getPathWith f fuel cps = .done (ext ++ [f A B (lastT cps)]) := by
    have hne : ¬ cps.length - 1 = 0 := by omega
    have h2 : cps[cps.length - 1 - 1]? = some A := by
      have : cps.length - 1 - 1 = cps.length - 2 := by omega
      rw [this]; exact hA
    simp only [getPathWith, h0, he, Run.bind, List.nil_append, if_neg hne, h2, hB]
  have hlenN : ext.length = (lastT cps - firstT cps).toNat := by
    rw [hfirst]; omega
  refine ⟨ext ++ [f A B (lastT cps)], hrun, by omega, by simp [hlenN], ?_, ?_, ?_⟩
  · intro j a b t ha hb hlo hhi
    have hjlen : j + 1 < cps.length := (List.getElem?_eq_some.1 hb).1
    have ha0 : c0.t ≤ a.t := strict_le hinc h0 ha (by omega)
    have hbB : b.t ≤ B.t := strict_le hinc hb hB (by omega)
    have hidx : (t - firstT cps).toNat < ext.length := by rw [hlenN, hfirst]; omega
    obtain ⟨j', a', b', h1', h2', h3', h4', h5'⟩ := hk _ hidx
    have hcast : c0.t + ((t - firstT cps).toNat : Int) = t := by rw [hfirst]; omega
    rw [hcast] at h3' h4' h5'
    have hjj : j' = j := segment_unique hinc h1' h2' ha hb h3' h4' hlo hhi
    subst hjj
    rw [ha] at h1'; rw [hb] at h2'; cases h1'; cases h2'
    rw [List.getElem?_append_left hidx]; exact h5'
  · intro a b ha hb
    rw [hA] at ha; rw [hB] at hb; cases ha; cases hb
    rw [← hlenN]; simp
  · intro k hk'
    simp only [List.length_append, List.length_singleton] at hk'
    rcases Nat.lt_or_ge k ext.length with hlt | hge
    · obtain ⟨j', a', b', h1', h2', h3', h4', h5'⟩ := hk k hlt
      refine ⟨j', a', b', h1', h2', by rw [hfirst]; exact h3', by rw [hfirst]; omega, ?_⟩
      rw [List.getElem?_append_left hlt, hfirst]; exact h5'
    · have hkeq : k = ext.length := by omega
      have hcast : firstT cps + (k : Int) = lastT cps := by rw [hkeq, hfirst]; omega
      refine ⟨cps.length - 2, A, B, hA, hB', by rw [hcast, hlast]; omega, by rw [hcast, hlast],
        ?_⟩
      rw [hcast, hkeq]; simp

/-- The view stored for a frame `t` of the segment `A`, `B`: it is built from `A`, `B`, or,
when `t` is the frame of an inner checkpoint `B`, from `B` and its successor. -/
theorem getPathWith_entry {β : Type} (f : CameraCheckpoint → CameraCheckpoint → Int → β)
    (cps : List CameraCheckpoint) (fuel : Nat) (hlen : 2 ≤ cps.length)
    (hinc : StrictlyIncreasing cps) (hfuel : (lastT cps - firstT cps).toNat < fuel) :
    ∃ views, getPathWith f fuel cps = .done views ∧
      views.length = (lastT cps - firstT cps).toNat + 1 ∧
      ∀ j A B t, cps[j]? = some A → cps[j + 1]? = some B → A.t ≤ t → t ≤ B.t →
        views[(t - firstT cps).toNat]? = some (f A B t) ∨
        (t = B.t ∧ ∃ C, cps[j + 2]? = some C ∧
          views[(t - firstT cps).toNat]? = some (f B C t)) := by
  obtain ⟨views, hrun, _, hlenV, hin, hfin, _⟩ := getPathWith_spec f cps fuel hlen hinc hfuel
  refine ⟨views, hrun, hlenV, ?_⟩
  intro j A B t hA hB hlo hhi
  have hjlen : j + 1 < cps.length := (List.getElem?_eq_some.1 hB).1
  rcases lt_or_eq_of_le hhi with hlt | heq
  · exact Or.inl (hin j A B t hA hB hlo hlt)
  · rcases Nat.lt_or_ge (j + 2) cps.length with h2 | h2
    · obtain ⟨C, hC⟩ : ∃ C, cps[j + 2]? = some C := ⟨cps[j + 2], List.getElem?_eq_getElem h2⟩
      have hBC : B.t < C.t := strict_lt hinc hB hC (by omega)
      exact Or.inr ⟨heq, C, hC, hin (j + 1) B C t hB hC (by omega) (by omega)⟩
    · left
      have e1 : cps.length - 2 = j := by omega
      have e2 : cps.length - 1 = j + 1 := by omega
      have hl : lastT cps = B.t := lastT_eq (by rw [e2]; exact hB)
      have := hfin A B (by rw [e1]; exact hA) (by rw [e2]; exact hB)
      rw [heq, ← hl]; exact this

/-- Addition of vectors is commutative. -/
theorem vec3_add_comm (a b : Vec3) : Vec3.add a b = Vec3.add b a := by
  simp [Vec3.add, add_comm]



/-- The blend with coefficient 0 is the first end point. -/
theorem vec3_blend_zero (a b : Vec3) : Vec3.add (Vec3.scale 0 a) (Vec3.scale (1 - 0) b) = b := by
  cases b; simp [Vec3.add, Vec3.scale]

/-- The blend with coefficient 1 is the second end point. -/
theorem vec3_blend_one (a b : Vec3) : Vec3.add (Vec3.scale 1 a) (Vec3.scale (1 - 1) b) = a := by
  cases a; simp [Vec3.add, Vec3.scale]

/-- The coefficient is 0 at the frame of the first checkpoint of a segment. -/
theorem coeff_start (cc1 cc2 : CameraCheckpoint) : coeff cc1 cc2 cc1.t = 0 := by
  simp [coeff]

/-- The coefficient is 1 at the frame of the second checkpoint of a segment. -/
theorem coeff_end (cc1 cc2 : CameraCheckpoint) (h : cc1.t < cc2.t) : coeff cc1 cc2 cc2.t = 1 := by
  have : ((cc2.t - cc1.t : Int) : ℚ) ≠ 0 := by
    have : cc2.t - cc1.t ≠ 0 := by omega
    exact_mod_cast this
  simp only [coeff]
  exact div_self this

/-- The coefficient as a quotient of rationals. -/
theorem coeff_eq (cc1 cc2 : CameraCheckpoint) (t : Int) :
    coeff cc1 cc2 t = ((t : ℚ) - (cc1.t : ℚ)) / ((cc2.t : ℚ) - (cc1.t : ℚ)) := by
  simp [coeff]

/-- The views of `getPath` are the view matrices of the poses, in the same order. -/
theorem getPath_eq_map_poses (sqrt : ℚ → ℚ) (fuel : Nat) (cps : List CameraCheckpoint) :
    getPath sqrt fuel cps = (getPathPoses sqrt fuel cps).map (List.map (viewOfPose sqrt)) :=
  getPathWith_map (interpolatedPose sqrt) (viewOfPose sqrt) fuel cps

/-- At a frame of the segment `A`, `B` the blend of any two attributes of the pose that is
used equals the blend of the attributes of `A` and `B`. -/
theorem blend_at_entry {cps : List CameraCheckpoint} (hinc : StrictlyIncreasing cps)
    {j : Nat} {A B : CameraCheckpoint} {t : Int} (hA : cps[j]? = some A)
    (hB : cps[j + 1]? = some B) (g : CameraCheckpoint → Vec3) {X Y : CameraCheckpoint}
    (h : (X = A ∧ Y = B) ∨ (t = B.t ∧ X = B ∧ ∃ C, cps[j + 2]? = some C ∧ Y = C)) :
    Vec3.add (Vec3.scale (coeff X Y t) (g Y)) (Vec3.scale (1 - coeff X Y t) (g X)) =
      lerp (g A) (g B) (((t : ℚ) - (A.t : ℚ)) / ((B.t : ℚ) - (A.t : ℚ))) := by
  have hAB : A.t < B.t := strict_lt hinc hA hB (by omega)
  rcases h with ⟨rfl, rfl⟩ | ⟨rfl, rfl, C, _, rfl⟩
  · rw [coeff_eq, lerp, vec3_add_comm]
  · rw [coeff_start, vec3_blend_zero, ← coeff_eq, coeff_end A X hAB, lerp, vec3_add_comm,
      vec3_blend_one]

/-- C1: for a strictly increasing path of at least two checkpoints, every consecutive pair
`A`, `B` and every frame `t` with `tA ≤ t ≤ tB`, the pose from which `getPath` builds the view
for frame `t` (entry `t - t_first` of the result) has position `(1 - c) * A.pos + c * B.pos`
with `c = (t - tA) / (tB - tA)`, in exact arithmetic, also at `t = tB`. -/
theorem getPath_position_lerp (sqrt : ℚ → ℚ) (cps : List CameraCheckpoint) (fuel : Nat)
    (hlen : 2 ≤ cps.length) (hinc : StrictlyIncreasing cps)
    (hfuel : (lastT cps - firstT cps).toNat < fuel) :
    ∃ poses, getPathPoses sqrt fuel cps = .done poses ∧
      getPath sqrt fuel cps = .done (poses.map (viewOfPose sqrt)) ∧
      ∀ j A B t, cps[j]? = some A → cps[j + 1]? = some B → A.t ≤ t → t ≤ B.t →
        ∃ p, poses[(t - firstT cps).toNat]? = some p ∧
          p.point = lerp A.point B.point (((t : ℚ) - (A.t : ℚ)) / ((B.t : ℚ) - (A.t : ℚ))) := by
  obtain ⟨poses, hrun, _, hent⟩ :=
    getPathWith_entry (interpolatedPose sqrt) cps fuel hlen hinc hfuel
  have hrun' : getPathPoses sqrt fuel cps = .done poses := hrun
  refine ⟨poses, hrun', ?_, ?_⟩
  · rw [getPath_eq_map_poses, hrun']; rfl
  · intro j A B t hA hB hlo hhi
    rcases hent j A B t hA hB hlo hhi with h | ⟨ht, C, hC, h⟩
    · exact ⟨_, h, blend_at_entry hinc hA hB (fun c => c.point) (Or.inl ⟨rfl, rfl⟩)⟩
    · exact ⟨_, h, blend_at_entry hinc hA hB (fun c => c.point) (Or.inr ⟨ht, rfl, C, hC, rfl⟩)⟩

/-- Witness of C1: the path with checkpoints at the frames 0, 10 and 20. -/
theorem getPath_position_lerp_witness :
    2 ≤ examplePath.length ∧ StrictlyIncreasing examplePath ∧
    (lastT examplePath - firstT examplePath).toNat < 21 ∧
    ∃ poses, getPathPoses qsqrt 21 examplePath = .done poses ∧
      getPath qsqrt 21 examplePath = .done (poses.map (viewOfPose qsqrt)) ∧
      ∀ j A B t, examplePath[j]? = some A → examplePath[j + 1]? = some B → A.t ≤ t → t ≤ B.t →
        ∃ p, poses[(t - firstT examplePath).toNat]? = some p ∧
          p.point = lerp A.point B.point (((t : ℚ) - (A.t : ℚ)) / ((B.t : ℚ) - (A.t : ℚ))) :=
  ⟨by decide, by decide, by decide,
    getPath_position_lerp qsqrt examplePath 21 (by decide) (by decide) (by decide)⟩


/-- C6: for a strictly increasing path of at least two checkpoints `getPath` returns exactly
`t_last - t_first + 1` views, one per integer frame from the first checkpoint's frame to the
last one's, in increasing frame order: entry `k` is the view of frame `t_first + k`, built
from a consecutive pair of checkpoints whose frames enclose it. -/
theorem getPath_length (sqrt : ℚ → ℚ) (cps : List CameraCheckpoint) (fuel : Nat)
    (hlen : 2 ≤ cps.length) (hinc : StrictlyIncreasing cps)
    (hfuel : (lastT cps - firstT cps).toNat < fuel) :
    ∃ views, getPath sqrt fuel cps = .done views ∧
      (views.length : Int) = lastT cps - firstT cps + 1 ∧
      getPathFrames fuel cps =
        .done ((List.range views.length).map fun (k : Nat) => firstT cps + (k : Int)) ∧
      ∀ k, k < views.length → ∃ j A B, cps[j]? = some A ∧ cps[j + 1]? = some B ∧
        A.t ≤ firstT cps + k ∧ firstT cps + k ≤ B.t ∧
        views[k]? = some (getInterpolatedView sqrt A B (firstT cps + k)) := by
  obtain ⟨views, hrun, hlt, hlenV, _, _, hk⟩ :=
    getPathWith_spec (getInterpolatedView sqrt) cps fuel hlen hinc hfuel
  obtain ⟨frames, hrunF, _, hlenF, _, _, hkF⟩ :=
    getPathWith_spec (fun _ _ t => t) cps fuel hlen hinc hfuel
  refine ⟨views, hrun, by omega, ?_, hk⟩
  have hfr : frames =
      (List.range views.length).map fun (k : Nat) => firstT cps + (k : Int) := by
    apply List.ext_getElem?
    intro k
    rcases Nat.lt_or_ge k frames.length with h | h
    · obtain ⟨_, _, _, _, _, _, _, h5⟩ := hkF k h
      rw [h5, List.getElem?_map, List.getElem?_range (by omega)]
      rfl
    · rw [List.getElem?_eq_none h, List.getElem?_eq_none (by simp; omega)]
  rw [← hfr]; exact hrunF

/-- Witness of C6: for checkpoints at the frames 0, 10 and 20 `getPath` returns 21 views. -/
theorem getPath_length_witness :
    2 ≤ examplePath.length ∧ StrictlyIncreasing examplePath ∧
    (lastT examplePath - firstT examplePath).toNat < 21 ∧
    ∃ views, getPath qsqrt 21 examplePath = .done views ∧ views.length = 21 := by
  refine ⟨by decide, by decide, by decide, ?_⟩
  obtain ⟨views, hrun, hl, _⟩ :=
    getPath_length qsqrt examplePath 21 (by decide) (by decide) (by decide)
  have : lastT examplePath - firstT examplePath = 20 := by decide
  exact ⟨views, hrun, by omega⟩

/-- C7: for a strictly increasing path of at least two checkpoints, every consecutive pair
`A`, `B` and every frame `t` with `tA ≤ t ≤ tB`, the pose used for frame `t` has direction
`normalize ((1 - c) * A.dir + c * B.dir)` with `c = (t - tA) / (tB - tA)`: a component-wise
linear blend followed by normalisation. -/
theorem getPath_direction_lerp (sqrt : ℚ → ℚ) (cps : List CameraCheckpoint) (fuel : Nat)
    (hlen : 2 ≤ cps.length) (hinc : StrictlyIncreasing cps)
    (hfuel : (lastT cps - firstT cps).toNat < fuel) :
    ∃ poses, getPathPoses sqrt fuel cps = .done poses ∧
      getPath sqrt fuel cps = .done (poses.map (viewOfPose sqrt)) ∧
      ∀ j A B t, cps[j]? = some A → cps[j + 1]? = some B → A.t ≤ t → t ≤ B.t →
        ∃ p, poses[(t - firstT cps).toNat]? = some p ∧
          p.dir = normalize sqrt
            (lerp A.dir B.dir (((t : ℚ) - (A.t : ℚ)) / ((B.t : ℚ) - (A.t : ℚ)))) := by
  obtain ⟨poses, hrun, _, hent⟩ :=
    getPathWith_entry (interpolatedPose sqrt) cps fuel hlen hinc hfuel
  have hrun' : getPathPoses sqrt fuel cps = .done poses := hrun
  refine ⟨poses, hrun', ?_, ?_⟩
  · rw [getPath_eq_map_poses, hrun']; rfl
  · intro j A B t hA hB hlo hhi
    rcases hent j A B t hA hB hlo hhi with h | ⟨ht, C, hC, h⟩
    · exact ⟨_, h, congrArg (normalize sqrt)
        (blend_at_entry hinc hA hB (fun c => c.dir) (Or.inl ⟨rfl, rfl⟩))⟩
    · exact ⟨_, h, congrArg (normalize sqrt)
        (blend_at_entry hinc hA hB (fun c => c.dir) (Or.inr ⟨ht, rfl, C, hC, rfl⟩))⟩

/-- Witness of C7: the path with checkpoints at the frames 0, 10 and 20. -/
theorem getPath_direction_lerp_witness :
    2 ≤ examplePath.length ∧ StrictlyIncreasing examplePath ∧
    (lastT examplePath - firstT examplePath).toNat < 21 ∧
    ∃ poses, getPathPoses qsqrt 21 examplePath = .done poses ∧
      getPath qsqrt 21 examplePath = .done (poses.map (viewOfPose qsqrt)) ∧
      ∀ j A B t, examplePath[j]? = some A → examplePath[j + 1]? = some B → A.t ≤ t → t ≤ B.t →
        ∃ p, poses[(t - firstT examplePath).toNat]? = some p ∧
          p.dir = normalize qsqrt
            (lerp A.dir B.dir (((t : ℚ) - (A.t : ℚ)) / ((B.t : ℚ) - (A.t : ℚ)))) :=
  ⟨by decide, by decide, by decide,
    getPath_direction_lerp qsqrt examplePath 21 (by decide) (by decide) (by decide)⟩

/-- C8, as stated, fails: on the path with checkpoints at `t = 0, 10, 20` the pose of frame 10
has the position of the second checkpoint but not its direction `(0, 0, 2)`: the direction
of the pose is the normalised `(0, 0, 1)`. -/
theorem getPath_checkpoint_direction_counterexample :
    2 ≤ examplePath.length ∧ StrictlyIncreasing examplePath ∧
    ∃ poses c p, getPathPoses qsqrt 21 examplePath = .done poses ∧
      examplePath[1]? = some c ∧ c.t = 10 ∧ poses[(c.t - firstT examplePath).toNat]? = some p ∧
      p.point = c.point ∧ c.dir = ⟨0, 0, 2⟩ ∧ p.dir = ⟨0, 0, 1⟩ ∧ p.dir ≠ c.dir := by
  refine ⟨by decide, by decide, ?_⟩
  obtain ⟨poses, hrun, _, hent⟩ := getPathWith_entry (interpolatedPose qsqrt) examplePath 21
    (by decide) (by decide) (by decide)
  have h := hent 1 ⟨⟨1, 2, 0⟩, ⟨0, 0, 2⟩, 10⟩ ⟨⟨3, 2, 1⟩, ⟨0, 3, 4⟩, 20⟩ 10 rfl rfl
    (by decide) (by decide)
  rcases h with h | ⟨h, _⟩
  · refine ⟨poses, ⟨⟨1, 2, 0⟩, ⟨0, 0, 2⟩, 10⟩, _, hrun, rfl, rfl, h, ?_, rfl, ?_, ?_⟩ <;>
      norm_num [interpolatedPose, coeff, normalize, Vec3.add, Vec3.scale, Vec3.dot, qsqrt,
        Rat.sqrt]
  · exact absurd h (by decide)

/-- C8, amended: for every checkpoint `C` of a strictly increasing path of at least two
checkpoints, the pose produced for frame `C.t` has exactly `C`'s position, and its direction
is `normalize C.dir`, which is `C.dir` itself when `C.dir` has unit length. -/
theorem getPath_checkpoint_pose (sqrt : ℚ → ℚ) (cps : List CameraCheckpoint) (fuel : Nat)
    (hlen : 2 ≤ cps.length) (hinc : StrictlyIncreasing cps)
    (hfuel : (lastT cps - firstT cps).toNat < fuel) :
    ∃ poses, getPathPoses sqrt fuel cps = .done poses ∧
      getPath sqrt fuel cps = .done (poses.map (viewOfPose sqrt)) ∧
      ∀ (i : Nat) (C : CameraCheckpoint), cps[i]? = some C →
        ∃ p, poses[(C.t - firstT cps).toNat]? = some p ∧ p.point = C.point ∧
          p.dir = normalize sqrt C.dir ∧
          (sqrt 1 = 1 → Vec3.dot C.dir C.dir = 1 → p.dir = C.dir) := by
  obtain ⟨poses, hrun, _, hent⟩ :=
    getPathWith_entry (interpolatedPose sqrt) cps fuel hlen hinc hfuel
  have hrun' : getPathPoses sqrt fuel cps = .done poses := hrun
  refine ⟨poses, hrun', ?_, ?_⟩
  · rw [getPath_eq_map_poses, hrun']; rfl
  · intro i C hC
    have hunit : sqrt 1 = 1 → Vec3.dot C.dir C.dir = 1 → normalize sqrt C.dir = C.dir := by
      intro h1 h2
      cases hd : C.dir
      rw [hd] at h2
      simp [normalize, h2, h1, Vec3.scale]
    have hilen : i < cps.length := (List.getElem?_eq_some.1 hC).1
    -- the pose built from `X`, `Y` at the frame of `C`, where `C` is `X` or `Y`
    have key : ∀ X Y : CameraCheckpoint, X.t < Y.t → (C = X ∨ C = Y) →
        (interpolatedPose sqrt X Y C.t).point = C.point ∧
        (interpolatedPose sqrt X Y C.t).dir = normalize sqrt C.dir := by
      intro X Y hXY h
      rcases h with rfl | rfl
      · simp only [interpolatedPose, coeff_start, vec3_blend_zero, and_self]
      · simp only [interpolatedPose, coeff_end X C hXY, vec3_blend_one, and_self]
    rcases Nat.eq_zero_or_pos i with h0 | hpos
    · subst h0
      obtain ⟨B, hB⟩ : ∃ B, cps[0 + 1]? = some B :=
        ⟨cps[1], List.getElem?_eq_getElem (by omega)⟩
      have hCB : C.t < B.t := strict_lt hinc hC hB (by omega)
      rcases hent 0 C B C.t hC hB (le_refl _) (le_of_lt hCB) with h | ⟨ht, _⟩
      · obtain ⟨k1, k2⟩ := key C B hCB (Or.inl rfl)
        exact ⟨_, h, k1, k2, fun h1 h2 => by rw [k2]; exact hunit h1 h2⟩
      · omega
    · obtain ⟨A, hA⟩ : ∃ A, cps[i - 1]? = some A :=
        ⟨cps[i - 1], List.getElem?_eq_getElem (by omega)⟩
      have hC' : cps[i - 1 + 1]? = some C := by
        have : i - 1 + 1 = i := by omega
        rw [this]; exact hC
      have hAC : A.t < C.t := strict_lt hinc hA hC (by omega)
      rcases hent (i - 1) A C C.t hA hC' (le_of_lt hAC) (le_refl _) with h | ⟨_, D, hD, h⟩
      · obtain ⟨k1, k2⟩ := key A C hAC (Or.inr rfl)
        exact ⟨_, h, k1, k2, fun h1 h2 => by rw [k2]; exact hunit h1 h2⟩
      · have hCD : C.t < D.t := strict_lt hinc hC' hD (by omega)
        obtain ⟨k1, k2⟩ := key C D hCD (Or.inl rfl)
        exact ⟨_, h, k1, k2, fun h1 h2 => by rw [k2]; exact hunit h1 h2⟩

/-- Witness of C8, amended: the path with checkpoints at the frames 0, 10 and 20. -/
theorem getPath_checkpoint_pose_witness :
    2 ≤ examplePath.length ∧ StrictlyIncreasing examplePath ∧
    (lastT examplePath - firstT examplePath).toNat < 21 ∧
    ∃ poses, getPathPoses qsqrt 21 examplePath = .done poses ∧
      getPath qsqrt 21 examplePath = .done (poses.map (viewOfPose qsqrt)) ∧
      ∀ (i : Nat) (C : CameraCheckpoint), examplePath[i]? = some C →
        ∃ p, poses[(C.t - firstT examplePath).toNat]? = some p ∧ p.point = C.point ∧
          p.dir = normalize qsqrt C.dir ∧
          (qsqrt 1 = 1 → Vec3.dot C.dir C.dir = 1 → p.dir = C.dir) :=
  ⟨by decide, by decide, by decide,
    getPath_checkpoint_pose qsqrt examplePath 21 (by decide) (by decide) (by decide)⟩


/-- C9, as stated, fails: on the path with checkpoints at `t = 0, 10, 20`, whatever the fuel
that lets the loop finish, `getPath` returns 21 poses, for the frames 0 to 20: there is no
pose for frame 21, the first frame beyond the last checkpoint, so none is extrapolated from
the final segment. -/
theorem getPath_beyond_last_counterexample :
    2 ≤ examplePath.length ∧ StrictlyIncreasing examplePath ∧ lastT examplePath < 21 ∧
    ∀ fuel, 20 < fuel → ∃ poses, getPathPoses qsqrt fuel examplePath = .done poses ∧
      poses.length = 21 ∧ poses[((21 : Int) - firstT examplePath).toNat]? = none := by
  refine ⟨by decide, by decide, by decide, ?_⟩
  intro fuel hfuel
  have h20 : (lastT examplePath - firstT examplePath).toNat = 20 := by decide
  obtain ⟨poses, hrun, hlen, _⟩ := getPathWith_entry (interpolatedPose qsqrt) examplePath fuel
    (by decide) (by decide) (by rw [h20]; exact hfuel)
  refine ⟨poses, hrun, by rw [hlen, h20], ?_⟩
  have h21 : ((21 : Int) - firstT examplePath).toNat = 21 := by decide
  rw [h21]
  exact List.getElem?_eq_none (by rw [hlen, h20])

/-- C9, amended: the pose for the last frame of a strictly increasing path of at least two
checkpoints is computed from the final segment (`A` second-to-last, `B` last checkpoint) by
the interpolation law of the segment, with the coefficient exactly 1 and no clamping; the
result of `getPath` ends there: it holds no pose for a frame beyond the last checkpoint. -/
theorem getPath_last_frame (sqrt : ℚ → ℚ) (cps : List CameraCheckpoint) (fuel : Nat)
    (hlen : 2 ≤ cps.length) (hinc : StrictlyIncreasing cps)
    (hfuel : (lastT cps - firstT cps).toNat < fuel) :
    ∃ poses A B, cps[cps.length - 2]? = some A ∧ cps[cps.length - 1]? = some B ∧
      getPathPoses sqrt fuel cps = .done poses ∧
      getPath sqrt fuel cps = .done (poses.map (viewOfPose sqrt)) ∧
      poses[(lastT cps - firstT cps).toNat]? = some (interpolatedPose sqrt A B (lastT cps)) ∧
      coeff A B (lastT cps) = 1 ∧
      poses.length = (lastT cps - firstT cps).toNat + 1 ∧
      ∀ t : Int, lastT cps < t → poses[(t - firstT cps).toNat]? = none := by
  obtain ⟨poses, hrun, hlt, hlenV, _, hfin, _⟩ :=
    getPathWith_spec (interpolatedPose sqrt) cps fuel hlen hinc hfuel
  have hrun' : getPathPoses sqrt fuel cps = .done poses := hrun
  obtain ⟨A, hA⟩ : ∃ c, cps[cps.length - 2]? = some c :=
    ⟨cps[cps.length - 2], List.getElem?_eq_getElem (by omega)⟩
  obtain ⟨B, hB⟩ : ∃ c, cps[cps.length - 1]? = some c :=
    ⟨cps[cps.length - 1], List.getElem?_eq_getElem (by omega)⟩
  have hAB : A.t < B.t := strict_lt hinc hA hB (by omega)
  refine ⟨poses, A, B, hA, hB, hrun', ?_, hfin A B hA hB, ?_, hlenV, ?_⟩
  · rw [getPath_eq_map_poses, hrun']; rfl
  · rw [lastT_eq hB]; exact coeff_end A B hAB
  · intro t ht
    exact List.getElem?_eq_none (by rw [hlenV]; omega)

/-- Witness of C9, amended: the path with checkpoints at the frames 0, 10 and 20. -/
theorem getPath_last_frame_witness :
    2 ≤ examplePath.length ∧ StrictlyIncreasing examplePath ∧
    (lastT examplePath - firstT examplePath).toNat < 21 ∧
    ∃ poses A B, examplePath[examplePath.length - 2]? = some A ∧
      examplePath[examplePath.length - 1]? = some B ∧
      getPathPoses qsqrt 21 examplePath = .done poses ∧
      getPath qsqrt 21 examplePath = .done (poses.map (viewOfPose qsqrt)) ∧
      poses[(lastT examplePath - firstT examplePath).toNat]? =
        some (interpolatedPose qsqrt A B (lastT examplePath)) ∧
      coeff A B (lastT examplePath) = 1 ∧
      poses.length = (lastT examplePath - firstT examplePath).toNat + 1 ∧
      ∀ t : Int, lastT examplePath < t → poses[(t - firstT examplePath).toNat]? = none :=
  ⟨by decide, by decide, by decide,
    getPath_last_frame qsqrt examplePath 21 (by decide) (by decide) (by decide)⟩

/-! ## Theorems: the readback conversion -/

/-- After `n` pixels `to3chan` has packed them and has not touched the floats from `3 * n`. -/
theorem to3chan_fold {α : Type} (data : Nat → α) (n : Nat) :
    (∀ i k, i < n → k < 3 →
      (List.range n).foldl to3chanPixel data (3 * i + k) = data (4 * i + k)) ∧
    (∀ m, 3 * n ≤ m → (List.range n).foldl to3chanPixel data m = data m) := by
  induction n with
  | zero =>
    refine ⟨fun i k hi _ => absurd hi (Nat.not_lt_zero i), fun m _ => ?_⟩
    simp
  | succ n ih =>
    obtain ⟨ih1, ih2⟩ := ih
    rw [List.range_succ, List.foldl_append]
    simp only [List.foldl_cons, List.foldl_nil]
    rw [to3chanPixel]
    simp only [Function.update_apply, Nat.add_zero]
    constructor
    · intro i k hi hk
      rcases Nat.lt_or_ge i n with hlt | hge
      · rw [if_neg (by omega), if_neg (by omega), if_neg (by omega)]
        exact ih1 i k hlt hk
      · have hin : i = n := by omega
        subst hin
        have e0 := ih2 (4 * i) (by omega)
        have e1 := ih2 (4 * i + 1) (by omega)
        have e2 := ih2 (4 * i + 2) (by omega)
        have hk3 : k = 0 ∨ k = 1 ∨ k = 2 := by omega
        rcases hk3 with rfl | rfl | rfl
        · rw [if_neg (by omega), if_neg (by omega), if_pos (by omega)]; exact e0
        · rw [if_neg (by omega), if_pos rfl, if_neg (by omega)]; exact e1
        · rw [if_pos rfl, if_neg (by omega), if_neg (by omega)]; exact e2
    · intro m hm
      rw [if_neg (by omega), if_neg (by omega), if_neg (by omega)]
      exact ih2 m (by omega)

/-- The function `to3chan` packs every pixel: `data[3 * i + k]` becomes the old
`data[4 * i + k]`. -/
theorem to3chan_spec {α : Type} (data : Nat → α) (width height i k : Nat)
    (hi : i < width * height) (hk : k < 3) :
    to3chan data width height (3 * i + k) = data (4 * i + k) :=
  (to3chan_fold data (width * height)).1 i k hi hk

/-- The index of pixel `(x, y)` is below `width * height`. -/
theorem pixel_lt {width height x y : Nat} (hx : x < width) (hy : y < height) :
    y * width + x < width * height := by
  have h1 : (y + 1) * width ≤ height * width := Nat.mul_le_mul_right width hy
  have h2 : (y + 1) * width = y * width + width := by ring
  have h3 : height * width = width * height := Nat.mul_comm _ _
  omega

/-- After `n` float copies the cursors have advanced by `n` and the `n` floats from `dataP`
hold the `n` floats from `tp`. -/
theorem copyFloat_iterate {β : Type} (img : Nat → β) (n : Nat) (s : CopyState β) :
    (Nat.iterate (copyFloat img) n s).dataP = s.dataP + n ∧
    (Nat.iterate (copyFloat img) n s).tp = s.tp + n ∧
    ∀ i, (Nat.iterate (copyFloat img) n s).data i =
      if s.dataP ≤ i ∧ i < s.dataP + n then loadFloat img (s.tp + (i - s.dataP)) else s.data i := by
  induction n with
  | zero =>
    refine ⟨rfl, rfl, fun i => ?_⟩
    rw [if_neg (by omega)]; rfl
  | succ n ih =>
    obtain ⟨h1, h2, h3⟩ := ih
    rw [Function.iterate_succ_apply']
    refine ⟨?_, ?_, ?_⟩
    · simp only [copyFloat, h1]; omega
    · simp only [copyFloat, h2]; omega
    · intro i
      simp only [copyFloat, Function.update_apply, h1, h2, h3]
      by_cases hi : i = s.dataP + n
      · rw [if_pos hi, if_pos (by omega)]
        congr 1; omega
      · rw [if_neg hi]
        by_cases hr : s.dataP ≤ i ∧ i < s.dataP + n
        · rw [if_pos hr, if_pos (by omega)]
        · rw [if_neg hr, if_neg (by omega)]

/-- One scanline copies `4 * width` consecutive floats. -/
theorem copyRow_spec {β : Type} (img : Nat → β) (width tmp : Nat) (data : Nat → F32 β)
    (dataP : Nat) :
    (copyRow img width tmp data dataP).dataP = dataP + 4 * width ∧
    ∀ i, (copyRow img width tmp data dataP).data i =
      if dataP ≤ i ∧ i < dataP + 4 * width then loadFloat img (tmp + (i - dataP)) else data i := by
  have h := copyFloat_iterate img (4 * width) ⟨data, dataP, tmp⟩
  rw [Function.iterate_mul] at h
  exact ⟨h.1, h.2.2⟩

/-- Invariant of the loop over the scanlines. -/
theorem copyRows_iterate {β : Type} (img : Nat → β) (width rowPitch tmp : Nat)
    (data : Nat → F32 β) (height : Nat) :
    (Nat.iterate
      (fun (s : (Nat → F32 β) × Nat × Nat) =>
        let r := copyRow img width s.2.2 s.1 s.2.1
        (r.data, r.dataP, s.2.2 + rowPitch / 4))
      height (data, 0, tmp)).2.1 = height * (4 * width) ∧
    (Nat.iterate
      (fun (s : (Nat → F32 β) × Nat × Nat) =>
        let r := copyRow img width s.2.2 s.1 s.2.1
        (r.data, r.dataP, s.2.2 + rowPitch / 4))
      height (data, 0, tmp)).2.2 = tmp + height * (rowPitch / 4) ∧
    ∀ y j, y < height → j < 4 * width →
      (Nat.iterate
        (fun (s : (Nat → F32 β) × Nat × Nat) =>
          let r := copyRow img width s.2.2 s.1 s.2.1
          (r.data, r.dataP, s.2.2 + rowPitch / 4))
        height (data, 0, tmp)).1 (y * (4 * width) + j) =
        loadFloat img (tmp + y * (rowPitch / 4) + j) := by
  induction height with
  | zero => exact ⟨by simp, by simp, fun y j hy _ => absurd hy (Nat.not_lt_zero y)⟩
  | succ h ih =>
    obtain ⟨h1, h2, h3⟩ := ih
    rw [Function.iterate_succ_apply']
    simp only []
    obtain ⟨c1, c2⟩ := copyRow_spec img width
      (Nat.iterate
        (fun (s : (Nat → F32 β) × Nat × Nat) =>
          let r := copyRow img width s.2.2 s.1 s.2.1
          (r.data, r.dataP, s.2.2 + rowPitch / 4))
        h (data, 0, tmp)).2.2
      (Nat.iterate
        (fun (s : (Nat → F32 β) × Nat × Nat) =>
          let r := copyRow img width s.2.2 s.1 s.2.1
          (r.data, r.dataP, s.2.2 + rowPitch / 4))
        h (data, 0, tmp)).1
      (Nat.iterate
        (fun (s : (Nat → F32 β) × Nat × Nat) =>
          let r := copyRow img width s.2.2 s.1 s.2.1
          (r.data, r.dataP, s.2.2 + rowPitch / 4))
        h (data, 0, tmp)).2.1
    refine ⟨?_, ?_, ?_⟩
    · rw [c1, h1]; ring
    · rw [h2]; ring
    · intro y j hy hj
      rw [c2, h1, h2]
      rcases Nat.lt_or_ge y h with hlt | hge
      · have hm : (y + 1) * (4 * width) ≤ h * (4 * width) := Nat.mul_le_mul_right _ hlt
        have hm' : (y + 1) * (4 * width) = y * (4 * width) + 4 * width := by ring
        rw [if_neg (by omega)]
        exact h3 y j hlt hj
      · have hyh : y = h := by omega
        subst hyh
        rw [if_pos (by omega)]
        congr 1; omega

/-- The row-by-row copy stores texel float `j` of scanline `y` from `tmp`, advanced by
`rowPitch / 4` floats per scanline. -/
theorem copyRows_spec {β : Type} (img : Nat → β) (width height rowPitch tmp : Nat)
    (data : Nat → F32 β) (y j : Nat) (hy : y < height) (hj : j < 4 * width) :
    copyRows img width height rowPitch tmp data (y * (4 * width) + j) =
      loadFloat img (tmp + y * (rowPitch / 4) + j) :=
  (copyRows_iterate img width rowPitch tmp data height).2.2 y j hy hj

/-- The `memcpy` of `n` bytes copies every float that lies within the first `n` bytes. -/
theorem memcpyFloats_spec {β : Type} (img : Nat → β) (tmp n : Nat) (data : Nat → F32 β)
    (i : Nat) (hi : 4 * i + 3 < n) : memcpyFloats img tmp n data i = loadFloat img (tmp + i) := by
  simp only [memcpyFloats]
  rw [if_pos (by omega), if_pos (by omega), if_pos (by omega), if_pos hi]


/-- Aligned byte offsets are float offsets. -/
theorem loadFloat_aligned {β : Type} (img : Nat → β) {offset rowPitch : Nat}
    (hoff : 4 ∣ offset) (hal : 4 ∣ rowPitch) (y j : Nat) :
    loadFloat img (offset / 4 + y * (rowPitch / 4) + j) =
      floatAtByte img (offset + y * rowPitch + j * 4) := by
  obtain ⟨a, rfl⟩ := hoff
  obtain ⟨b, rfl⟩ := hal
  rw [loadFloat, Nat.mul_div_cancel_left a (by omega), Nat.mul_div_cancel_left b (by omega)]
  congr 1; ring

/-- The `memcpy` branch followed by `to3chan`: float `k` of pixel `i` of the result is the
float that the code reads `srl.offset / 4 + 4 * i + k` floats past the mapped base address,
when the `memcpy` covers the image. -/
theorem readback_tight {β : Type} (img : Nat → β) (srl : VkSubresourceLayout)
    (width height : Nat) (data0 : Nat → F32 β) (hpitch : srl.rowPitch = width * 4 * 4)
    (hsize : width * height * 16 ≤ srl.size) (i k : Nat) (hi : i < width * height)
    (hk : k < 3) :
    readback img srl width height data0 (3 * i + k) =
      loadFloat img (srl.offset / 4 + (4 * i + k)) := by
  simp only [readback, if_pos hpitch]
  rw [to3chan_spec _ _ _ _ _ hi hk, memcpyFloats_spec _ _ _ _ _ (by omega)]

/-- C2, as stated, fails when the row pitch or the offset is not a multiple of the size of
a float: with `width = 1`, `height = 2`, `offset = 0` and `rowPitch = 17 > 16` the first
float of row 1 is read at byte offset 16 (4 floats past row 0), not at byte offset 17;
with `offset = 2` and `rowPitch = 20` the first float is read at byte offset 0, not 2.
The byte at offset `b` of the mapped image is labelled `b`. -/
theorem readback_padded_counterexample :
    (1 * 4 * 4 < 17 ∧
      readback byteLabels ⟨0, 40, 17⟩ 1 2 (fun _ => ⟨0, 0, 0, 0⟩) (3 * (1 * 1 + 0) + 0) ≠
        floatAtByte byteLabels (0 + 1 * 17 + (4 * 0 + 0) * 4) ∧
      readback byteLabels ⟨0, 40, 17⟩ 1 2 (fun _ => ⟨0, 0, 0, 0⟩) (3 * (1 * 1 + 0) + 0) =
        ⟨16, 17, 18, 19⟩ ∧
      floatAtByte byteLabels (0 + 1 * 17 + (4 * 0 + 0) * 4) = ⟨17, 18, 19, 20⟩) ∧
    (1 * 4 * 4 < 20 ∧
      readback byteLabels ⟨2, 42, 20⟩ 1 2 (fun _ => ⟨0, 0, 0, 0⟩) (3 * (0 * 1 + 0) + 0) ≠
        floatAtByte byteLabels (2 + 0 * 20 + (4 * 0 + 0) * 4) ∧
      readback byteLabels ⟨2, 42, 20⟩ 1 2 (fun _ => ⟨0, 0, 0, 0⟩) (3 * (0 * 1 + 0) + 0) =
        ⟨0, 1, 2, 3⟩ ∧
      floatAtByte byteLabels (2 + 0 * 20 + (4 * 0 + 0) * 4) = ⟨2, 3, 4, 5⟩) := by
  decide

/-- C2, amended: for every width and height and every `rowPitchBytes > width * 4 * 4`, when
`rowPitchBytes` and `srl.offset` are multiples of 4 (the size of a float), the packed buffer
that `renderCustom` hands to the writer holds, for every pixel `(x, y)` and channel `k < 3`,
the float found at byte offset `srl.offset + y * rowPitchBytes + (4 * x + k) * 4` of the
mapped image; this is what the no-padding case yields on a tightly packed image with the
same source pixels. -/
theorem readback_padded {β : Type} (img : Nat → β) (srl : VkSubresourceLayout)
    (width height : Nat) (data0 : Nat → F32 β) (hpitch : width * 4 * 4 < srl.rowPitch)
    (hal : 4 ∣ srl.rowPitch) (hoff : 4 ∣ srl.offset) :
    (∀ x y k, x < width → y < height → k < 3 →
      readback img srl width height data0 (3 * (y * width + x) + k) =
        floatAtByte img (srl.offset + y * srl.rowPitch + (4 * x + k) * 4)) ∧
    (∀ (img' : Nat → β) (srl' : VkSubresourceLayout) (data0' : Nat → F32 β),
      srl'.rowPitch = width * 4 * 4 → width * height * 16 ≤ srl'.size → 4 ∣ srl'.offset →
      (∀ x y c, x < width → y < height → c < 4 →
        floatAtByte img' (srl'.offset + y * srl'.rowPitch + (4 * x + c) * 4) =
          floatAtByte img (srl.offset + y * srl.rowPitch + (4 * x + c) * 4)) →
      ∀ x y k, x < width → y < height → k < 3 →
        readback img srl width height data0 (3 * (y * width + x) + k) =
          readback img' srl' width height data0' (3 * (y * width + x) + k)) := by
  have main : ∀ x y k, x < width → y < height → k < 3 →
      readback img srl width height data0 (3 * (y * width + x) + k) =
        floatAtByte img (srl.offset + y * srl.rowPitch + (4 * x + k) * 4) := by
    intro x y k hx hy hk
    have hne : ¬ srl.rowPitch = width * 4 * 4 := by omega
    simp only [readback, if_neg hne]
    rw [to3chan_spec _ _ _ _ _ (pixel_lt hx hy) hk]
    have hidx : 4 * (y * width + x) + k = y * (4 * width) + (4 * x + k) := by ring
    rw [hidx, copyRows_spec _ _ _ _ _ _ _ _ hy (by omega), loadFloat_aligned img hoff hal]
  refine ⟨main, ?_⟩
  intro img' srl' data0' hpitch' hsize' hoff' hsame x y k hx hy hk
  rw [main x y k hx hy hk, ← hsame x y k hx hy (by omega),
    readback_tight img' srl' width height data0' hpitch' hsize' _ k (pixel_lt hx hy) hk]
  have hal' : 4 ∣ srl'.rowPitch := ⟨width * 4, by rw [hpitch']; ring⟩
  have := loadFloat_aligned img' hoff' hal' y (4 * x + k)
  rw [← this, hpitch']
  congr 1
  have : width * 4 * 4 / 4 = 4 * width := by omega
  rw [this]; ring

/-- Witness of C2, amended: one column, two rows, 32 bytes between the rows. -/
theorem readback_padded_witness :
    1 * 4 * 4 < (⟨0, 64, 32⟩ : VkSubresourceLayout).rowPitch ∧
    4 ∣ (⟨0, 64, 32⟩ : VkSubresourceLayout).rowPitch ∧
    4 ∣ (⟨0, 64, 32⟩ : VkSubresourceLayout).offset ∧
    ∀ x y k, x < 1 → y < 2 → k < 3 →
      readback byteLabels ⟨0, 64, 32⟩ 1 2 (fun _ => ⟨0, 0, 0, 0⟩) (3 * (y * 1 + x) + k) =
        floatAtByte byteLabels
          ((⟨0, 64, 32⟩ : VkSubresourceLayout).offset +
            y * (⟨0, 64, 32⟩ : VkSubresourceLayout).rowPitch + (4 * x + k) * 4) :=
  ⟨by decide, by decide, by decide,
    (readback_padded byteLabels ⟨0, 64, 32⟩ 1 2 (fun _ => ⟨0, 0, 0, 0⟩) (by decide) (by decide)
      (by decide)).1⟩

/-! ## Theorems: the sweep controller and the file name -/

/-- Feature selection only changes the debug view. -/
theorem selectFeature_done {V : Type} (settings : Settings V) (s : SweepState V)
    (h : s.feature_count < settings.feature_buffers.length) :
    ∃ d, selectFeature settings s = .done { s with debugViewEquation := d } := by
  unfold selectFeature
  split
  · rw [List.getElem?_eq_getElem h]
    simp only []
    split
    · exact ⟨_, rfl⟩
    · exact ⟨s.debugViewEquation, rfl⟩
  · exact ⟨s.debugViewEquation, rfl⟩

/-- One frame of a pass: the file of the current counter is written and the counter
advances. -/
theorem renderCapture_done {V : Type} (settings : Settings V) (s : SweepState V) (pfx : String)
    (hfollow : settings.followPath = true)
    (hf : s.feature_count < settings.feature_buffers.length)
    (hp : settings.output_prefixes[s.feature_count]? = some pfx) :
    ∃ s', renderCapture settings s = .done s' ∧ s'.prepared = s.prepared ∧
      s'.count = s.count + 1 ∧ s'.feature_count = s.feature_count ∧ s'.quit = s.quit ∧
      s'.captures.map (·.file) =
        s.captures.map (·.file) ++ [fileName pfx (frameArg settings s.count)] ∧
      s'.captures.length = s.captures.length + 1 := by
  obtain ⟨d, hd⟩ := selectFeature_done settings s hf
  refine ⟨{ s with debugViewEquation := d, count := s.count + 1,
                   captures := s.captures ++
                     [⟨fileName pfx (frameArg settings s.count), s.camera, d⟩] }, ?_, ?_⟩
  · simp only [renderCapture, hd, Run.bind, renderCustom, hfollow, hp]
    rfl
  · simp

/-- A call of `render` inside a pass. -/
theorem render_inside {V : Type} (settings : Settings V) (s : SweepState V) (pfx : String)
    (hfollow : settings.followPath = true) (hprep : s.prepared = true)
    (hcount : s.count < end_count settings) (hpath : s.count < settings.pathViews.length)
    (hf : s.feature_count < settings.feature_buffers.length)
    (hp : settings.output_prefixes[s.feature_count]? = some pfx) :
    ∃ s', render settings s = .done s' ∧ s'.prepared = true ∧
      s'.count = s.count + 1 ∧ s'.feature_count = s.feature_count ∧ s'.quit = s.quit ∧
      s'.captures.map (·.file) =
        s.captures.map (·.file) ++ [fileName pfx (frameArg settings s.count)] ∧
      s'.captures.length = s.captures.length + 1 := by
  obtain ⟨s', h1, h2, h3, h4, h5, h6, h7⟩ :=
    renderCapture_done settings { s with camera := some settings.pathViews[s.count] } pfx hfollow
      hf hp
  refine ⟨s', ?_, by rw [h2]; exact hprep, h3, h4, h5, h6, h7⟩
  have hc : ¬ s.count ≥ end_count settings := by omega
  simp only [render, hprep, hfollow, if_neg hc, followCamera, List.getElem?_eq_getElem hpath,
    Run.bind]
  simpa [hprep] using h1

/-- The call of `render` that follows a complete pass, when another feature is left: it
starts the pass of the next feature and captures its first frame. -/
theorem render_next_feature {V : Type} (settings : Settings V) (s : SweepState V)
    (pfx : String) (hfollow : settings.followPath = true) (hprep : s.prepared = true)
    (hcount : end_count settings ≤ s.count)
    (hpath : start_count settings < settings.pathViews.length)
    (hf : s.feature_count + 1 < settings.feature_buffers.length)
    (hp : settings.output_prefixes[s.feature_count + 1]? = some pfx) :
    ∃ s', render settings s = .done s' ∧ s'.prepared = true ∧
      s'.count = start_count settings + 1 ∧ s'.feature_count = s.feature_count + 1 ∧
      s'.quit = s.quit ∧
      s'.captures.map (·.file) =
        s.captures.map (·.file) ++ [fileName pfx (frameArg settings (start_count settings))] ∧
      s'.captures.length = s.captures.length + 1 := by
  obtain ⟨s', h1, h2, h3, h4, h5, h6, h7⟩ :=
    renderCapture_done settings
      { s with count := start_count settings, feature_count := s.feature_count + 1,
               camera := some settings.pathViews[start_count settings] } pfx hfollow hf hp
  refine ⟨s', ?_, by rw [h2]; exact hprep, h3, h4, h5, h6, h7⟩
  have hne : settings.feature_buffers.length ≠ 0 := by omega
  have hlt : s.feature_count < settings.feature_buffers.length := by omega
  have hnq : ¬ s.feature_count + 1 ≥ settings.feature_buffers.length := by omega
  simp only [render, hprep, hfollow, if_pos hcount, List.getElem?_eq_getElem hlt, followCamera,
    List.getElem?_eq_getElem hpath, Run.bind]
  simpa [hne, hnq, hprep] using h1

/-- The call of `render` that follows the last pass: it sets `quit` and captures nothing. -/
theorem render_quit {V : Type} (settings : Settings V) (s : SweepState V)
    (hfollow : settings.followPath = true) (hprep : s.prepared = true)
    (hcount : end_count settings ≤ s.count)
    (hf : s.feature_count + 1 = settings.feature_buffers.length) :
    ∃ s', render settings s = .done s' ∧ s'.quit = true ∧ s'.captures = s.captures := by
  have hne : settings.feature_buffers.length ≠ 0 := by omega
  have hlt : s.feature_count < settings.feature_buffers.length := by omega
  refine ⟨{ s with count := start_count settings, feature_count := s.feature_count + 1,
                   quit := true }, ?_, rfl, rfl⟩
  simp only [render, hprep, hfollow, if_pos hcount, List.getElem?_eq_getElem hlt]
  simp [hne, hf]


/-- One more frame of the current pass. -/
theorem filesSoFar_succ {V : Type} (settings : Settings V) (f i : Nat) (pfx : String) :
    filesSoFar settings f (i + 1) pfx =
      filesSoFar settings f i pfx ++
        [fileName pfx (frameArg settings (start_count settings + i))] := by
  simp [filesSoFar, List.range_succ]

/-- A complete pass is the start of the next one. -/
theorem filesSoFar_pass {V : Type} (settings : Settings V) (f : Nat) (pfx pfx' : String)
    (hp : settings.output_prefixes[f]? = some pfx) :
    filesSoFar settings f (end_count settings - start_count settings) pfx =
      filesSoFar settings (f + 1) 0 pfx' := by
  unfold filesSoFar
  rw [List.take_succ, hp]
  simp only [Option.toList, List.map_append, List.map_cons, List.map_nil, List.flatten_append,
    List.flatten_cons, List.flatten_nil, List.range_zero, List.append_nil, passFiles]

/-- Within a pass every call of `render` captures the next frame. -/
theorem sweep_pass {V : Type} (settings : Settings V)
    (hfollow : settings.followPath = true)
    (hend : end_count settings ≤ settings.pathViews.length) (f : Nat)
    (hf : f < settings.feature_buffers.length) (i0 : Nat) (s0 : SweepState V)
    (h0 : renderN settings (f * (end_count settings - start_count settings) + i0)
      (initialState settings) = .done s0 ∧ SweepAt settings f i0 s0) :
    ∀ n, i0 + n ≤ end_count settings - start_count settings →
      ∃ s, renderN settings (f * (end_count settings - start_count settings) + (i0 + n))
        (initialState settings) = .done s ∧ SweepAt settings f (i0 + n) s := by
  intro n
  induction n with
  | zero => intro _; exact ⟨s0, h0⟩
  | succ n ih =>
    intro hn
    obtain ⟨s, hrun, pfx, hp, hprep, hq, hc, hfc, hfiles, hlen⟩ := ih (by omega)
    obtain ⟨s', h1, h2, h3, h4, h5, h6, h7⟩ := render_inside settings s pfx hfollow hprep
      (by omega) (by omega) (by rw [hfc]; exact hf) (by rw [hfc]; exact hp)
    refine ⟨s', ?_, pfx, hp, h2, by rw [h5]; exact hq, by rw [h3, hc]; omega,
      by rw [h4]; exact hfc, ?_, by rw [h7, hlen]; omega⟩
    · have : f * (end_count settings - start_count settings) + (i0 + (n + 1)) =
          f * (end_count settings - start_count settings) + (i0 + n) + 1 := by omega
      rw [this, renderN, hrun]; exact h1
    · rw [h6, hfiles, hc]
      exact (filesSoFar_succ settings f (i0 + n) pfx).symm

/-- Every pass is reached, and all its frames are captured in order. -/
theorem sweep_feature {V : Type} (settings : Settings V)
    (hfollow : settings.followPath = true)
    (hpre : settings.feature_buffers.length ≤ settings.output_prefixes.length)
    (hse : start_count settings < end_count settings)
    (hend : end_count settings ≤ settings.pathViews.length) :
    ∀ f, f < settings.feature_buffers.length →
      ∀ i, 1 ≤ i → i ≤ end_count settings - start_count settings →
        ∃ s, renderN settings (f * (end_count settings - start_count settings) + i)
          (initialState settings) = .done s ∧ SweepAt settings f i s := by
  intro f
  induction f with
  | zero =>
    intro hf i _ hi
    obtain ⟨pfx, hp⟩ : ∃ pfx, settings.output_prefixes[0]? = some pfx :=
      ⟨settings.output_prefixes[0], List.getElem?_eq_getElem (by omega)⟩
    have h0 : renderN settings (0 * (end_count settings - start_count settings) + 0)
        (initialState settings) = .done (initialState settings) ∧
        SweepAt settings 0 0 (initialState settings) := by
      refine ⟨by simp [renderN], pfx, hp, rfl, rfl, rfl, rfl, ?_, ?_⟩
      · simp [initialState, filesSoFar]
      · simp [initialState]
    have := sweep_pass settings hfollow hend 0 hf 0 (initialState settings) h0 i (by omega)
    simpa using this
  | succ f ih =>
    intro hf i h1 hi
    obtain ⟨s, hrun, pfx, hp, hprep, hq, hc, hfc, hfiles, hlen⟩ :=
      ih (by omega) (end_count settings - start_count settings) (by omega) (le_refl _)
    obtain ⟨pfx', hp'⟩ : ∃ pfx, settings.output_prefixes[f + 1]? = some pfx :=
      ⟨settings.output_prefixes[f + 1], List.getElem?_eq_getElem (by omega)⟩
    obtain ⟨s', r1, r2, r3, r4, r5, r6, r7⟩ := render_next_feature settings s pfx' hfollow hprep
      (by omega) (by omega) (by rw [hfc]; exact hf) (by rw [hfc]; exact hp')
    have hk : (f + 1) * (end_count settings - start_count settings) + 1 =
        f * (end_count settings - start_count settings) +
          (end_count settings - start_count settings) + 1 := by ring
    have h0 : renderN settings ((f + 1) * (end_count settings - start_count settings) + 1)
        (initialState settings) = .done s' ∧ SweepAt settings (f + 1) 1 s' := by
      refine ⟨?_, pfx', hp', r2, by rw [r5]; exact hq, r3, by rw [r4, hfc], ?_, ?_⟩
      · rw [hk, renderN, hrun]; exact r1
      · rw [r6, hfiles, filesSoFar_pass settings f pfx pfx' hp, filesSoFar_succ]
        rfl
      · rw [r7, hlen, hk]
    have := sweep_pass settings hfollow hend (f + 1) hf 1 s' h0 (i - 1) (by omega)
    have e : 1 + (i - 1) = i := by omega
    rw [e] at this
    exact this


/-- C4: sweep order.  With path following on, `F ≥ 1` features, at least `F` prefixes and an
interval `[start, end)` with `start < end` inside the path, call number `f * (end - start) +
i + 1` of `render` writes the file of prefix `f` and frame `start + i` and nothing else, so
the `F * (end - start)` files are written in feature-major order, each once; the call after
the last frame of the last feature writes nothing and sets `quit`. -/
theorem render_sweep_order {V : Type} (settings : Settings V)
    (hfollow : settings.followPath = true)
    (hF : 1 ≤ settings.feature_buffers.length)
    (hpre : settings.feature_buffers.length ≤ settings.output_prefixes.length)
    (hse : start_count settings < end_count settings)
    (hend : end_count settings ≤ settings.pathViews.length) :
    (∀ f i, f < settings.feature_buffers.length → i < end_count settings - start_count settings →
      ∃ s s' pfx,
        renderN settings (f * (end_count settings - start_count settings) + i)
          (initialState settings) = .done s ∧
        s.quit = false ∧
        s.captures.length = f * (end_count settings - start_count settings) + i ∧
        settings.output_prefixes[f]? = some pfx ∧
        render settings s = .done s' ∧ s'.quit = false ∧
        s'.captures.map (·.file) = s.captures.map (·.file) ++
          [fileName pfx (frameArg settings (start_count settings + i))]) ∧
    (∃ s s',
      renderN settings
        (settings.feature_buffers.length * (end_count settings - start_count settings))
        (initialState settings) = .done s ∧
      s.captures.map (·.file) = sweepFiles settings ∧
      s.captures.length =
        settings.feature_buffers.length * (end_count settings - start_count settings) ∧
      s.quit = false ∧
      render settings s = .done s' ∧ s'.quit = true ∧ s'.captures = s.captures) := by
  have hall := sweep_feature settings hfollow hpre hse hend
  constructor
  · intro f i hf hi
    obtain ⟨pfx, hp⟩ : ∃ pfx, settings.output_prefixes[f]? = some pfx :=
      ⟨settings.output_prefixes[f], List.getElem?_eq_getElem (by omega)⟩
    rcases Nat.eq_zero_or_pos i with hi0 | hipos
    · subst hi0
      cases f with
      | zero =>
        obtain ⟨s', h1, _, _, _, h5, h6, _⟩ := render_inside settings (initialState settings) pfx
          hfollow rfl (by simp only [initialState]; omega)
          (by simp only [initialState]; omega) hf hp
        exact ⟨initialState settings, s', pfx, by simp [renderN], rfl, by simp [initialState], hp,
          h1, by rw [h5]; rfl, by simpa [initialState] using h6⟩
      | succ f =>
        obtain ⟨s, hrun, pfx0, _, hprep, hq, hc, hfc, _, hlen⟩ :=
          hall f (by omega) (end_count settings - start_count settings) (by omega) (le_refl _)
        obtain ⟨s', r1, _, _, _, r5, r6, _⟩ := render_next_feature settings s pfx hfollow hprep
          (by omega) (by omega) (by rw [hfc]; exact hf) (by rw [hfc]; exact hp)
        have hk : (f + 1) * (end_count settings - start_count settings) + 0 =
            f * (end_count settings - start_count settings) +
              (end_count settings - start_count settings) := by ring
        exact ⟨s, s', pfx, by rw [hk]; exact hrun, hq, by rw [hk]; exact hlen, hp, r1,
          by rw [r5]; exact hq, by simpa using r6⟩
    · obtain ⟨s, hrun, pfx0, hp0, hprep, hq, hc, hfc, _, hlen⟩ :=
        hall f hf i hipos (by omega)
      rw [hp] at hp0; cases hp0
      obtain ⟨s', h1, _, _, _, h5, h6, _⟩ := render_inside settings s pfx hfollow hprep
        (by omega) (by omega) (by rw [hfc]; exact hf) (by rw [hfc]; exact hp)
      exact ⟨s, s', pfx, hrun, hq, hlen, hp, h1, by rw [h5]; exact hq, by rw [h6, hc]⟩
  · obtain ⟨s, hrun, pfx, hp, hprep, hq, hc, hfc, hfiles, hlen⟩ :=
      hall (settings.feature_buffers.length - 1) (by omega)
        (end_count settings - start_count settings) (by omega) (le_refl _)
    obtain ⟨s', q1, q2, q3⟩ := render_quit settings s hfollow hprep (by omega) (by omega)
    have hk : (settings.feature_buffers.length - 1) * (end_count settings - start_count settings) +
        (end_count settings - start_count settings) =
        settings.feature_buffers.length * (end_count settings - start_count settings) := by
      have : settings.feature_buffers.length = settings.feature_buffers.length - 1 + 1 := by omega
      conv_rhs => rw [this]
      ring
    refine ⟨s, s', by rw [← hk]; exact hrun, ?_, by rw [← hk]; exact hlen, hq, q1, q2, q3⟩
    rw [hfiles, filesSoFar_pass settings _ pfx pfx hp]
    have : settings.feature_buffers.length - 1 + 1 = settings.feature_buffers.length := by omega
    simp [filesSoFar, sweepFiles, this]

/-- Witness of C4: features `normal`, `albedo`, prefixes `n_`, `a_`, interval `[0, 5)`: the
files `n_0.exr` to `n_4.exr`, then `a_0.exr` to `a_4.exr`, then `quit`. -/
theorem render_sweep_order_witness :
    exampleSweep.followPath = true ∧ 1 ≤ exampleSweep.feature_buffers.length ∧
    exampleSweep.feature_buffers.length ≤ exampleSweep.output_prefixes.length ∧
    start_count exampleSweep < end_count exampleSweep ∧
    end_count exampleSweep ≤ exampleSweep.pathViews.length ∧
    ∃ s s', renderN exampleSweep 10 (initialState exampleSweep) = .done s ∧
      s.captures.map (·.file) =
        ["n_0.exr", "n_1.exr", "n_2.exr", "n_3.exr", "n_4.exr",
         "a_0.exr", "a_1.exr", "a_2.exr", "a_3.exr", "a_4.exr"] ∧
      s.quit = false ∧ render exampleSweep s = .done s' ∧ s'.quit = true ∧
      s'.captures = s.captures := by
  refine ⟨by decide, by decide, by decide, by decide, by decide, ?_⟩
  obtain ⟨s, s', h1, h2, _, h4, h5, h6, h7⟩ :=
    (render_sweep_order exampleSweep (by decide) (by decide) (by decide) (by decide)
      (by decide)).2
  have hfiles : sweepFiles exampleSweep =
      ["n_0.exr", "n_1.exr", "n_2.exr", "n_3.exr", "n_4.exr",
       "a_0.exr", "a_1.exr", "a_2.exr", "a_3.exr", "a_4.exr"] := by decide
  exact ⟨s, s', h1, by rw [h2, hfiles], h4, h5, h6, h7⟩

set_option maxRecDepth 100000 in
/-- C5, the code at the failing input: path following on, no feature list, a path of 21
poses.  With the interval `[0, 20]` the first 21 calls of `render` capture the poses 0 to 20
and leave `quit` unset; call 22 does not set `quit` either: it goes on to read
`pathViews[21]`, outside the vector.  With the interval `[0, 10]` the first 11 calls capture
the poses 0 to 10, and call 12 captures a twelfth frame, pose 11, with `quit` still unset. -/
theorem render_no_feature_list_no_quit :
    (renderN (pathOnlySweep 20) 21 (initialState (pathOnlySweep 20))).map
        (fun s => (s.captures.map (·.camera), s.quit, s.count)) =
      .done ((List.range 21).map some, false, end_count (pathOnlySweep 20)) ∧
    renderN (pathOnlySweep 20) 22 (initialState (pathOnlySweep 20)) = .fault .pathViews_oob ∧
    (renderN (pathOnlySweep 10) 11 (initialState (pathOnlySweep 10))).map
        (fun s => (s.captures.map (·.camera), s.quit, s.count)) =
      .done ((List.range 11).map some, false, end_count (pathOnlySweep 10)) ∧
    (renderN (pathOnlySweep 10) 12 (initialState (pathOnlySweep 10))).map
        (fun s => (s.captures.map (·.camera), (s.captures.map (·.file)).drop 11, s.quit)) =
      .done ((List.range 12).map some, ["out_11.exr"], false) := by
  decide


/-- The index handed to `renderCustom` is `count + start_index` when this sum fits `int`. -/
theorem frameArg_eq {V : Type} (settings : Settings V) (count : Nat)
    (hlo : -(2 : Int) ^ 31 ≤ (count : Int) + settings.start_index)
    (hhi : (count : Int) + settings.start_index < (2 : Int) ^ 31) :
    frameArg settings count = (count : Int) + settings.start_index := by
  simp only [frameArg, toInt32, toSizeT]
  split <;> omega

/-- C10, as stated, fails when `frame counter + start_index` does not fit the `int` parameter
of `renderCustom`: with `start_index = 2147483647` the second captured frame (counter 1) is
written as `n_-2147483648.exr`, not as the prefix followed by the decimal value
`2147483648` of the sum. -/
theorem fileName_counterexample :
    (renderN (offsetSweep 2147483647) 2 (initialState (offsetSweep 2147483647))).map
        (fun s => (s.captures.map (·.file)).drop 1) = .done ["n_-2147483648.exr"] ∧
    "n_" ++ padLeft OUTPUT_INDEX_PAD '0' (toString ((1 : Int) + 2147483647)) ++ ".exr" =
      "n_2147483648.exr" := by
  decide

/-- C10, amended: when `frame counter + start_index` fits a 32-bit `int`, the file written
for a captured frame is the feature's prefix, followed by the decimal value of
`frame counter + start_index` left-padded with `'0'` to the width `OUTPUT_INDEX_PAD = 1`,
followed by `".exr"`. -/
theorem renderCustom_fileName {V : Type} (settings : Settings V) (s : SweepState V)
    (pfx : String) (hfollow : settings.followPath = true)
    (hp : settings.output_prefixes[s.feature_count]? = some pfx)
    (hlo : -(2 : Int) ^ 31 ≤ (s.count : Int) + settings.start_index)
    (hhi : (s.count : Int) + settings.start_index < (2 : Int) ^ 31) :
    OUTPUT_INDEX_PAD = 1 ∧
    ∃ s', renderCustom settings (frameArg settings s.count) s.feature_count s = .done s' ∧
      s'.captures.map (·.file) = s.captures.map (·.file) ++
        [pfx ++ padLeft OUTPUT_INDEX_PAD '0' (toString ((s.count : Int) + settings.start_index))
          ++ ".exr"] := by
  refine ⟨rfl, { s with captures := s.captures ++
    [⟨fileName pfx (frameArg settings s.count), s.camera, s.debugViewEquation⟩] }, ?_, ?_⟩
  · simp only [renderCustom, hfollow, hp]
    rfl
  · simp [fileName, frameArg_eq settings s.count hlo hhi]

/-- Witness of C10, amended: with `start_index = 5` the third captured frame (counter 2) of a
sweep that starts at 0 is written as `n_7.exr`. -/
theorem renderCustom_fileName_witness :
    (offsetSweep 5).followPath = true ∧
    (offsetSweep 5).output_prefixes[0]? = some "n_" ∧
    -(2 : Int) ^ 31 ≤ ((2 : Nat) : Int) + (offsetSweep 5).start_index ∧
    ((2 : Nat) : Int) + (offsetSweep 5).start_index < (2 : Int) ^ 31 ∧
    ∃ s', renderCustom (offsetSweep 5) (frameArg (offsetSweep 5) 2) 0
        { initialState (offsetSweep 5) with count := 2 } = .done s' ∧
      s'.captures.map (·.file) = ["n_7.exr"] := by
  refine ⟨by decide, by decide, by decide, by decide, ?_⟩
  obtain ⟨_, s', h1, h2⟩ := renderCustom_fileName (offsetSweep 5)
    { initialState (offsetSweep 5) with count := 2 } "n_" (by decide) (by decide) (by decide)
    (by decide)
  exact ⟨s', h1, by rw [h2]; decide⟩

/-- The table of features: `normal`, `albedo` and `position` have the indices 1, 2, 3 and the
empty name the index 0. -/
theorem firstMatch_table :
    firstMatch "" = some 0 ∧ firstMatch "normal" = some 1 ∧ firstMatch "albedo" = some 2 ∧
    firstMatch "position" = some 3 := by decide

/-- A match is the first entry of the table that equals the name. -/
theorem firstMatch_some (name : String) (j : Nat) (h : firstMatch name = some j) :
    available_features[j]? = some name ∧
    ∀ j', j' < j → available_features[j']? ≠ some name := by
  simp only [firstMatch, available_features, num_available_features, List.take,
    List.findIdx?_cons, List.findIdx?_nil] at h
  split at h
  · next h0 => cases h; rw [beq_iff_eq] at h0; subst h0; decide
  · split at h
    · next h0 => cases h; rw [beq_iff_eq] at h0; subst h0; decide
    · split at h
      · next h0 => cases h; rw [beq_iff_eq] at h0; subst h0; decide
      · split at h
        · next h0 => cases h; rw [beq_iff_eq] at h0; subst h0; decide
        · cases h

/-- Feature selection, when the current feature has the name `name`. -/
theorem selectFeature_eq {V : Type} (settings : Settings V) (s : SweepState V) (name : String)
    (hf : settings.feature_buffers[s.feature_count]? = some name) :
    selectFeature settings s = .done { s with debugViewEquation :=
      (if s.count = start_count settings then (firstMatch name).getD s.debugViewEquation
       else s.debugViewEquation) } := by
  have hlen : s.feature_count < settings.feature_buffers.length :=
    (List.getElem?_eq_some.1 hf).1
  have hne : settings.feature_buffers.length ≠ 0 := by omega
  unfold selectFeature
  by_cases hc : s.count = start_count settings
  · rw [if_pos ⟨hc, hne⟩, hf, if_pos hc]
    simp only [firstMatch]
    cases (available_features.take num_available_features).findIdx? (fun a => a == name) <;> rfl
  · rw [if_neg (fun h => hc h.1), if_neg hc]

/-- A capturing call of `render` inside a pass, in full. -/
theorem render_inside_eq {V : Type} (settings : Settings V) (s : SweepState V)
    (pfx name : String) (pose : V) (hfollow : settings.followPath = true)
    (hprep : s.prepared = true) (hcount : s.count < end_count settings)
    (hpose : settings.pathViews[s.count]? = some pose)
    (hf : settings.feature_buffers[s.feature_count]? = some name)
    (hp : settings.output_prefixes[s.feature_count]? = some pfx) :
    render settings s = .done (captured settings s s.feature_count s.count pfx pose
      (if s.count = start_count settings then (firstMatch name).getD s.debugViewEquation
       else s.debugViewEquation)) := by
  have hc : ¬ s.count ≥ end_count settings := by omega
  have hsel := selectFeature_eq settings { s with camera := some pose } name hf
  simp only [render, hprep, hfollow, if_neg hc, followCamera, hpose, Run.bind, renderCapture]
  simp only [hprep] at hsel
  simp [hsel, Run.bind, renderCustom, hfollow, hp, captured]

/-- The call of `render` that starts the pass of the next feature, in full. -/
theorem render_next_feature_eq {V : Type} (settings : Settings V) (s : SweepState V)
    (pfx name : String) (pose : V) (hfollow : settings.followPath = true)
    (hprep : s.prepared = true) (hcount : end_count settings ≤ s.count)
    (hpose : settings.pathViews[start_count settings]? = some pose)
    (hf : settings.feature_buffers[s.feature_count + 1]? = some name)
    (hp : settings.output_prefixes[s.feature_count + 1]? = some pfx) :
    render settings s = .done (captured settings s (s.feature_count + 1) (start_count settings)
      pfx pose ((firstMatch name).getD s.debugViewEquation)) := by
  have hlen : s.feature_count + 1 < settings.feature_buffers.length :=
    (List.getElem?_eq_some.1 hf).1
  have hne : settings.feature_buffers.length ≠ 0 := by omega
  have hlt : s.feature_count < settings.feature_buffers.length := by omega
  have hnq : ¬ s.feature_count + 1 ≥ settings.feature_buffers.length := by omega
  have hsel := selectFeature_eq settings
    { s with count := start_count settings, feature_count := s.feature_count + 1,
             camera := some pose } name hf
  simp only [if_pos] at hsel
  simp only [render, hprep, hfollow, if_pos hcount, List.getElem?_eq_getElem hlt, followCamera,
    hpose, Run.bind, renderCapture]
  simp only [hprep] at hsel
  simp [hne, hnq, hsel, Run.bind, renderCustom, hfollow, hp, captured]

/-- The view after one more pass. -/
theorem viewAfter_succ (names : List String) (f : Nat) (name : String)
    (h : names[f]? = some name) :
    viewAfter (names.take (f + 1)) = (firstMatch name).getD (viewAfter (names.take f)) := by
  simp [viewAfter, List.take_succ, h, List.foldl_append]

/-- Within a pass the debug view selected at its first frame stays in force. -/
theorem sweep_view {V : Type} (settings : Settings V)
    (hfollow : settings.followPath = true)
    (hpre : settings.feature_buffers.length ≤ settings.output_prefixes.length)
    (hse : start_count settings < end_count settings)
    (hend : end_count settings ≤ settings.pathViews.length) :
    ∀ f, f < settings.feature_buffers.length →
      ∀ i, 1 ≤ i → i ≤ end_count settings - start_count settings →
        ∃ s, renderN settings (f * (end_count settings - start_count settings) + i)
          (initialState settings) = .done s ∧ SweepAt settings f i s ∧
          s.debugViewEquation = viewAfter (settings.feature_buffers.take (f + 1)) := by
  have hall := sweep_feature settings hfollow hpre hse hend
  intro f
  induction f with
  | zero =>
    intro hf i h1 hi
    induction i with
    | zero => omega
    | succ i ih =>
      obtain ⟨s', hrun', hat'⟩ := hall 0 hf (i + 1) h1 hi
      refine ⟨s', hrun', hat', ?_⟩
      have hname := List.getElem?_eq_getElem hf
      have hpx : settings.output_prefixes[0]? = some settings.output_prefixes[0] :=
        List.getElem?_eq_getElem (by omega)
      rcases Nat.eq_zero_or_pos i with hi0 | hipos
      · subst hi0
        have hpose : settings.pathViews[(initialState settings).count]? =
            some settings.pathViews[start_count settings] :=
          List.getElem?_eq_getElem (by omega : start_count settings < settings.pathViews.length)
        have hr := render_inside_eq settings (initialState settings) _ _ _ hfollow rfl
          (by simp only [initialState]; omega) hpose hname hpx
        simp only [renderN, Run.bind, Nat.zero_mul, Nat.zero_add] at hrun'
        rw [hr] at hrun'
        cases hrun'
        rw [viewAfter_succ _ _ _ hname]
        simp [captured, initialState, viewAfter]
      · obtain ⟨s, hrun, hat, hd⟩ := ih hipos (by omega)
        obtain ⟨pfx, hp, hprep, hq, hc, hfc, _, _⟩ := hat
        have hpose : settings.pathViews[s.count]? = some settings.pathViews[s.count] :=
          List.getElem?_eq_getElem (by omega)
        have hr := render_inside_eq settings s pfx _ _ hfollow hprep (by omega) hpose
          (by rw [hfc]; exact hname) (by rw [hfc]; exact hp)
        have e : 0 * (end_count settings - start_count settings) + (i + 1) =
            0 * (end_count settings - start_count settings) + i + 1 := by omega
        rw [e, renderN, hrun] at hrun'
        simp only [Run.bind] at hrun'
        rw [hr] at hrun'
        cases hrun'
        have hne : ¬ s.count = start_count settings := by omega
        simp [captured, hne, hd]
  | succ f ihf =>
    intro hf i h1 hi
    induction i with
    | zero => omega
    | succ i ih =>
      obtain ⟨s', hrun', hat'⟩ := hall (f + 1) hf (i + 1) h1 hi
      refine ⟨s', hrun', hat', ?_⟩
      have hname := List.getElem?_eq_getElem hf
      rcases Nat.eq_zero_or_pos i with hi0 | hipos
      · subst hi0
        obtain ⟨s, hrun, hat, hd⟩ :=
          ihf (by omega) (end_count settings - start_count settings) (by omega) (le_refl _)
        obtain ⟨pfx, hp, hprep, hq, hc, hfc, _, _⟩ := hat
        obtain ⟨pfx', hp'⟩ : ∃ pfx, settings.output_prefixes[f + 1]? = some pfx :=
          ⟨settings.output_prefixes[f + 1], List.getElem?_eq_getElem (by omega)⟩
        have hpose : settings.pathViews[start_count settings]? =
            some settings.pathViews[start_count settings] :=
          List.getElem?_eq_getElem (by omega)
        have hr := render_next_feature_eq settings s pfx' _ _ hfollow hprep (by omega) hpose
          (by rw [hfc]; exact hname) (by rw [hfc]; exact hp')
        have e : (f + 1) * (end_count settings - start_count settings) + (0 + 1) =
            f * (end_count settings - start_count settings) +
              (end_count settings - start_count settings) + 1 := by ring
        rw [e, renderN, hrun] at hrun'
        simp only [Run.bind] at hrun'
        rw [hr] at hrun'
        cases hrun'
        rw [viewAfter_succ _ _ _ hname]
        simp [captured, hd]
      · obtain ⟨s, hrun, hat, hd⟩ := ih hipos (by omega)
        obtain ⟨pfx, hp, hprep, hq, hc, hfc, _, _⟩ := hat
        have hpose : settings.pathViews[s.count]? = some settings.pathViews[s.count] :=
          List.getElem?_eq_getElem (by omega)
        have hr := render_inside_eq settings s pfx _ _ hfollow hprep (by omega) hpose
          (by rw [hfc]; exact hname) (by rw [hfc]; exact hp)
        have e : (f + 1) * (end_count settings - start_count settings) + (i + 1) =
            (f + 1) * (end_count settings - start_count settings) + i + 1 := by omega
        rw [e, renderN, hrun] at hrun'
        simp only [Run.bind] at hrun'
        rw [hr] at hrun'
        cases hrun'
        have hne : ¬ s.count = start_count settings := by omega
        simp [captured, hne, hd]

/-- Call number `f * (end - start) + i + 1` of `render`, in full: the state before it and the
state it leaves. -/
theorem sweep_call {V : Type} (settings : Settings V)
    (hfollow : settings.followPath = true)
    (hpre : settings.feature_buffers.length ≤ settings.output_prefixes.length)
    (hse : start_count settings < end_count settings)
    (hend : end_count settings ≤ settings.pathViews.length) (f i : Nat)
    (hf : f < settings.feature_buffers.length)
    (hi : i < end_count settings - start_count settings) (pfx name : String) (pose : V)
    (hp : settings.output_prefixes[f]? = some pfx)
    (hn : settings.feature_buffers[f]? = some name)
    (hpose : settings.pathViews[start_count settings + i]? = some pose) :
    ∃ s, renderN settings (f * (end_count settings - start_count settings) + i)
        (initialState settings) = .done s ∧
      s.quit = false ∧
      s.captures.length = f * (end_count settings - start_count settings) + i ∧
      s.debugViewEquation =
        viewAfter (settings.feature_buffers.take (if i = 0 then f else f + 1)) ∧
      render settings s = .done (captured settings s f (start_count settings + i) pfx pose
        (viewAfter (settings.feature_buffers.take (f + 1)))) := by
  have hall := sweep_view settings hfollow hpre hse hend
  rcases Nat.eq_zero_or_pos i with hi0 | hipos
  · subst hi0
    cases f with
    | zero =>
      have hr := render_inside_eq settings (initialState settings) pfx name pose hfollow rfl
        (by simp only [initialState]; omega) hpose hn hp
      refine ⟨initialState settings, by simp [renderN], rfl, by simp [initialState],
        by simp [initialState, viewAfter], ?_⟩
      rw [hr, viewAfter_succ _ _ _ hn]
      simp [initialState, viewAfter]
    | succ f =>
      obtain ⟨s, hrun, ⟨pfx0, _, hprep, hq, hc, hfc, _, hlen⟩, hd⟩ :=
        hall f (by omega) (end_count settings - start_count settings) (by omega) (le_refl _)
      have hr := render_next_feature_eq settings s pfx name pose hfollow hprep (by omega) hpose
        (by rw [hfc]; exact hn) (by rw [hfc]; exact hp)
      have hk : (f + 1) * (end_count settings - start_count settings) + 0 =
          f * (end_count settings - start_count settings) +
            (end_count settings - start_count settings) := by ring
      refine ⟨s, by rw [hk]; exact hrun, hq, by rw [hk]; exact hlen, by simpa using hd, ?_⟩
      rw [hr, viewAfter_succ _ _ _ hn, hd, hfc]
      rfl
  · obtain ⟨s, hrun, ⟨pfx0, hp0, hprep, hq, hc, hfc, _, hlen⟩, hd⟩ := hall f hf i hipos (by omega)
    have hr := render_inside_eq settings s pfx name pose hfollow hprep (by omega)
      (by rw [hc]; exact hpose) (by rw [hfc]; exact hn) (by rw [hfc]; exact hp)
    have hne : ¬ s.count = start_count settings := by omega
    have hi0 : ¬ i = 0 := by omega
    refine ⟨s, hrun, hq, hlen, by simpa [hi0] using hd, ?_⟩
    rw [hr, if_neg hne, hd, hfc, hc]

/-- The first match of a name is its position in the table. -/
theorem firstMatch_iff (name : String) (j : Nat) :
    firstMatch name = some j ↔ available_features[j]? = some name := by
  constructor
  · intro h; exact (firstMatch_some name j h).1
  · intro h
    rcases j with _ | _ | _ | _ | j <;>
      simp [available_features] at h <;> subst h <;> decide

/-- The view is the default one when no name selects another. -/
theorem viewAfter_default (names : List String)
    (h : ∀ name ∈ names, firstMatch name = none ∨ firstMatch name = some 0) :
    viewAfter names = 0 := by
  unfold viewAfter
  induction names using List.reverseRecOn with
  | nil => rfl
  | append_singleton l a ih =>
    rw [List.foldl_append, ih (fun n hn => h n (List.mem_append_left _ hn))]
    rcases h a (by simp) with h0 | h0 <;> simp [h0]

/-- C11: frame interval.  With path following on, `F ≥ 1` features and at least `F` prefixes:
when `interval_t0 = a` and `interval_t1 = b` are configured with `0 ≤ a ≤ b < path length`
(and `b + 1` in the range of `int`), or when both are `-1` and `a = 0`, `b = path length - 1`,
the frame counter runs over `[a, b + 1)` and call number `f * (b - a + 1) + i + 1` of `render`
(feature `f`, `i < b - a + 1`) sets the camera to the path pose of index `a + i` and captures
one frame with it; after the `F * (b - a + 1)` captures the next call captures nothing and
sets `quit`.  So each pass renders exactly the poses `a, a + 1, ..., b`. -/
theorem render_frame_interval {V : Type} (settings : Settings V) (a b : Nat)
    (hfollow : settings.followPath = true)
    (hF : 1 ≤ settings.feature_buffers.length)
    (hpre : settings.feature_buffers.length ≤ settings.output_prefixes.length)
    (hiv : (settings.interval_t0 = (a : Int) ∧ settings.interval_t1 = (b : Int) ∧ a ≤ b ∧
        b < settings.pathViews.length ∧ b + 1 < 2 ^ 31) ∨
      (settings.interval_t0 = -1 ∧ settings.interval_t1 = -1 ∧ a = 0 ∧
        b + 1 = settings.pathViews.length)) :
    start_count settings = a ∧ end_count settings = b + 1 ∧
    (∀ f i, f < settings.feature_buffers.length → i < b - a + 1 →
      ∃ s s' pose,
        renderN settings (f * (b - a + 1) + i) (initialState settings) = .done s ∧
        s.quit = false ∧ s.captures.length = f * (b - a + 1) + i ∧
        settings.pathViews[a + i]? = some pose ∧
        render settings s = .done s' ∧ s'.quit = false ∧ s'.feature_count = f ∧
        s'.camera = some pose ∧
        s'.captures.map (·.camera) = s.captures.map (·.camera) ++ [some pose]) ∧
    (∃ s s',
      renderN settings (settings.feature_buffers.length * (b - a + 1))
        (initialState settings) = .done s ∧
      s.captures.length = settings.feature_buffers.length * (b - a + 1) ∧
      render settings s = .done s' ∧ s'.quit = true ∧ s'.captures = s.captures) := by
  have hstart : start_count settings = a := by
    rcases hiv with ⟨h0, _, _, _, _⟩ | ⟨h0, _, ha, _⟩
    · simp only [start_count, h0, toSizeT]; split <;> omega
    · simp [start_count, h0, ha]
  have hendc : end_count settings = b + 1 := by
    rcases hiv with ⟨_, h1, _, _, _⟩ | ⟨_, h1, _, hb⟩
    · simp only [end_count, h1, toSizeT]; split <;> omega
    · simp [end_count, h1, hb]
  have hab : a ≤ b := by rcases hiv with ⟨_, _, h, _, _⟩ | ⟨_, _, h, _⟩ <;> omega
  have hlen : b < settings.pathViews.length := by
    rcases hiv with ⟨_, _, _, h, _⟩ | ⟨_, _, _, h⟩ <;> omega
  have hL : end_count settings - start_count settings = b - a + 1 := by omega
  have hse : start_count settings < end_count settings := by omega
  have hend : end_count settings ≤ settings.pathViews.length := by omega
  refine ⟨hstart, hendc, ?_, ?_⟩
  · intro f i hf hi
    have hpose : settings.pathViews[start_count settings + i]? =
        some settings.pathViews[a + i] := by
      simp only [hstart]
      exact List.getElem?_eq_getElem _
    obtain ⟨s, hrun, hq, hcl, _, hr⟩ := sweep_call settings hfollow hpre hse hend f i hf
      (by omega) settings.output_prefixes[f] settings.feature_buffers[f] _
      (List.getElem?_eq_getElem (by omega)) (List.getElem?_eq_getElem hf) hpose
    rw [hL] at hrun hcl
    refine ⟨s, _, settings.pathViews[a + i], hrun, hq, hcl,
      List.getElem?_eq_getElem (by omega), hr, hq, rfl, rfl, ?_⟩
    simp [captured]
  · obtain ⟨s, hrun, pfx, hp, hprep, hq, hc, hfc, _, hcl⟩ :=
      sweep_feature settings hfollow hpre hse hend (settings.feature_buffers.length - 1)
        (by omega) (end_count settings - start_count settings) (by omega) (le_refl _)
    obtain ⟨s', q1, q2, q3⟩ := render_quit settings s hfollow hprep (by omega) (by omega)
    have hk : (settings.feature_buffers.length - 1) * (end_count settings - start_count settings) +
        (end_count settings - start_count settings) =
        settings.feature_buffers.length * (b - a + 1) := by
      have : settings.feature_buffers.length = settings.feature_buffers.length - 1 + 1 := by omega
      rw [hL]
      conv_rhs => rw [this]
      ring
    rw [hk] at hrun hcl
    exact ⟨s, s', hrun, hcl, q1, q2, q3⟩

/-- Witness of C11: with the interval `[2, 5]` on a path of eight poses, call 7 (feature 1,
`i = 2`) captures the pose of index 4; without interval on a path of five poses, call 5
captures the pose of index 4, the last one. -/
theorem render_frame_interval_witness :
    (intervalSweep.followPath = true ∧ 1 ≤ intervalSweep.feature_buffers.length ∧
      intervalSweep.interval_t0 = ((2 : Nat) : Int) ∧
      intervalSweep.interval_t1 = ((5 : Nat) : Int) ∧
      ∃ s s', renderN intervalSweep 6 (initialState intervalSweep) = .done s ∧
        render intervalSweep s = .done s' ∧ s'.feature_count = 1 ∧
        s'.camera = intervalSweep.pathViews[4]?) ∧
    ((offsetSweep 0).interval_t0 = -1 ∧ (offsetSweep 0).interval_t1 = -1 ∧
      ∃ s s', renderN (offsetSweep 0) 4 (initialState (offsetSweep 0)) = .done s ∧
        render (offsetSweep 0) s = .done s' ∧ s'.camera = (offsetSweep 0).pathViews[4]?) := by
  refine ⟨⟨by decide, by decide, by decide, by decide, ?_⟩, by decide, by decide, ?_⟩
  · obtain ⟨s, s', pose, h1, _, _, h4, h5, _, h7, h8, _⟩ :=
      (render_frame_interval intervalSweep 2 5 (by decide) (by decide) (by decide)
        (Or.inl (by decide))).2.2.1 1 2 (by decide) (by decide)
    exact ⟨s, s', h1, h5, h7, by rw [h8, ← h4]⟩
  · obtain ⟨s, s', pose, h1, _, _, h4, h5, _, _, h8, _⟩ :=
      (render_frame_interval (offsetSweep 0) 0 4 (by decide) (by decide) (by decide)
        (Or.inr (by decide))).2.2.1 0 4 (by decide) (by decide)
    exact ⟨s, s', h1, h5, by rw [h8, ← h4]⟩

set_option maxRecDepth 100000 in
/-- C12, as stated, fails for the feature list `normal`, `foo`: the name `foo` is not in the
table, and the five frames of its pass (captures 6 to 10) are rendered with
`debugViewEquation = 1`, the view that `normal` selected, not with the default view 0. -/
theorem render_unrecognized_feature_counterexample :
    firstMatch "foo" = none ∧
    (renderN unknownFeatureSweep 10 (initialState unknownFeatureSweep)).map
        (fun s => (s.captures.map (·.debugViewEquation), s.quit)) =
      .done ([1, 1, 1, 1, 1, 1, 1, 1, 1, 1], false) := by
  decide

/-- C12, amended: an unrecognized feature name is non-fatal and leaves the debug view as it
is.  For every feature list and every position `f` of a name that is not in the table, each
of the calls of `render` of that pass (call `f * (end - start) + i + 1`, `i < end - start`)
returns without fault and without setting `quit` and captures one frame, so all frames of the
pass are captured; they are rendered with the view left by the names that precede it in the
list, which is the default view 0 when every preceding name is unrecognized or selects the
view 0, in particular when there is none. -/
theorem render_unrecognized_feature {V : Type} (settings : Settings V)
    (hfollow : settings.followPath = true)
    (hpre : settings.feature_buffers.length ≤ settings.output_prefixes.length)
    (hse : start_count settings < end_count settings)
    (hend : end_count settings ≤ settings.pathViews.length) (f : Nat) (name : String)
    (hn : settings.feature_buffers[f]? = some name) (hun : firstMatch name = none) :
    (∀ i, i < end_count settings - start_count settings →
      ∃ s s' c,
        renderN settings (f * (end_count settings - start_count settings) + i)
          (initialState settings) = .done s ∧
        s.quit = false ∧
        s.captures.length = f * (end_count settings - start_count settings) + i ∧
        render settings s = .done s' ∧ s'.quit = false ∧ s'.feature_count = f ∧
        s'.captures = s.captures ++ [c] ∧
        c.debugViewEquation = viewAfter (settings.feature_buffers.take f) ∧
        s'.debugViewEquation = viewAfter (settings.feature_buffers.take f)) ∧
    ((∀ g name', g < f → settings.feature_buffers[g]? = some name' →
        firstMatch name' = none ∨ firstMatch name' = some 0) →
      viewAfter (settings.feature_buffers.take f) = 0) := by
  have hf : f < settings.feature_buffers.length := (List.getElem?_eq_some.1 hn).1
  have hv : viewAfter (settings.feature_buffers.take (f + 1)) =
      viewAfter (settings.feature_buffers.take f) := by
    rw [viewAfter_succ _ _ _ hn, hun]; rfl
  constructor
  · intro i hi
    obtain ⟨s, hrun, hq, hcl, _, hr⟩ := sweep_call settings hfollow hpre hse hend f i hf hi
      settings.output_prefixes[f] name settings.pathViews[start_count settings + i]
      (List.getElem?_eq_getElem (by omega)) hn (List.getElem?_eq_getElem (by omega))
    rw [hv] at hr
    exact ⟨s, _, _, hrun, hq, hcl, hr, hq, rfl, rfl, rfl, rfl⟩
  · intro h
    apply viewAfter_default
    intro name' hmem
    obtain ⟨g, hg, hget⟩ := List.getElem_of_mem hmem
    rw [List.length_take] at hg
    rw [List.getElem_take] at hget
    exact h g name' (by omega) (by rw [← hget]; exact List.getElem?_eq_getElem (by omega))

/-- Witness of C12, amended: in the sweep of the features `normal`, `foo` over five frames,
call 8 (pass of `foo`, `i = 2`) returns without `quit` and captures a frame with the view 1
that `normal` left. -/
theorem render_unrecognized_feature_witness :
    unknownFeatureSweep.feature_buffers[1]? = some "foo" ∧ firstMatch "foo" = none ∧
    viewAfter (unknownFeatureSweep.feature_buffers.take 1) = 1 ∧
    ∃ s s' c, renderN unknownFeatureSweep 7 (initialState unknownFeatureSweep) = .done s ∧
      render unknownFeatureSweep s = .done s' ∧ s'.quit = false ∧
      s'.captures = s.captures ++ [c] ∧ c.debugViewEquation = 1 := by
  refine ⟨by decide, by decide, by decide, ?_⟩
  obtain ⟨s, s', c, h1, _, _, h4, h5, _, h7, h8, _⟩ :=
    (render_unrecognized_feature unknownFeatureSweep (by decide) (by decide) (by decide)
      (by decide) 1 "foo" (by decide) (by decide)).1 2 (by decide)
  exact ⟨s, s', c, h1, h4, h5, h7, by rw [h8]; decide⟩

/-- C13: feature selection.  In the sweep, call number `f * (end - start) + i + 1` of
`render` captures frame `start + i` of the pass of feature `f`.  At the first frame
(`i = 0`) the feature name is matched against the table `["", "normal", "albedo",
"position"]`: if it is the entry of index `j`, the first such entry, `debugViewEquation`
becomes `j` (so `normal` gives 1, `albedo` 2, `position` 3), and without match it keeps its
value; at every other frame (`i ≠ 0`) `debugViewEquation` keeps its value. -/
theorem render_feature_selection {V : Type} (settings : Settings V)
    (hfollow : settings.followPath = true)
    (hpre : settings.feature_buffers.length ≤ settings.output_prefixes.length)
    (hse : start_count settings < end_count settings)
    (hend : end_count settings ≤ settings.pathViews.length) (f i : Nat) (name : String)
    (hn : settings.feature_buffers[f]? = some name)
    (hi : i < end_count settings - start_count settings) :
    available_features = ["", "normal", "albedo", "position"] ∧
    (∀ j, firstMatch name = some j ↔
      (available_features[j]? = some name ∧
        ∀ j', j' < j → available_features[j']? ≠ some name)) ∧
    firstMatch "normal" = some 1 ∧ firstMatch "albedo" = some 2 ∧
    firstMatch "position" = some 3 ∧
    ∃ s s',
      renderN settings (f * (end_count settings - start_count settings) + i)
        (initialState settings) = .done s ∧
      render settings s = .done s' ∧ s'.feature_count = f ∧
      s'.count = start_count settings + i + 1 ∧
      (i = 0 → ∀ j, firstMatch name = some j → s'.debugViewEquation = j) ∧
      (i = 0 → firstMatch name = none → s'.debugViewEquation = s.debugViewEquation) ∧
      (i ≠ 0 → s'.debugViewEquation = s.debugViewEquation) := by
  have hf : f < settings.feature_buffers.length := (List.getElem?_eq_some.1 hn).1
  refine ⟨rfl, ?_, by decide, by decide, by decide, ?_⟩
  · intro j
    constructor
    · exact firstMatch_some name j
    · intro h; exact (firstMatch_iff name j).2 h.1
  · obtain ⟨s, hrun, _, _, hd, hr⟩ := sweep_call settings hfollow hpre hse hend f i hf hi
      settings.output_prefixes[f] name settings.pathViews[start_count settings + i]
      (List.getElem?_eq_getElem (by omega)) hn (List.getElem?_eq_getElem (by omega))
    refine ⟨s, _, hrun, hr, rfl, rfl, ?_, ?_, ?_⟩
    · intro hi0 j hj
      simp [captured, viewAfter_succ _ _ _ hn, hj]
    · intro hi0 hnone
      simp [captured, viewAfter_succ _ _ _ hn, hnone, hd, hi0]
    · intro hi0
      simp [captured, hd, hi0]

/-- Witness of C13: in the sweep of the features `normal`, `albedo` over the frames 2 to 5,
call 5 (first frame of the pass of `albedo`) sets `debugViewEquation` to 2, and
call 6 (second frame) leaves it at 2. -/
theorem render_feature_selection_witness :
    intervalSweep.feature_buffers[1]? = some "albedo" ∧
    (∃ s s', renderN intervalSweep 4 (initialState intervalSweep) = .done s ∧
      render intervalSweep s = .done s' ∧ s'.debugViewEquation = 2) ∧
    (∃ s s', renderN intervalSweep 5 (initialState intervalSweep) = .done s ∧
      render intervalSweep s = .done s' ∧ s'.debugViewEquation = s.debugViewEquation) := by
  refine ⟨by decide, ?_, ?_⟩
  · obtain ⟨_, _, _, _, _, s, s', h1, h2, _, _, h5, _, _⟩ :=
      render_feature_selection intervalSweep (by decide) (by decide) (by decide) (by decide)
        1 0 "albedo" (by decide) (by decide)
    exact ⟨s, s', h1, h2, h5 rfl 2 (by decide)⟩
  · obtain ⟨_, _, _, _, _, s, s', h1, h2, _, _, _, _, h7⟩ :=
      render_feature_selection intervalSweep (by decide) (by decide) (by decide) (by decide)
        1 1 "albedo" (by decide) (by decide)
    exact ⟨s, s', h1, h2, h7 (by decide)⟩

/-! ## Theorems: `to3chan` and `output_image_float` -/

/-- The body of `to3chan` reads each of its three sources before any of its assignments
reaches it. -/
theorem to3chanPixel_spec {α : Type} (d : Nat → α) (i k : Nat) (hk : k < 3) :
    to3chanPixel d i (3 * i + k) = d (4 * i + k) := by
  have hk3 : k = 0 ∨ k = 1 ∨ k = 2 := by omega
  simp only [to3chanPixel, Function.update_apply]
  rcases hk3 with rfl | rfl | rfl
  · rw [if_neg (by omega), if_neg (by omega), if_pos rfl]
  · rw [if_neg (by omega), if_pos rfl, if_neg (by omega)]
  · rw [if_pos rfl, if_neg (by omega), if_neg (by omega)]

/-- C14: `to3chan` drops the alpha channel in place.  For every width and height whose index
arithmetic stays in the range of `int` and every array, after `to3chan` the entry
`data[3 * i + k]` is the old `data[4 * i + k]` for every pixel `i < width * height` and
`k < 3`; no source is overwritten before it is read: when the loop reaches pixel `i` the
entries `4 * i + k` still hold their old values, and the body assigns them to the entries
`3 * i + k`; the entries from `3 * width * height` on are never written. -/
theorem to3chan_drops_alpha {α : Type} (data : Nat → α) (width height : Nat)
    (hint : 4 * (width * height) < 2 ^ 31) :
    (∀ i k, i < width * height → k < 3 →
      to3chan data width height (3 * i + k) = data (4 * i + k)) ∧
    (∀ i k, i < width * height → k < 3 →
      (List.range i).foldl to3chanPixel data (4 * i + k) = data (4 * i + k) ∧
      to3chanPixel ((List.range i).foldl to3chanPixel data) i (3 * i + k) = data (4 * i + k)) ∧
    (∀ m, 3 * (width * height) ≤ m → to3chan data width height m = data m) := by
  refine ⟨fun i k hi hk => (to3chan_fold data (width * height)).1 i k hi hk, ?_,
    fun m hm => (to3chan_fold data (width * height)).2 m hm⟩
  intro i k _ hk
  have h := (to3chan_fold data i).2 (4 * i + k) (by omega)
  exact ⟨h, by rw [to3chanPixel_spec _ _ _ hk, h]⟩

/-- Witness of C14: for a 2 x 1 image whose floats are labelled by their index, the packed
array holds 0, 1, 2, 4, 5, 6. -/
theorem to3chan_drops_alpha_witness :
    4 * (2 * 1) < 2 ^ 31 ∧
    (List.range 6).map (to3chan (fun n => n) 2 1) = [0, 1, 2, 4, 5, 6] ∧
    to3chan (fun n => n) 2 1 (3 * 1 + 2) = 4 * 1 + 2 := by
  refine ⟨by decide, by decide, ?_⟩
  exact (to3chan_drops_alpha (fun n => n) 2 1 (by decide)).1 1 2 (by decide) (by decide)

/-- The row stride `- width * 3 * sizeof(float)`, computed in `size_t` and received as
`stride_t`, is `-(width * 3 * 4)`. -/
theorem stride_eq (width : Nat) (hw : 3 * width < 2147483648) :
    toInt64 ((toSizeT (-(width : Int) * 3) * 4) % 2 ^ 64) = -((width * 3 * 4 : Nat) : Int) := by
  rcases Nat.eq_zero_or_pos width with h0 | hpos
  · subst h0
    simp [toInt64, toSizeT]
  · have hneg : -(width : Int) * 3 = -(3 * (width : Int)) := by ring
    have e0 : (-(3 * (width : Int))) % 18446744073709551616 =
        18446744073709551616 - 3 * (width : Int) := by omega
    have h1 : toSizeT (-(width : Int) * 3) = 18446744073709551616 - 3 * width := by
      rw [toSizeT, hneg]
      norm_num only
      rw [e0]
      omega
    have h2 : (18446744073709551616 - 3 * width) * 4 % 2 ^ 64 =
        18446744073709551616 - 12 * width := by omega
    rw [h1, h2]
    simp only [toInt64]
    split <;> omega

/-- C15: `output_image_float` writes the image vertically flipped and leaves the buffer as it
is.  For three channels, a file that can be created, `height ≥ 1` and sizes in the range of
`int`, the call hands the start offset `3 * width * (height - 1)` floats and the row stride
`-(width * 3 * 4)` bytes to the library, so channel `c` of pixel `x` of the file row `r`
(0 is the top row) is the float `3 * width * (height - 1 - r) + 3 * x + c` of the buffer:
row `r` is taken from the `width * 3` floats that start at `3 * width * (height - 1 - r)`,
buffer scanline 0 is the bottom row; the buffer after the call is the buffer before it. -/
theorem output_image_float_flipped {α : Type} (data : Nat → α) (width height : Nat)
    (file_name : String) (hh : 1 ≤ height) (hint : 3 * width * height < 2 ^ 31) :
    ∃ w, output_image_float true data (width : Int) (height : Int) 3 file_name = .ok (w, data) ∧
      w.file_name = file_name ∧ w.width = width ∧ w.height = height ∧ w.nchannels = 3 ∧
      w.dataStart = ((3 * width * (height - 1) : Nat) : Int) ∧
      w.ystride = -((width * 3 * 4 : Nat) : Int) ∧
      (∀ r x c, r < height → x < width → c < 3 →
        fileFloatIndex w r x c = ((3 * width * (height - 1 - r) + 3 * x + c : Nat) : Int) ∧
        fileFloat w data r x c = data (3 * width * (height - 1 - r) + 3 * x + c)) ∧
      (∀ x c, x < width → c < 3 →
        fileFloat w data (height - 1) x c = data (3 * x + c) ∧
        fileFloat w data 0 x c = data (3 * width * (height - 1) + 3 * x + c)) := by
  have hw : 3 * width ≤ 3 * width * height := Nat.le_mul_of_pos_right _ hh
  have hys : toInt64 ((toSizeT (-(width : Int) * 3) * 4) % 2 ^ 64) =
      -((width * 3 * 4 : Nat) : Int) := stride_eq width (by omega)
  have hidx : ∀ (r x c : Nat), r < height → x < width → c < 3 →
      (4 * ((3 * width * (height - 1) : Nat) : Int) + (r : Int) * -((width * 3 * 4 : Nat) : Int) +
        (x : Int) * (((3 : Nat) : Int) * 4) + 4 * (c : Int)) / 4 =
      ((3 * width * (height - 1 - r) + 3 * x + c : Nat) : Int) := by
    intro r x c hr _ _
    obtain ⟨h', hh'⟩ : ∃ h', height - 1 = h' + r := ⟨height - 1 - r, by omega⟩
    have e : height - 1 - r = h' := by omega
    rw [e, hh']
    have : (4 * ((3 * width * (h' + r) : Nat) : Int) + (r : Int) * -((width * 3 * 4 : Nat) : Int) +
        (x : Int) * (((3 : Nat) : Int) * 4) + 4 * (c : Int)) =
        4 * ((3 * width * h' + 3 * x + c : Nat) : Int) := by
      push_cast; ring
    rw [this, Int.mul_ediv_cancel_left _ (by norm_num)]
  have hfi : ∀ r x c, r < height → x < width → c < 3 →
      fileFloatIndex ⟨file_name, width, height, 3, ((3 * width * (height - 1) : Nat) : Int),
        -((width * 3 * 4 : Nat) : Int)⟩ r x c =
      ((3 * width * (height - 1 - r) + 3 * x + c : Nat) : Int) := by
    intro r x c hr hx hc
    simp only [fileFloatIndex]
    exact hidx r x c hr hx hc
  have hds : (3 : Int) * (width : Int) * ((height : Int) - 1) =
      ((3 * width * (height - 1) : Nat) : Int) := by
    obtain ⟨h', rfl⟩ : ∃ h', height = h' + 1 := ⟨height - 1, by omega⟩
    push_cast; simp
  refine ⟨⟨file_name, width, height, 3, ((3 * width * (height - 1) : Nat) : Int),
    -((width * 3 * 4 : Nat) : Int)⟩, ?_, rfl, rfl, rfl, rfl, rfl, rfl, ?_, ?_⟩
  · simp only [output_image_float, hys, hds]
    rfl
  · intro r x c hr hx hc
    refine ⟨hfi r x c hr hx hc, ?_⟩
    simp only [fileFloat, hfi r x c hr hx hc, Int.toNat_ofNat]
  · intro x c hx hc
    constructor
    · simp only [fileFloat, hfi (height - 1) x c (by omega) hx hc, Int.toNat_ofNat]
      simp
    · simp only [fileFloat, hfi 0 x c (by omega) hx hc, Int.toNat_ofNat]
      simp

/-- Witness of C15: for a 2 x 3 image the call hands the start offset 12 and the row stride
-24 to the library; the top row of the file starts at the float 12 of the buffer, the bottom
row at the float 0. -/
theorem output_image_float_flipped_witness :
    1 ≤ 3 ∧ 3 * 2 * 3 < 2 ^ 31 ∧
    ∃ w, output_image_float true (fun n => n) 2 3 3 "out_0.exr" = .ok (w, fun n => n) ∧
      w.dataStart = 12 ∧ w.ystride = -24 ∧
      fileFloat w (fun n => n) 0 0 0 = 12 ∧ fileFloat w (fun n => n) 2 0 0 = 0 := by
  refine ⟨by decide, by decide, ?_⟩
  obtain ⟨w, h1, _, _, _, _, h6, h7, h8, _⟩ :=
    output_image_float_flipped (fun n => n) 2 3 "out_0.exr" (by decide) (by decide)
  exact ⟨w, h1, by rw [h6]; rfl, by rw [h7]; rfl,
    by rw [(h8 0 0 0 (by decide) (by decide) (by decide)).2],
    by rw [(h8 2 0 0 (by decide) (by decide) (by decide)).2]⟩

/-! ## Theorems: the host protocol of `renderCustom` -/

/-- A property of the start that every statement preserves holds after any number of
statements. -/
theorem runHost_induction (followPath : Bool) (env : Nat → VkResult) (P : HostState → Prop)
    (h0 : P hostStart) (hstep : ∀ s, P s → P (step followPath env s)) :
    ∀ k, P (runHost followPath env k) := by
  intro k
  induction k with
  | zero => exact h0
  | succ k ih => exact hstep _ ih

/-- A statement performs at most one operation. -/
theorem step_trace (followPath : Bool) (env : Nat → VkResult) (s : HostState) :
    (step followPath env s).trace = s.trace ∨
      ∃ ev, (step followPath env s).trace = s.trace ++ [ev] := by
  obtain ⟨pos, calls, used, trace⟩ := s
  cases pos <;> simp [step, perform, callUnchecked, VK_CHECK_RESULT, waitIteration]
  cases followPath <;> simp

/-- Every operation of the trace was performed by one statement, on the trace before it. -/
theorem trace_split (followPath : Bool) (env : Nat → VkResult) :
    ∀ k pre ev post, (runHost followPath env k).trace = pre ++ ev :: post →
      ∃ j, j < k ∧ (runHost followPath env j).trace = pre ∧
        (runHost followPath env (j + 1)).trace = pre ++ [ev] := by
  intro k
  induction k with
  | zero => intro pre ev post h; simp [runHost, hostStart] at h
  | succ k ih =>
    intro pre ev post h
    rw [runHost] at h
    rcases step_trace followPath env (runHost followPath env k) with h1 | ⟨e, h1⟩
    · rw [h1] at h
      obtain ⟨j, hj, h2, h3⟩ := ih pre ev post h
      exact ⟨j, by omega, h2, h3⟩
    · rw [h1] at h
      rcases List.eq_nil_or_concat post with hp | ⟨post', x, hp⟩
      · subst hp
        have := List.append_inj' h rfl
        refine ⟨k, by omega, this.1, ?_⟩
        rw [runHost, h1, this.1]
        simpa using this.2
      · subst hp
        have h' : (runHost followPath env k).trace ++ [e] = (pre ++ ev :: post') ++ [x] := by
          simpa using h
        have := List.append_inj' h' rfl
        obtain ⟨j, hj, h2, h3⟩ := ih pre ev post' this.1
        exact ⟨j, by omega, h2, h3⟩

/-- While no wait has returned a hard error, the number of unawaited batches before each
statement is the one of `unawaitedAt`, and it does not exceed one. -/
theorem unawaited_inv (followPath : Bool) (env : Nat → VkResult) (k : Nat) :
    hardErrorSeen (runHost followPath env k).trace = false →
      (∀ n, unawaitedAt (runHost followPath env k).pos = some n →
        unawaited (runHost followPath env k).trace = n) ∧
      unawaited (runHost followPath env k).trace ≤ 1 := by
  refine runHost_induction followPath env
    (fun s => hardErrorSeen s.trace = false →
      (∀ n, unawaitedAt s.pos = some n → unawaited s.trace = n) ∧
      unawaited s.trace ≤ 1) ?_ ?_ k
  · exact fun _ => ⟨fun n h => by cases h; rfl, by decide⟩
  · intro s ih
    obtain ⟨pos, calls, used, trace⟩ := s
    cases pos <;>
      simp only [step, perform, callUnchecked, VK_CHECK_RESULT, waitIteration, unawaitedAt,
        unawaited, hardErrorSeen, List.foldl_append, List.foldl_cons, List.foldl_nil,
        unawaitedStep, hardErrorStep] at ih ⊢
    all_goals first
      | exact ih
      | (cases followPath <;> simpa using ih)
      | (cases hr : env used <;> simp_all)

/-- The phase of the copy before each statement is one of `phaseAt`. -/
theorem copyPhase_inv (followPath : Bool) (env : Nat → VkResult) (k : Nat) :
    phaseAt (runHost followPath env k).pos (copyPhase (runHost followPath env k).trace) := by
  refine runHost_induction followPath env (fun s => phaseAt s.pos (copyPhase s.trace)) ?_ ?_ k
  · exact Or.inl rfl
  · intro s ih
    obtain ⟨pos, calls, used, trace⟩ := s
    cases pos <;>
      simp only [step, perform, callUnchecked, VK_CHECK_RESULT, waitIteration, phaseAt,
        copyPhase, List.foldl_append, List.foldl_cons, List.foldl_nil, copyStep] at ih ⊢
    all_goals first
      | exact ih
      | (cases followPath <;> simpa [phaseAt] using ih)
      | (cases hr : env used <;> simp_all [phaseAt] <;> done)
      | (cases hr : env used <;> rcases ih with h | h <;> simp [h, hr])

/-- The statement that performs an operation. -/
theorem step_event_pos (followPath : Bool) (env : Nat → VkResult) (s : HostState) (ev : Event)
    (h : (step followPath env s).trace = s.trace ++ [ev]) :
    (∀ b, ev.op = .vkQueueSubmit b →
      (s.pos = .submitRender ∧ b = .render) ∨ (s.pos = .submitCopy ∧ b = .copy)) ∧
    (∀ t, ev.op = .vkWaitForFences t →
      (s.pos = .waitRender ∧ t = 10000000) ∨ (s.pos = .waitCopy ∧ t = 10000)) ∧
    (ev.op = .vkResetFences → s.pos = .resetAfterRender ∨ s.pos = .resetAfterCopy) ∧
    (ev.op = .vkMapMemory → s.pos = .mapMemory) ∧
    (ev.op = .readPixels → s.pos = .readPixels) ∧
    (ev.op = .writeImage → s.pos = .writeImage) ∧
    (∀ r, ev.res = some r → r = env s.used) := by
  obtain ⟨pos, calls, used, trace⟩ := s
  cases pos <;>
    simp only [step, perform, callUnchecked, VK_CHECK_RESULT, waitIteration] at h
  case followPathCheck => cases followPath <;> simp at h
  case terminated => simp at h
  all_goals
    have h' := List.append_cancel_left h
    simp only [List.cons.injEq, and_true] at h'
    subst h'
    simp

/-- The phase of the copy, read from the trace: when it is submitted, the trace holds a
successful submission of the copy batch with no later one and no ended fence wait after it;
when it is awaited, the first fence wait that ends after the last such submission is in the
trace and no pixel read follows it. -/
theorem copyPhase_trace (tr : List Event) :
    (copyPhase tr = .submitted →
      ∃ a b, tr = a ++ copySubmission :: b ∧ ∀ e ∈ b, e ≠ copySubmission ∧ ¬ endedWait e) ∧
    (copyPhase tr = .awaited →
      ∃ a b w c, tr = a ++ copySubmission :: (b ++ w :: c) ∧ endedWait w ∧
        (∀ e ∈ b, e ≠ copySubmission ∧ ¬ endedWait e) ∧
        (∀ e ∈ c, e ≠ copySubmission ∧ e.op ≠ .readPixels)) := by
  induction tr using List.reverseRecOn with
  | nil => simp [copyPhase]
  | append_singleton l e ih =>
    obtain ⟨ih1, ih2⟩ := ih
    have hstep : copyPhase (l ++ [e]) = copyStep (copyPhase l) e := by
      simp [copyPhase, List.foldl_append]
    rw [hstep]
    by_cases hcs : e = copySubmission
    · subst hcs
      refine ⟨fun _ => ⟨l, [], rfl, by simp⟩, fun h => ?_⟩
      simp [copyStep, copySubmission] at h
    · by_cases hw : endedWait e
      · obtain ⟨t, r, rfl, hr⟩ := hw
        constructor
        · intro h
          simp only [copyStep] at h
          split at h <;> simp_all
        · intro h
          simp only [copyStep] at h
          by_cases hsub : copyPhase l = .submitted
          · obtain ⟨a, b, hl, hb⟩ := ih1 hsub
            exact ⟨a, b, _, [], by simp [hl], ⟨t, r, rfl, hr⟩, hb, by simp⟩
          · rw [if_neg (fun hh => hsub hh.1)] at h
            obtain ⟨a, b, w, c, hl, hw', hb, hc⟩ := ih2 h
            refine ⟨a, b, w, c ++ [⟨.vkWaitForFences t, some r⟩], by simp [hl], hw', hb, ?_⟩
            intro e he
            rcases List.mem_append.1 he with he | he
            · exact hc e he
            · simp only [List.mem_singleton] at he
              subst he
              exact ⟨hcs, by simp⟩
      · have hkeep : copyStep (copyPhase l) e = copyPhase l ∨
            (e.op = .readPixels ∧ copyPhase l = .awaited ∧
              copyStep (copyPhase l) e = .readBack) := by
          obtain ⟨op, res⟩ := e
          cases op <;> simp only [copyStep]
          case vkQueueSubmit b =>
            cases b
            · simp
            · cases res with
              | none => simp
              | some r => cases r <;> simp_all [copySubmission]
          case vkWaitForFences t =>
            cases res with
            | none => simp
            | some r =>
              by_cases hr : r = .VK_TIMEOUT
              · simp [hr]
              · exact absurd ⟨t, r, rfl, hr⟩ hw
          case readPixels =>
            by_cases ha : copyPhase l = .awaited
            · right; simp [ha]
            · left; simp [ha]
          all_goals simp
        rcases hkeep with hk | ⟨hop, _, hk⟩
        · rw [hk]
          constructor
          · intro h
            obtain ⟨a, b, hl, hb⟩ := ih1 h
            refine ⟨a, b ++ [e], by simp [hl], ?_⟩
            intro e' he'
            rcases List.mem_append.1 he' with he' | he'
            · exact hb e' he'
            · simp only [List.mem_singleton] at he'
              subst he'
              exact ⟨hcs, hw⟩
          · intro h
            obtain ⟨a, b, w, c, hl, hw', hb, hc⟩ := ih2 h
            have hne : e.op ≠ .readPixels := by
              intro hop
              obtain ⟨op, res⟩ := e
              simp only at hop
              subst hop
              simp [copyStep, h] at hk
            refine ⟨a, b, w, c ++ [e], by simp [hl], hw', hb, ?_⟩
            intro e' he'
            rcases List.mem_append.1 he' with he' | he'
            · exact hc e' he'
            · simp only [List.mem_singleton] at he'
              subst he'
              exact ⟨hcs, hne⟩
        · rw [hk]
          exact ⟨fun h => (nomatch h), fun h => (nomatch h)⟩

/-- After a successful submission of the copy batch the copy stays submitted until a fence
wait ends. -/
theorem copyPhase_stays_submitted (a b : List Event) (hb : ∀ e ∈ b, ¬ endedWait e) :
    copyPhase (a ++ copySubmission :: b) = .submitted := by
  induction b using List.reverseRecOn with
  | nil => simp [copyPhase, List.foldl_append, copyStep, copySubmission]
  | append_singleton l e ih =>
    have hl := ih (fun e' he' => hb e' (by simp [he']))
    have he : ¬ endedWait e := hb e (by simp)
    have hstep : copyPhase (a ++ copySubmission :: (l ++ [e])) =
        copyStep (copyPhase (a ++ copySubmission :: l)) e := by
      simp [copyPhase, List.foldl_append]
    rw [hstep, hl]
    obtain ⟨op, res⟩ := e
    cases op <;> simp only [copyStep]
    case vkQueueSubmit b => cases b <;> cases res with
      | none => rfl
      | some r => cases r <;> rfl
    case vkWaitForFences t =>
      cases res with
      | none => rfl
      | some r =>
        by_cases hr : r = .VK_TIMEOUT
        · simp [hr]
        · exact absurd ⟨t, r, rfl, hr⟩ he
    case readPixels => simp

/-- While a batch is unawaited, the count can only return to zero through a completed fence
wait. -/
theorem unawaited_drop (mid : List Event) :
    ∀ n, 1 ≤ n → mid.foldl unawaitedStep n = 0 → ∃ w ∈ mid, completedWait w := by
  induction mid with
  | nil => intro n hn h; simp at h; omega
  | cons e mid ih =>
    intro n hn h
    by_cases hw : completedWait e
    · exact ⟨e, by simp, hw⟩
    · have hge : 1 ≤ unawaitedStep n e := by
        obtain ⟨op, res⟩ := e
        cases op <;> simp only [unawaitedStep]
        case vkQueueSubmit b => cases res with
          | none => exact hn
          | some r => cases r <;> simp <;> omega
        case vkWaitForFences t =>
          cases res with
          | none => exact hn
          | some r =>
            cases r
            case VK_SUCCESS => exact absurd ⟨t, rfl⟩ hw
            all_goals exact hn
        all_goals exact hn
      obtain ⟨w, hwm, hww⟩ := ih _ hge (by simpa using h)
      exact ⟨w, by simp [hwm], hww⟩

/-- An operation of the trace, with the state before the statement that performed it. -/
theorem trace_at (followPath : Bool) (env : Nat → VkResult) (k : Nat) (pre post : List Event)
    (ev : Event) (h : (runHost followPath env k).trace = pre ++ ev :: post) :
    ∃ j, j < k ∧ (runHost followPath env j).trace = pre ∧
      (step followPath env (runHost followPath env j)).trace =
        (runHost followPath env j).trace ++ [ev] := by
  obtain ⟨j, hjk, hj, hj1⟩ := trace_split followPath env k pre ev post h
  rw [runHost] at hj1
  exact ⟨j, hjk, hj, by rw [hj]; exact hj1⟩

set_option maxRecDepth 100000 in
/-- On a device that returns `VK_SUCCESS` every time one call takes 21 statements and
performs the operations of `captureTrace`; a second call performs them again. -/
theorem runHost_allSuccess :
    runHost true allSuccess 21 =
      { pos := .followPathCheck, calls := 1, used := 9, trace := captureTrace } ∧
    runHost true allSuccess 42 =
      { pos := .followPathCheck, calls := 2, used := 18, trace := captureTrace ++ captureTrace } := by
  decide

/-- C17: the readback memory is mapped and read only after the copy wait has ended.  In every
execution of any number of calls of `renderCustom`, for every device, the operations
performed before a `vkMapMemory` or a pixel read contain a successful submission of the copy
batch followed by a fence wait `w` that returned a result other than `VK_TIMEOUT`, with no
later submission of the copy batch; between that submission and `w` no fence wait ends and
the memory is neither mapped nor read. -/
theorem readback_after_copy_wait (followPath : Bool) (env : Nat → VkResult) (k : Nat)
    (pre post : List Event) (ev : Event)
    (h : (runHost followPath env k).trace = pre ++ ev :: post)
    (hev : ev.op = .vkMapMemory ∨ ev.op = .readPixels) :
    copyPhase pre = .awaited ∧
    ∃ a b w c, pre = a ++ copySubmission :: (b ++ w :: c) ∧ endedWait w ∧
      (∀ e ∈ b, e ≠ copySubmission ∧ ¬ endedWait e ∧ e.op ≠ .vkMapMemory ∧
        e.op ≠ .readPixels) ∧
      (∀ e ∈ c, e ≠ copySubmission ∧ e.op ≠ .readPixels) := by
  have key : ∀ (pre' post' : List Event) (ev' : Event),
      (runHost followPath env k).trace = pre' ++ ev' :: post' →
      ev'.op = .vkMapMemory ∨ ev'.op = .readPixels → copyPhase pre' = .awaited := by
    intro pre' post' ev' h' hev'
    obtain ⟨j, _, hj, hj1⟩ := trace_split followPath env k pre' ev' post' h'
    rw [runHost] at hj1
    rw [← hj] at hj1 ⊢
    have hpos := step_event_pos followPath env _ ev' hj1
    have hinv := copyPhase_inv followPath env j
    rcases hev' with he | he
    · rw [hpos.2.2.2.1 he] at hinv; exact hinv
    · rw [hpos.2.2.2.2.1 he] at hinv; exact hinv
  have hph := key pre post ev h hev
  obtain ⟨a, b, w, c, hpre, hw, hb, hc⟩ := (copyPhase_trace pre).2 hph
  refine ⟨hph, a, b, w, c, hpre, hw, ?_, hc⟩
  intro e he
  refine ⟨(hb e he).1, (hb e he).2, ?_⟩
  obtain ⟨b1, b2, rfl⟩ := List.append_of_mem he
  have hsub : copyPhase (a ++ copySubmission :: b1) = .submitted :=
    copyPhase_stays_submitted a b1 (fun e' he' => (hb e' (by simp [he'])).2)
  have hsplit : (runHost followPath env k).trace =
      (a ++ copySubmission :: b1) ++ e :: (b2 ++ w :: c ++ ev :: post) := by
    rw [h, hpre]; simp
  constructor
  · intro hop
    have := key _ _ e hsplit (Or.inl hop)
    rw [hsub] at this
    cases this
  · intro hop
    have := key _ _ e hsplit (Or.inr hop)
    rw [hsub] at this
    cases this

/-- Witness of C17: in one call on a device that returns `VK_SUCCESS` every time, the 16
operations before `vkMapMemory` hold the copy submission (operation 12) and the copy wait
(operation 13). -/
theorem readback_after_copy_wait_witness :
    (runHost true allSuccess 21).trace =
      captureTrace.take 16 ++ ⟨.vkMapMemory, some .VK_SUCCESS⟩ :: captureTrace.drop 17 ∧
    copyPhase (captureTrace.take 16) = .awaited ∧
    captureTrace.take 16 = captureTrace.take 11 ++ copySubmission ::
      ([] ++ ⟨.vkWaitForFences 10000, some .VK_SUCCESS⟩ :: (captureTrace.take 16).drop 13) := by
  have h : (runHost true allSuccess 21).trace =
      captureTrace.take 16 ++ ⟨.vkMapMemory, some .VK_SUCCESS⟩ :: captureTrace.drop 17 := by
    rw [runHost_allSuccess.1]; decide
  exact ⟨h, (readback_after_copy_wait true allSuccess 21 _ _ _ h (Or.inl rfl)).1, by decide⟩

/-- Without hard error of a wait the flag `hardErrorSeen` is down. -/
theorem hardErrorSeen_false (tr : List Event) (h : noHardWaitError tr) :
    hardErrorSeen tr = false := by
  induction tr using List.reverseRecOn with
  | nil => rfl
  | append_singleton l e ih =>
    have hl := ih (fun ev hev => h ev (by simp [hev]))
    have he := h e (by simp)
    simp only [hardErrorSeen, List.foldl_append, List.foldl_cons, List.foldl_nil] at hl ⊢
    rw [hl]
    obtain ⟨op, res⟩ := e
    cases op <;> try rfl
    cases res with
    | none => rfl
    | some r =>
      rcases he _ r rfl with hr | hr <;> subst hr <;> rfl

/-- Without hard error of a wait, the fence before each statement is in the state of
`fenceAt`. -/
theorem fence_inv (followPath : Bool) (env : Nat → VkResult) (k : Nat) :
    hardErrorSeen (runHost followPath env k).trace = false →
      ∀ f, fenceAt (runHost followPath env k).pos = some f →
        fenceAfter (runHost followPath env k).trace = f := by
  refine runHost_induction followPath env
    (fun s => hardErrorSeen s.trace = false → ∀ f, fenceAt s.pos = some f →
      fenceAfter s.trace = f) ?_ ?_ k
  · intro _ f h; cases h; rfl
  · intro s ih
    obtain ⟨pos, calls, used, trace⟩ := s
    cases pos <;>
      simp only [step, perform, callUnchecked, VK_CHECK_RESULT, waitIteration, fenceAt,
        fenceAfter, hardErrorSeen, List.foldl_append, List.foldl_cons, List.foldl_nil,
        fenceStep, hardErrorStep] at ih ⊢
    all_goals first
      | exact ih
      | (cases followPath <;> simpa [fenceAt] using ih)
      | (cases hr : env used <;> simp_all [fenceAt])

/-- Before each submission, and from the reset after the copy wait to the end of the call,
the last operation on the fence, if there is one, is a successful reset. -/
theorem lastFenceOp_inv (followPath : Bool) (env : Nat → VkResult) (k : Nat) :
    freshAt (runHost followPath env k).pos = true →
      lastFenceOp (runHost followPath env k).trace = none ∨
      lastFenceOp (runHost followPath env k).trace = some ⟨.vkResetFences, some .VK_SUCCESS⟩ := by
  refine runHost_induction followPath env
    (fun s => freshAt s.pos = true → lastFenceOp s.trace = none ∨
      lastFenceOp s.trace = some ⟨.vkResetFences, some .VK_SUCCESS⟩) ?_ ?_ k
  · intro _; exact Or.inl rfl
  · intro s ih
    obtain ⟨pos, calls, used, trace⟩ := s
    cases pos <;>
      simp only [step, perform, callUnchecked, VK_CHECK_RESULT, waitIteration, freshAt,
        lastFenceOp, List.foldl_append, List.foldl_cons, List.foldl_nil, lastFenceStep]
        at ih ⊢
    all_goals first
      | exact ih
      | (cases followPath <;> simpa [freshAt] using ih)
      | (cases hr : env used <;> simp_all [freshAt])

/-- After a fence wait that timed out the host is in the loop of that wait, and after a fence
wait that ended it is at the reset that follows the loop. -/
theorem lastWait_inv (followPath : Bool) (env : Nat → VkResult) (k : Nat) :
    ∀ t r, (runHost followPath env k).trace.getLast? = some ⟨.vkWaitForFences t, some r⟩ →
      (r = .VK_TIMEOUT →
        ((runHost followPath env k).pos = .waitRender ∧ t = 10000000) ∨
        ((runHost followPath env k).pos = .waitCopy ∧ t = 10000)) ∧
      (r ≠ .VK_TIMEOUT →
        (runHost followPath env k).pos = .resetAfterRender ∨
        (runHost followPath env k).pos = .resetAfterCopy) := by
  refine runHost_induction followPath env
    (fun s => ∀ t r, s.trace.getLast? = some ⟨.vkWaitForFences t, some r⟩ →
      (r = .VK_TIMEOUT → (s.pos = .waitRender ∧ t = 10000000) ∨
        (s.pos = .waitCopy ∧ t = 10000)) ∧
      (r ≠ .VK_TIMEOUT → s.pos = .resetAfterRender ∨ s.pos = .resetAfterCopy)) ?_ ?_ k
  · intro t r h; simp [hostStart] at h
  · intro s ih
    obtain ⟨pos, calls, used, trace⟩ := s
    cases pos <;>
      simp only [step, perform, callUnchecked, VK_CHECK_RESULT, waitIteration] at ih ⊢
    all_goals first
      | exact ih
      | (cases followPath <;> intro t r h <;> have := ih t r h <;>
          by_cases hr : r = .VK_TIMEOUT <;> simp_all)
      | (intro t r h
         simp only [List.getLast?_append, List.getLast?_singleton, Option.or_some,
           Option.some.injEq, Event.mk.injEq] at h
         by_cases hr : env used = .VK_TIMEOUT <;> simp_all)

/-- After the end of the process nothing is performed. -/
theorem runHost_terminated (followPath : Bool) (env : Nat → VkResult) (j : Nat)
    (h : (runHost followPath env j).pos = .terminated) :
    ∀ m, runHost followPath env (j + m) = runHost followPath env j := by
  intro m
  induction m with
  | zero => rfl
  | succ m ih =>
    show step followPath env (runHost followPath env (j + m)) = _
    rw [ih]
    generalize runHost followPath env j = s at h
    obtain ⟨pos, calls, used, trace⟩ := s
    simp only at h
    subst h
    rfl

/-- A checked call that does not return `VK_SUCCESS` ends the process. -/
theorem step_failed_check (followPath : Bool) (env : Nat → VkResult) (s : HostState)
    (ev : Event) (h : (step followPath env s).trace = s.trace ++ [ev])
    (hop : checkedOp ev.op = true) (hres : ev.res ≠ some .VK_SUCCESS) :
    (step followPath env s).pos = .terminated := by
  obtain ⟨pos, calls, used, trace⟩ := s
  cases pos <;>
    simp only [step, perform, callUnchecked, VK_CHECK_RESULT, waitIteration] at h ⊢
  case followPathCheck => cases followPath <;> simp at h
  all_goals
    have h' := List.append_cancel_left h
    simp only [List.cons.injEq, and_true] at h'
    subst h'
    simp_all [checkedOp]

/-- A checked call of the trace that did not return `VK_SUCCESS` is its last operation, and
the process has ended. -/
theorem failed_check_last (followPath : Bool) (env : Nat → VkResult) (k : Nat)
    (pre post : List Event) (ev : Event)
    (h : (runHost followPath env k).trace = pre ++ ev :: post)
    (hop : checkedOp ev.op = true) (hres : ev.res ≠ some .VK_SUCCESS) :
    post = [] ∧ (runHost followPath env k).pos = .terminated := by
  obtain ⟨j, hjk, hj, hj1⟩ := trace_at followPath env k pre post ev h
  have hterm : (runHost followPath env (j + 1)).pos = .terminated :=
    step_failed_check followPath env _ ev hj1 hop hres
  have hk : runHost followPath env k = runHost followPath env (j + 1) := by
    have := runHost_terminated followPath env (j + 1) hterm (k - (j + 1))
    rwa [show j + 1 + (k - (j + 1)) = k by omega] at this
  refine ⟨?_, by rw [hk]; exact hterm⟩
  have htr : (runHost followPath env (j + 1)).trace = pre ++ [ev] := by
    show (step followPath env (runHost followPath env j)).trace = _
    rw [hj1, hj]
  rw [hk, htr] at h
  have := List.append_cancel_left h
  simpa using this.symm

/-- The process ends only through a checked call that did not return `VK_SUCCESS`. -/
theorem terminated_inv (followPath : Bool) (env : Nat → VkResult) (k : Nat) :
    (runHost followPath env k).pos = .terminated →
      ∃ ev, (runHost followPath env k).trace.getLast? = some ev ∧ checkedOp ev.op = true ∧
        ev.res ≠ some .VK_SUCCESS := by
  refine runHost_induction followPath env
    (fun s => s.pos = .terminated → ∃ ev, s.trace.getLast? = some ev ∧
      checkedOp ev.op = true ∧ ev.res ≠ some .VK_SUCCESS) ?_ ?_ k
  · intro h; cases h
  · intro s ih
    obtain ⟨pos, calls, used, trace⟩ := s
    cases pos <;>
      simp only [step, perform, callUnchecked, VK_CHECK_RESULT, waitIteration] at ih ⊢
    all_goals first
      | exact ih
      | (cases followPath <;> intro h <;> cases h)
      | (intro h; cases h)
      | (intro h
         by_cases hr : env used = .VK_SUCCESS
         · simp [hr] at h
         · exact ⟨_, List.getLast?_concat _, rfl, by simpa using hr⟩)
      | (intro h
         by_cases hr : env used = .VK_TIMEOUT
         · simp [hr] at h
         · simp [hr] at h)

/-- The operations performed by the statements of the two wait loops and the two resets. -/
theorem step_at (followPath : Bool) (env : Nat → VkResult) (s : HostState) :
    (s.pos = .resetAfterRender ∨ s.pos = .resetAfterCopy →
      (step followPath env s).trace = s.trace ++ [⟨.vkResetFences, some (env s.used)⟩]) ∧
    (s.pos = .waitRender →
      step followPath env s = waitIteration env s 10000000 .resetAfterRender) ∧
    (s.pos = .waitCopy → step followPath env s = waitIteration env s 10000 .resetAfterCopy) := by
  obtain ⟨pos, calls, used, trace⟩ := s
  refine ⟨?_, ?_, ?_⟩
  · rintro (h | h) <;> simp only at h <;> subst h <;> rfl
  · intro h; simp only at h; subst h; rfl
  · intro h; simp only at h; subst h; rfl

/-- A wait loop under `n` timeouts in a row: the host stays in the loop and performs `n`
waits. -/
theorem wait_loop (followPath : Bool) (env : Nat → VkResult) (k : Nat) (p next : Pos)
    (timeout : Nat)
    (hstep : ∀ s, s.pos = p → step followPath env s = waitIteration env s timeout next)
    (hp : (runHost followPath env k).pos = p) :
    ∀ n, (∀ i, i < n → env ((runHost followPath env k).used + i) = .VK_TIMEOUT) →
      runHost followPath env (k + n) =
        { pos := p, calls := (runHost followPath env k).calls,
          used := (runHost followPath env k).used + n,
          trace := (runHost followPath env k).trace ++
            List.replicate n ⟨.vkWaitForFences timeout, some .VK_TIMEOUT⟩ } := by
  intro n
  induction n with
  | zero =>
    intro _
    show runHost followPath env k = _
    generalize runHost followPath env k = s at hp ⊢
    obtain ⟨pos, calls, used, trace⟩ := s
    simp only at hp
    subst hp
    simp
  | succ n ih =>
    intro hto
    have h1 := ih (fun i hi => hto i (by omega))
    show step followPath env (runHost followPath env (k + n)) = _
    rw [h1, hstep _ rfl]
    simp only [waitIteration, hto n (by omega), if_true, List.replicate_succ']
    simp
    omega

/-- A wait loop under `n` timeouts followed by another result: the loop is left after
`n + 1` waits, towards the statement that follows it. -/
theorem wait_loop_exit (followPath : Bool) (env : Nat → VkResult) (k : Nat) (p next : Pos)
    (timeout : Nat)
    (hstep : ∀ s, s.pos = p → step followPath env s = waitIteration env s timeout next)
    (hp : (runHost followPath env k).pos = p) (n : Nat) (r : VkResult)
    (hto : ∀ i, i < n → env ((runHost followPath env k).used + i) = .VK_TIMEOUT)
    (hr : env ((runHost followPath env k).used + n) = r) (hne : r ≠ .VK_TIMEOUT) :
    (∀ i, i ≤ n → (runHost followPath env (k + i)).pos = p) ∧
    runHost followPath env (k + n + 1) =
      { pos := next, calls := (runHost followPath env k).calls,
        used := (runHost followPath env k).used + n + 1,
        trace := (runHost followPath env k).trace ++
          List.replicate n ⟨.vkWaitForFences timeout, some .VK_TIMEOUT⟩ ++
          [⟨.vkWaitForFences timeout, some r⟩] } := by
  constructor
  · intro i hi
    rw [wait_loop followPath env k p next timeout hstep hp i (fun j hj => hto j (by omega))]
  · show step followPath env (runHost followPath env (k + n)) = _
    rw [wait_loop followPath env k p next timeout hstep hp n hto, hstep _ rfl]
    simp only [waitIteration, hr, if_neg hne]

/-- The parts of the fence invariant that hold.  In every execution of any number of calls
of `renderCustom`, for every device: the fence is created unsignaled; before each of the two
queue submissions the last operation on the fence, if there is one, is a reset that returned
`VK_SUCCESS`; when no wait before a submission returned a hard error, the fence is unsignaled
at that submission; each fence wait that ends (returns a result other than `VK_TIMEOUT`) is
followed at once by the reset of the fence, before any other operation, and if that reset
fails nothing follows. -/
theorem fence_reset_after_wait (followPath : Bool) (env : Nat → VkResult) (k : Nat) :
    fenceAfter [] = .unsignaled ∧
    (∀ pre post ev b, (runHost followPath env k).trace = pre ++ ev :: post →
      ev.op = .vkQueueSubmit b →
      (lastFenceOp pre = none ∨ lastFenceOp pre = some ⟨.vkResetFences, some .VK_SUCCESS⟩) ∧
      (noHardWaitError pre → fenceAfter pre = .unsignaled)) ∧
    (∀ pre post w nxt, (runHost followPath env k).trace = pre ++ w :: nxt :: post →
      endedWait w →
      nxt.op = .vkResetFences ∧ (nxt.res ≠ some .VK_SUCCESS → post = [])) := by
  refine ⟨rfl, ?_, ?_⟩
  · intro pre post ev b h hev
    obtain ⟨j, _, hj, hj1⟩ := trace_at followPath env k pre post ev h
    have hpos := (step_event_pos followPath env _ ev hj1).1 b hev
    have hfresh : freshAt (runHost followPath env j).pos = true := by
      rcases hpos with ⟨hp, _⟩ | ⟨hp, _⟩ <;> rw [hp] <;> rfl
    have hat : fenceAt (runHost followPath env j).pos = some .unsignaled := by
      rcases hpos with ⟨hp, _⟩ | ⟨hp, _⟩ <;> rw [hp] <;> rfl
    have h1 := lastFenceOp_inv followPath env j hfresh
    have h2 := fence_inv followPath env j
    rw [hj] at h1 h2
    exact ⟨h1, fun hno => h2 (hardErrorSeen_false pre hno) _ hat⟩
  · intro pre post w nxt h hw
    have h' : (runHost followPath env k).trace = (pre ++ [w]) ++ nxt :: post := by
      rw [h]; simp
    obtain ⟨j, _, hj, hj1⟩ := trace_at followPath env k _ post nxt h'
    obtain ⟨t, r, rfl, hr⟩ := hw
    have hpos := (lastWait_inv followPath env j t r (by rw [hj]; simp)).2 hr
    have hreset := (step_at followPath env (runHost followPath env j)).1 hpos
    rw [hreset] at hj1
    have hn := List.append_cancel_left hj1
    simp only [List.cons.injEq, and_true] at hn
    subst hn
    refine ⟨rfl, fun hres => ?_⟩
    exact (failed_check_last followPath env k _ post _ h' rfl hres).1

/-- An example: in two calls on a device that returns `VK_SUCCESS` every time, the fence is
unsignaled when the render batch of the second call is submitted, after the reset that
followed the copy wait of the first call. -/
theorem fence_reset_after_wait_example :
    (runHost true allSuccess 42).trace =
      captureTrace ++ ⟨.vkQueueSubmit .render, some .VK_SUCCESS⟩ :: captureTrace.drop 1 ∧
    noHardWaitError captureTrace ∧
    lastFenceOp captureTrace = some ⟨.vkResetFences, some .VK_SUCCESS⟩ ∧
    fenceAfter captureTrace = .unsignaled := by
  have h : (runHost true allSuccess 42).trace =
      captureTrace ++ ⟨.vkQueueSubmit .render, some .VK_SUCCESS⟩ :: captureTrace.drop 1 := by
    rw [runHost_allSuccess.2]; decide
  have hno : noHardWaitError captureTrace := by
    intro ev hev t r he
    subst he
    simp [captureTrace] at hev
    rcases hev with ⟨_, h1⟩ | ⟨_, h1⟩ <;> simp [h1]
  have h2 := (fence_reset_after_wait true allSuccess 42).2.1 _ _ _ .render h rfl
  exact ⟨h, hno, by decide, h2.2 hno⟩

/-- C19: fence-wait timeouts are retried, never failed.  In every execution of any number of
calls of `renderCustom`, for every device: a fence wait that returned `VK_TIMEOUT` is followed
at once by another wait of the same loop (the same timeout, the same fence); in the render
wait loop and in the copy wait loop, `n` timeouts in a row followed by another result keep
the host in the loop for `n + 1` waits and then lead to the reset that follows the loop, with
no call of `renderCustom` ended and no result skipped, for every `n`; and the process ends
only after a checked call that did not return `VK_SUCCESS`, never after a wait. -/
theorem wait_timeout_retried (followPath : Bool) (env : Nat → VkResult) (k : Nat) :
    (∀ pre post w nxt t, (runHost followPath env k).trace = pre ++ w :: nxt :: post →
      w = ⟨.vkWaitForFences t, some .VK_TIMEOUT⟩ → nxt.op = .vkWaitForFences t) ∧
    (∀ n r, (runHost followPath env k).pos = .waitRender →
      (∀ i, i < n → env ((runHost followPath env k).used + i) = .VK_TIMEOUT) →
      env ((runHost followPath env k).used + n) = r → r ≠ .VK_TIMEOUT →
      (∀ i, i ≤ n → (runHost followPath env (k + i)).pos = .waitRender) ∧
      runHost followPath env (k + n + 1) =
        { pos := .resetAfterRender, calls := (runHost followPath env k).calls,
          used := (runHost followPath env k).used + n + 1,
          trace := (runHost followPath env k).trace ++
            List.replicate n ⟨.vkWaitForFences 10000000, some .VK_TIMEOUT⟩ ++
            [⟨.vkWaitForFences 10000000, some r⟩] }) ∧
    (∀ n r, (runHost followPath env k).pos = .waitCopy →
      (∀ i, i < n → env ((runHost followPath env k).used + i) = .VK_TIMEOUT) →
      env ((runHost followPath env k).used + n) = r → r ≠ .VK_TIMEOUT →
      (∀ i, i ≤ n → (runHost followPath env (k + i)).pos = .waitCopy) ∧
      runHost followPath env (k + n + 1) =
        { pos := .resetAfterCopy, calls := (runHost followPath env k).calls,
          used := (runHost followPath env k).used + n + 1,
          trace := (runHost followPath env k).trace ++
            List.replicate n ⟨.vkWaitForFences 10000, some .VK_TIMEOUT⟩ ++
            [⟨.vkWaitForFences 10000, some r⟩] }) ∧
    ((runHost followPath env k).pos = .terminated →
      ∃ ev, (runHost followPath env k).trace.getLast? = some ev ∧ checkedOp ev.op = true ∧
        ev.res ≠ some .VK_SUCCESS ∧ ∀ t, ev.op ≠ .vkWaitForFences t) := by
  refine ⟨?_, ?_, ?_, ?_⟩
  · intro pre post w nxt t h hw
    have h' : (runHost followPath env k).trace = (pre ++ [w]) ++ nxt :: post := by
      rw [h]; simp
    obtain ⟨j, _, hj, hj1⟩ := trace_at followPath env k _ post nxt h'
    subst hw
    have hpos := (lastWait_inv followPath env j t .VK_TIMEOUT (by rw [hj]; simp)).1 rfl
    rcases hpos with ⟨hp, ht⟩ | ⟨hp, ht⟩
    · rw [(step_at followPath env _).2.1 hp] at hj1
      have hn := List.append_cancel_left hj1
      simp only [List.cons.injEq, and_true] at hn
      rw [← hn, ht]
    · rw [(step_at followPath env _).2.2 hp] at hj1
      have hn := List.append_cancel_left hj1
      simp only [List.cons.injEq, and_true] at hn
      rw [← hn, ht]
  · intro n r hp hto hr hne
    exact wait_loop_exit followPath env k _ _ _
      (fun s hs => (step_at followPath env s).2.1 hs) hp n r hto hr hne
  · intro n r hp hto hr hne
    exact wait_loop_exit followPath env k _ _ _
      (fun s hs => (step_at followPath env s).2.2 hs) hp n r hto hr hne
  · intro hterm
    obtain ⟨ev, h1, h2, h3⟩ := terminated_inv followPath env k hterm
    refine ⟨ev, h1, h2, h3, ?_⟩
    intro t ht
    rw [ht] at h2
    cases h2

set_option maxRecDepth 100000 in
/-- Witness of C19: when the render wait times out three times and then succeeds, the host
performs four waits and goes on to the reset, and the call completes as without timeout,
after 24 statements instead of 21. -/
theorem wait_timeout_retried_witness :
    (runHost true (timeoutsAt 3 3) 10).pos = .waitRender ∧
    (runHost true (timeoutsAt 3 3) 14).pos = .resetAfterRender ∧
    (runHost true (timeoutsAt 3 3) 14).trace =
      captureTrace.take 9 ++ List.replicate 3 ⟨.vkWaitForFences 10000000, some .VK_TIMEOUT⟩ ++
        [⟨.vkWaitForFences 10000000, some .VK_SUCCESS⟩] ∧
    (runHost true (timeoutsAt 3 3) 24).calls = 1 := by
  have hp : (runHost true (timeoutsAt 3 3) 10).pos = .waitRender := by decide
  have h := ((wait_timeout_retried true (timeoutsAt 3 3) 10).2.1 3 .VK_SUCCESS hp
    (by decide) (by decide) (by decide)).2
  refine ⟨hp, ?_, ?_, by decide⟩
  · rw [show 14 = 10 + 3 + 1 from rfl, h]
  · rw [show 14 = 10 + 3 + 1 from rfl, h]
    decide

set_option maxRecDepth 100000 in
/-- C20, the code at the failing inputs: a fence wait that returns a hard error is not fatal.
When the render wait (result number 3) returns `VK_ERROR_DEVICE_LOST`, or the copy wait
(result number 6) returns `VK_ERROR_OUT_OF_HOST_MEMORY`, and every other call succeeds, the
call of `renderCustom` runs to its end: the fence is reset, the memory is mapped, the pixels
are read and the file is written, as on a device without error; in the first case the copy
is submitted with a fence that was reset while the render batch was pending.  A failed
submission (result number 0) or a failed mapping (result number 8) does end the process, with
no pixel read and no file written. -/
theorem wait_hard_error_not_fatal :
    runHost true (resultAt 3 .VK_ERROR_DEVICE_LOST) 21 =
      { pos := .followPathCheck, calls := 1, used := 9,
        trace := captureTrace.set 9 ⟨.vkWaitForFences 10000000, some .VK_ERROR_DEVICE_LOST⟩ } ∧
    fenceAfter ((runHost true (resultAt 3 .VK_ERROR_DEVICE_LOST) 21).trace.take 11) = .misused ∧
    runHost true (resultAt 6 .VK_ERROR_OUT_OF_HOST_MEMORY) 21 =
      { pos := .followPathCheck, calls := 1, used := 9,
        trace := captureTrace.set 12
          ⟨.vkWaitForFences 10000, some .VK_ERROR_OUT_OF_HOST_MEMORY⟩ } ∧
    (captureTrace.drop 16).map (·.op) = [.vkMapMemory, .readPixels, .vkUnmapMemory, .writeImage] ∧
    runHost true (resultAt 0 .VK_ERROR_DEVICE_LOST) 21 =
      { pos := .terminated, calls := 0, used := 1,
        trace := [⟨.vkQueueSubmit .render, some .VK_ERROR_DEVICE_LOST⟩] } ∧
    runHost true (resultAt 8 .VK_ERROR_MEMORY_MAP_FAILED) 21 =
      { pos := .terminated, calls := 0, used := 9,
        trace := captureTrace.take 16 ++ [⟨.vkMapMemory, some .VK_ERROR_MEMORY_MAP_FAILED⟩] } := by
  decide

/-- The fold of `maxT` is at least its start value and every frame index of the list. -/
theorem foldl_max_le (cps : List CameraCheckpoint) :
    ∀ m : Int, m ≤ cps.foldl (fun m c => max m c.t) m ∧
      ∀ c ∈ cps, c.t ≤ cps.foldl (fun m c => max m c.t) m := by
  induction cps with
  | nil => intro m; simp
  | cons a l ih =>
    intro m
    obtain ⟨h1, h2⟩ := ih (max m a.t)
    simp only [List.foldl_cons, List.mem_cons]
    refine ⟨le_trans (le_max_left _ _) h1, ?_⟩
    rintro c (rfl | hc)
    · exact le_trans (le_max_right _ _) h1
    · exact h2 c hc

/-- No checkpoint has a frame index above `maxT`. -/
theorem le_maxT (cps : List CameraCheckpoint) (c : CameraCheckpoint) (h : c ∈ cps) :
    c.t ≤ maxT cps :=
  (foldl_max_le cps (firstT cps)).2 c h

/-- The loop of `getPath` on any checkpoint list: started with the cursor at `cur`, at most
at the last checkpoint, and with fuel above `(last index - cur) + (maxT - t)`, it ends with
the cursor at the last checkpoint, after calls whose cursors never decrease and stay below
the last index. -/
theorem getPathLoop_total {β : Type} (f : CameraCheckpoint → CameraCheckpoint → Int → β)
    (cps : List CameraCheckpoint) (hlen : 1 ≤ cps.length) :
    ∀ (fuel : Nat) (t : Int) (cur : Nat) (views : List β), cur ≤ cps.length - 1 →
      cps.length - 1 - cur + (maxT cps - t).toNat < fuel →
      ∃ cursors ext,
        getPathLoop f cps fuel t cur views =
          .done (t + cursors.length, cps.length - 1, views ++ ext) ∧
        ext.map some = callsFrom f cps t cursors ∧
        cursors.Pairwise (· ≤ ·) ∧ ∀ c ∈ cursors, cur ≤ c ∧ c < cps.length - 1 := by
  have hsize : sizeMinusOne cps.length = cps.length - 1 := by
    simp only [sizeMinusOne]; rw [if_neg (by omega)]
  intro fuel
  induction fuel with
  | zero => intro t cur views _ hf; omega
  | succ fuel ih =>
    intro t cur views hcur hf
    rw [getPathLoop, hsize]
    by_cases hc : cur < cps.length - 1
    · rw [if_pos hc]
      obtain ⟨a, ha⟩ : ∃ a, cps[cur]? = some a :=
        ⟨cps[cur], List.getElem?_eq_getElem (by omega)⟩
      obtain ⟨b, hb⟩ : ∃ b, cps[cur + 1]? = some b :=
        ⟨cps[cur + 1], List.getElem?_eq_getElem (by omega)⟩
      have hbT : b.t ≤ maxT cps := le_maxT cps b (by obtain ⟨h1, rfl⟩ := List.getElem?_eq_some.1 hb; exact List.getElem_mem _)
      simp only [ha, hb]
      have hseg : segmentCall f cps cur t = some (f a b t) := by
        simp [segmentCall, ha, hb]
      generalize maxT cps = T at hf hbT ih
      generalize b.t = bt at hbT
      by_cases hadv : t + 1 ≥ bt
      · rw [if_pos hadv]
        obtain ⟨cursors, ext, hrun, hext, hpw, hall⟩ :=
          ih (t + 1) (cur + 1) (views ++ [f a b t]) (by omega) (by omega)
        refine ⟨cur :: cursors, f a b t :: ext, ?_, ?_, ?_, ?_⟩
        · rw [hrun]
          simp only [List.length_cons, Nat.cast_add, Nat.cast_one, List.append_assoc,
            List.singleton_append]
          congr 2
          omega
        · simp [callsFrom, hseg, hext]
        · exact List.pairwise_cons.2 ⟨fun c hc' => by have := (hall c hc').1; omega, hpw⟩
        · intro c hc'
          rcases List.mem_cons.1 hc' with rfl | hc'
          · exact ⟨le_refl _, hc⟩
          · have := hall c hc'
            exact ⟨by omega, this.2⟩
      · rw [if_neg hadv]
        obtain ⟨cursors, ext, hrun, hext, hpw, hall⟩ :=
          ih (t + 1) cur (views ++ [f a b t]) hcur (by omega)
        refine ⟨cur :: cursors, f a b t :: ext, ?_, ?_, ?_, ?_⟩
        · rw [hrun]
          simp only [List.length_cons, Nat.cast_add, Nat.cast_one, List.append_assoc,
            List.singleton_append]
          congr 2
          omega
        · simp [callsFrom, hseg, hext]
        · exact List.pairwise_cons.2 ⟨fun c hc' => (hall c hc').1, hpw⟩
        · intro c hc'
          rcases List.mem_cons.1 hc' with rfl | hc'
          · exact ⟨le_refl _, hc⟩
          · exact hall c hc'
    · rw [if_neg hc]
      have : cur = cps.length - 1 := by omega
      subst this
      exact ⟨[], [], by simp, rfl, List.Pairwise.nil, by simp⟩

/-- C27: the view-generation loop of `getPath` terminates on every checkpoint list of at
least two checkpoints, whatever the order of the frame indices.  With fuel above
`(number of checkpoints - 1) + (largest frame index - first frame index)` the loop ends with
the cursor at the last checkpoint; the cursors of its calls never decrease and stay below the
index of the last checkpoint, the frames of the calls are consecutive from the first frame
index, and `getPath` returns its views, one more than the loop has made. -/
theorem getPath_terminates {β : Type} (f : CameraCheckpoint → CameraCheckpoint → Int → β)
    (cps : List CameraCheckpoint) (fuel : Nat) (hlen : 2 ≤ cps.length)
    (hfuel : cps.length - 1 + (maxT cps - firstT cps).toNat < fuel) :
    ∃ cursors ext,
      getPathLoop f cps fuel (firstT cps) 0 [] =
        .done (firstT cps + cursors.length, cps.length - 1, ext) ∧
      ext.map some = callsFrom f cps (firstT cps) cursors ∧
      cursors.Pairwise (· ≤ ·) ∧ (∀ c ∈ cursors, c < cps.length - 1) ∧
      ∃ views, getPathWith f fuel cps = .done views ∧ views.length = cursors.length + 1 := by
  obtain ⟨cursors, ext, hrun, hext, hpw, hall⟩ :=
    getPathLoop_total f cps (by omega) fuel (firstT cps) 0 [] (by omega) (by omega)
  simp only [List.nil_append] at hrun
  refine ⟨cursors, ext, hrun, hext, hpw, fun c hc => (hall c hc).2, ?_⟩
  have h0 : cps[0]? = some cps[0] := List.getElem?_eq_getElem (by omega)
  have hA : cps[cps.length - 1 - 1]? = some cps[cps.length - 1 - 1] :=
    List.getElem?_eq_getElem (by omega)
  have hB : cps[cps.length - 1]? = some cps[cps.length - 1] :=
    List.getElem?_eq_getElem (by omega)
  have hft : firstT cps = cps[0].t := firstT_eq h0
  have hl : ext.length = cursors.length := by
    have := congrArg List.length hext
    have hcl : ∀ (t : Int) (cs : List Nat), (callsFrom f cps t cs).length = cs.length := by
      intro t cs
      induction cs generalizing t with
      | nil => rfl
      | cons c cs ih => simp [callsFrom, ih]
    simpa [hcl] using this
  refine ⟨ext ++ [f cps[cps.length - 1 - 1] cps[cps.length - 1]
    (firstT cps + cursors.length)], ?_, by simp [hl]⟩
  rw [getPathWith, h0]
  simp only []
  rw [← hft, hrun]
  simp only [Run.bind]
  rw [if_neg (by omega), hA, hB]

set_option maxRecDepth 100000 in
/-- Witness of C27: on the checkpoints at the frames 5, 5, 3, 10 the loop ends after five
calls (cursors 0, 1, 2, 2, 2, frames 5 to 9), and `getPath` returns six views. -/
theorem getPath_terminates_witness :
    2 ≤ unorderedPath.length ∧ ¬ StrictlyIncreasing unorderedPath ∧
    unorderedPath.length - 1 + (maxT unorderedPath - firstT unorderedPath).toNat < 9 ∧
    getPathLoop (fun _ _ t => t) unorderedPath 9 (firstT unorderedPath) 0 [] =
      .done (10, 3, [5, 6, 7, 8, 9]) ∧
    callsFrom (fun _ _ t => t) unorderedPath 5 [0, 1, 2, 2, 2] =
      [some 5, some 6, some 7, some 8, some 9] ∧
    ∃ views, getPathFrames 9 unorderedPath = .done views ∧ views.length = 6 := by
  obtain ⟨cursors, ext, _, _, _, _, views, h5, h6⟩ :=
    getPath_terminates (fun _ _ t => t) unorderedPath 9 (by decide) (by decide)
  have hv : getPathFrames 9 unorderedPath = .done [5, 6, 7, 8, 9, 10] := by decide
  refine ⟨by decide, by decide, by decide, by decide, by decide, views, h5, ?_⟩
  have : views = [5, 6, 7, 8, 9, 10] := by
    have := h5.symm.trans hv
    simpa [getPathFrames] using this
  rw [this]; rfl

/-- C26: index safety of the sweep.  With path following on, `F ≥ 1` features (fewer than
`2 ^ 31`, the range of the `int` parameter `feature_index`), at least `F` prefixes and an
interval with `start < end ≤ pathViews.size()`, no call of `render` up to and including
the one that sets `quit` reads outside `pathViews`, `feature_buffers` or `output_prefixes`:
each of the first `F * (end - start)` calls returns without fault and without `quit`, call
`f * (end - start) + i + 1` using the indices `start + i`, `f` and `f`, all in bounds, and
call `F * (end - start) + 1` returns without fault with `quit` set. -/
theorem render_index_safety {V : Type} (settings : Settings V)
    (hfollow : settings.followPath = true)
    (hF : 1 ≤ settings.feature_buffers.length)
    (hint : settings.feature_buffers.length < 2 ^ 31)
    (hpre : settings.feature_buffers.length ≤ settings.output_prefixes.length)
    (hse : start_count settings < end_count settings)
    (hend : end_count settings ≤ settings.pathViews.length) :
    (∀ n, n ≤ settings.feature_buffers.length * (end_count settings - start_count settings) →
      ∃ s, renderN settings n (initialState settings) = .done s ∧ s.quit = false) ∧
    (∀ f i, f < settings.feature_buffers.length → i < end_count settings - start_count settings →
      start_count settings + i < settings.pathViews.length ∧
      f < settings.feature_buffers.length ∧ f < settings.output_prefixes.length ∧
      ∃ s s', renderN settings (f * (end_count settings - start_count settings) + i)
          (initialState settings) = .done s ∧
        render settings s = .done s' ∧ s'.count = start_count settings + i + 1 ∧
        s'.feature_count = f) ∧
    (∃ s, renderN settings
        (settings.feature_buffers.length * (end_count settings - start_count settings) + 1)
        (initialState settings) = .done s ∧ s.quit = true) := by
  have hall := sweep_feature settings hfollow hpre hse hend
  have hL : 0 < end_count settings - start_count settings := by omega
  generalize hLdef : end_count settings - start_count settings = L at hall hL
  refine ⟨?_, ?_, ?_⟩
  · intro n hn
    rcases Nat.eq_zero_or_pos n with h0 | hpos
    · subst h0
      exact ⟨initialState settings, rfl, rfl⟩
    · have hdm : L * ((n - 1) / L) + (n - 1) % L = n - 1 := Nat.div_add_mod _ _
      have hmod : (n - 1) % L < L := Nat.mod_lt _ hL
      have hf : (n - 1) / L < settings.feature_buffers.length := by
        apply Nat.div_lt_of_lt_mul
        rw [Nat.mul_comm]
        omega
      obtain ⟨s, hrun, _, _, _, hq, _⟩ := hall ((n - 1) / L) hf ((n - 1) % L + 1) (by omega)
        (by omega)
      have hn' : (n - 1) / L * L + ((n - 1) % L + 1) = n := by
        rw [Nat.mul_comm]; omega
      rw [hn'] at hrun
      exact ⟨s, hrun, hq⟩
  · intro f i hf hi
    obtain ⟨s, hrun, _, _, _, hr⟩ := sweep_call settings hfollow hpre hse hend f i hf
      (by omega) settings.output_prefixes[f] settings.feature_buffers[f]
      settings.pathViews[start_count settings + i]
      (List.getElem?_eq_getElem (by omega)) (List.getElem?_eq_getElem hf)
      (List.getElem?_eq_getElem (by omega))
    rw [hLdef] at hrun
    exact ⟨by omega, hf, by omega, s, _, hrun, hr, rfl, rfl⟩
  · obtain ⟨s, hrun, _, _, hprep, _, hc, hfc, _, _⟩ :=
      hall (settings.feature_buffers.length - 1) (by omega) L (by omega) (le_refl _)
    obtain ⟨s', q1, q2, _⟩ := render_quit settings s hfollow hprep (by omega) (by omega)
    have hk : (settings.feature_buffers.length - 1) * L + L =
        settings.feature_buffers.length * L := by
      have : settings.feature_buffers.length = settings.feature_buffers.length - 1 + 1 := by
        omega
      conv_rhs => rw [this]
      ring
    rw [hk] at hrun
    refine ⟨s', ?_, q2⟩
    rw [renderN, hrun]
    exact q1

/-- Witness of C26: in the sweep of two features over five frames the first ten calls of
`render` and the eleventh, which sets `quit`, return without fault. -/
theorem render_index_safety_witness :
    exampleSweep.followPath = true ∧ 1 ≤ exampleSweep.feature_buffers.length ∧
    start_count exampleSweep < end_count exampleSweep ∧
    end_count exampleSweep ≤ exampleSweep.pathViews.length ∧
    (∀ n, n ≤ 10 → ∃ s, renderN exampleSweep n (initialState exampleSweep) = .done s ∧
      s.quit = false) ∧
    ∃ s, renderN exampleSweep 11 (initialState exampleSweep) = .done s ∧ s.quit = true := by
  have h := render_index_safety exampleSweep (by decide) (by decide) (by decide) (by decide)
    (by decide) (by decide)
  exact ⟨by decide, by decide, by decide, by decide, h.1, h.2.2⟩

/-- A decimal digit is read back from its character. -/
theorem digitChar_value (k : Nat) (hk : k < 10) : (Nat.digitChar k).toNat - 48 = k := by
  interval_cases k <;> rfl

/-- Reading the digits that `Nat.toDigitsCore` puts in front of `ds`. -/
theorem toDigitsCore_value :
    ∀ (fuel n : Nat) (ds : List Char), n < fuel →
      (Nat.toDigitsCore 10 fuel n ds).foldl (fun acc c => 10 * acc + (c.toNat - 48)) 0 =
        ds.foldl (fun acc c => 10 * acc + (c.toNat - 48)) n := by
  intro fuel
  induction fuel with
  | zero => intro n ds h; omega
  | succ fuel ih =>
    intro n ds h
    simp only [Nat.toDigitsCore]
    have hd := digitChar_value (n % 10) (Nat.mod_lt _ (by decide))
    split
    · next h0 =>
      simp only [List.foldl_cons, hd, Nat.mul_zero, Nat.zero_add]
      congr 1
      omega
    · next h0 =>
      rw [ih (n / 10) _ (by omega)]
      simp only [List.foldl_cons, hd]
      congr 1
      omega

/-- The decimal representation of a natural number reads back as the number. -/
theorem decimalValue_repr (n : Nat) : decimalValue (Nat.repr n).data = n := by
  simp only [decimalValue, Nat.repr, Nat.toDigits, List.asString]
  rw [toDigitsCore_value (n + 1) n [] (by omega)]
  rfl

/-- Padding with zeros on the left does not change the decimal value. -/
theorem decimalValue_padLeft (width : Nat) (s : String) :
    decimalValue (padLeft width '0' s).data = decimalValue s.data := by
  simp only [padLeft, String.data_append, decimalValue, List.foldl_append]
  congr 1
  induction (width - s.length) with
  | zero => rfl
  | succ k ih => simpa [List.replicate_succ] using ih

/-- The file name of a non-negative index determines the index. -/
theorem fileName_value (pfx : String) (m n : Nat)
    (h : fileName pfx (m : Int) = fileName pfx (n : Int)) : m = n := by
  have hd := congrArg String.data h
  simp only [fileName, String.data_append] at hd
  have h1 : (padLeft OUTPUT_INDEX_PAD '0' (toString (m : Int))).data =
      (padLeft OUTPUT_INDEX_PAD '0' (toString (n : Int))).data := by simpa using hd
  have h2 := congrArg decimalValue h1
  rw [decimalValue_padLeft, decimalValue_padLeft] at h2
  have e : ∀ k : Nat, toString ((k : Nat) : Int) = Nat.repr k := fun k => rfl
  rw [e, e, decimalValue_repr, decimalValue_repr] at h2
  exact h2

/-- C30: within one pass no frame overwrites another.  For a fixed prefix the file name
built by `renderCustom` is an injective function of the non-negative frame index; so, when
the indices `count + start_index` of the pass are non-negative and fit the `int` parameter
of `renderCustom`, the `end - start` frames of the pass are written to `end - start`
distinct files. -/
theorem pass_files_distinct {V : Type} (settings : Settings V) (pfx : String)
    (hlo : 0 ≤ (start_count settings : Int) + settings.start_index)
    (hhi : (end_count settings : Int) + settings.start_index ≤ (2 : Int) ^ 31) :
    (∀ m n : Nat, fileName pfx (m : Int) = fileName pfx (n : Int) → m = n) ∧
    (∀ i j, i < end_count settings - start_count settings →
      j < end_count settings - start_count settings →
      fileName pfx (frameArg settings (start_count settings + i)) =
        fileName pfx (frameArg settings (start_count settings + j)) → i = j) ∧
    (passFiles settings pfx).Nodup ∧
    (passFiles settings pfx).length = end_count settings - start_count settings := by
  have hinj : ∀ i j, i < end_count settings - start_count settings →
      j < end_count settings - start_count settings →
      fileName pfx (frameArg settings (start_count settings + i)) =
        fileName pfx (frameArg settings (start_count settings + j)) → i = j := by
    intro i j hi hj h
    have harg : ∀ k, k < end_count settings - start_count settings →
        frameArg settings (start_count settings + k) =
          ((((start_count settings + k : Nat) : Int) + settings.start_index).toNat : Int) := by
      intro k hk
      rw [frameArg_eq settings (start_count settings + k) (by push_cast; omega)
        (by push_cast; omega)]
      push_cast
      omega
    rw [harg i hi, harg j hj] at h
    have := fileName_value pfx _ _ h
    push_cast at this
    omega
  refine ⟨fileName_value pfx, hinj, ?_, by simp [passFiles]⟩
  unfold passFiles
  apply List.Nodup.map_on _ (List.nodup_range _)
  intro x hx y hy hxy
  exact hinj x y (List.mem_range.1 hx) (List.mem_range.1 hy) hxy

/-- Witness of C30: the five frames of a pass of the example sweep are written to the five
files `n_0.exr` to `n_4.exr`. -/
theorem pass_files_distinct_witness :
    0 ≤ (start_count exampleSweep : Int) + exampleSweep.start_index ∧
    (end_count exampleSweep : Int) + exampleSweep.start_index ≤ (2 : Int) ^ 31 ∧
    passFiles exampleSweep "n_" = ["n_0.exr", "n_1.exr", "n_2.exr", "n_3.exr", "n_4.exr"] ∧
    (passFiles exampleSweep "n_").Nodup := by
  exact ⟨by decide, by decide, by decide,
    (pass_files_distinct exampleSweep "n_" (by decide) (by decide)).2.2.1⟩

/-- C21: `getPath` ends without views on an unreadable file, an empty file and a top-level
value that is not an array.  When the file cannot be opened it writes `Could not open file`
and the file name to `std::cerr` and calls `exit(0)`; when the file is empty, `json::parse`
throws on the empty string and the exception leaves `getPath`; when the parsed value is not
an array it writes `JSON object was not a list!` and calls `exit(0)`.  In none of the three
cases a view is returned. -/
theorem getPath_file_errors {J : Type} (sqrt : ℚ → ℚ) (fuel : Nat)
    (parse : String → Option (JsonTop J)) (cpFromObj : J → Option CameraCheckpoint)
    (str : String) (hempty : parse "" = none) :
    getPathFromFile sqrt fuel parse cpFromObj str none =
      .error (.exit 0 ("Could not open file " ++ str ++ "\n")) ∧
    getPathFromFile sqrt fuel parse cpFromObj str (some "") = .error .exception ∧
    (∀ ss, parse ss = some .other →
      getPathFromFile sqrt fuel parse cpFromObj str (some ss) =
        .error (.exit 0 "JSON object was not a list!\n")) ∧
    (∀ fs, fs = none ∨ fs = some "" ∨ (∃ ss, fs = some ss ∧ parse ss = some .other) →
      ∀ views, getPathFromFile sqrt fuel parse cpFromObj str fs ≠ .ok views) := by
  have h1 : getPathFromFile sqrt fuel parse cpFromObj str none =
      .error (.exit 0 ("Could not open file " ++ str ++ "\n")) := rfl
  have h2 : getPathFromFile sqrt fuel parse cpFromObj str (some "") = .error .exception := by
    simp only [getPathFromFile, hempty]
  have h3 : ∀ ss, parse ss = some .other →
      getPathFromFile sqrt fuel parse cpFromObj str (some ss) =
        .error (.exit 0 "JSON object was not a list!\n") := by
    intro ss hss
    simp only [getPathFromFile, hss]
  refine ⟨h1, h2, h3, ?_⟩
  rintro fs (rfl | rfl | ⟨ss, rfl, hss⟩) views h
  · rw [h1] at h; cases h
  · rw [h2] at h; cases h
  · rw [h3 ss hss] at h; cases h

/-- Witness of C21: the three cases with the stand-in parser and the file name `p.json`. -/
theorem getPath_file_errors_witness :
    sampleParse "" = none ∧
    getPathFromFile qsqrt 10 sampleParse (fun _ => none) "p.json" none =
      .error (.exit 0 ("Could not open file " ++ "p.json" ++ "\n")) ∧
    "Could not open file " ++ "p.json" ++ "\n" = "Could not open file p.json\n" ∧
    getPathFromFile qsqrt 10 sampleParse (fun _ => none) "p.json" (some "") =
      .error .exception ∧
    getPathFromFile qsqrt 10 sampleParse (fun _ => none) "p.json" (some "{}") =
      .error (.exit 0 "JSON object was not a list!\n") := by
  have h := getPath_file_errors qsqrt 10 sampleParse (fun _ => none) "p.json" (by decide)
  exact ⟨by decide, h.1, by decide, h.2.1, h.2.2.1 "{}" (by decide)⟩

/-- C22, the code at the failing inputs: `getPath` does not validate the number of
checkpoints.  On an empty array it reads `cps[0]` of an empty vector; on an array of one
checkpoint the loop is skipped and line 83 reads `cps[current_cp - 1]` with
`current_cp = 0`.  Neither case ends in an `exit` with a message: both run into an access
outside the vector. -/
theorem getPath_short_path_unchecked (sqrt : ℚ → ℚ) (fuel : Nat) (c : CameraCheckpoint) :
    getPath sqrt fuel [] = .fault .cps_oob ∧
    getPath sqrt (fuel + 1) [c] = .fault .cps_oob ∧
    getPathLoop (getInterpolatedView sqrt) [c] (fuel + 1) c.t 0 [] = .done (c.t, 0, []) ∧
    getPathFromFile sqrt fuel sampleParse (fun _ => some c) "p.json" (some "[]") =
      .error (.fault .cps_oob) ∧
    getPathFromFile sqrt (fuel + 1) sampleParse (fun _ => some c) "p.json" (some "[c]") =
      .error (.fault .cps_oob) := by
  have h1 : getPath sqrt fuel [] = .fault .cps_oob := rfl
  have h3 : getPathLoop (getInterpolatedView sqrt) [c] (fuel + 1) c.t 0 [] =
      .done (c.t, 0, []) := by
    simp [getPathLoop, sizeMinusOne]
  have h2 : getPath sqrt (fuel + 1) [c] = .fault .cps_oob := by
    simp [getPath, getPathWith, h3, Run.bind]
  refine ⟨h1, h2, h3, ?_, ?_⟩
  · have hp : sampleParse "[]" = some (.array []) := by decide
    simp only [getPathFromFile, hp, readCheckpoints, h1]
  · have hp : sampleParse "[c]" = some (.array [()]) := by decide
    simp only [getPathFromFile, hp, readCheckpoints, h2]

/-- The commands of the copy command buffer are the recording operations of the host
protocol, between `vkBeginCommandBuffer` and `vkEndCommandBuffer`. -/
theorem secondCommandBuffer_ops (width height : Nat) :
    (secondCommandBuffer width height).map Cmd.op =
      (((captureTrace.drop 3).take 5).map (·.op)) := rfl

/-- After every frame the colour attachment is in `COLOR_ATTACHMENT_OPTIMAL` and the
readback image in `GENERAL`. -/
theorem layoutsAfter_succ (width height n : Nat) :
    layoutsAfter width height (n + 1) =
      ⟨.VK_IMAGE_LAYOUT_COLOR_ATTACHMENT_OPTIMAL, .VK_IMAGE_LAYOUT_GENERAL⟩ := by
  cases n <;> rfl

/-- C25, as stated, fails from the second frame on: the barrier of the readback image
declares the old layout `UNDEFINED`, while the image has been left in `GENERAL` by the
frame before; the declared layout matches for every other command. -/
theorem copy_layouts_counterexample :
    layoutsAfter 4 3 1 = ⟨.VK_IMAGE_LAYOUT_COLOR_ATTACHMENT_OPTIMAL, .VK_IMAGE_LAYOUT_GENERAL⟩ ∧
    (secondCommandBuffer 4 3)[1]? = some (.cmdSetLayout .reachableImage
      .VK_IMAGE_LAYOUT_UNDEFINED .VK_IMAGE_LAYOUT_TRANSFER_DST_OPTIMAL) ∧
    matchesAlong (renderPassLayouts (layoutsAfter 4 3 1)) (secondCommandBuffer 4 3) =
      [true, false, true, true, true] := by
  decide

/-- C25, amended: layout consistency of the copy command buffer.  In every frame
`renderCustom` records, in this order, colour attachment `COLOR_ATTACHMENT_OPTIMAL` to
`TRANSFER_SRC_OPTIMAL`, readback image `UNDEFINED` to `TRANSFER_DST_OPTIMAL`, a copy of the
full extent `width x height x 1` at offset 0, colour attachment `TRANSFER_SRC_OPTIMAL` to
`COLOR_ATTACHMENT_OPTIMAL`, readback image `TRANSFER_DST_OPTIMAL` to `GENERAL`.  In the
first frame every declared layout is the layout the image is in.  In every later frame this
holds for every command but the barrier of the readback image, which declares `UNDEFINED`
while the image is in `GENERAL`.  In every frame the colour attachment is in
`COLOR_ATTACHMENT_OPTIMAL` before the commands (the render pass leaves it there) and after
them, and the readback image is in `GENERAL` after them. -/
theorem copy_layouts (width height n : Nat) :
    (secondCommandBuffer width height).map Cmd.op =
      [.cmdSetLayout .fbColor .VK_IMAGE_LAYOUT_COLOR_ATTACHMENT_OPTIMAL
         .VK_IMAGE_LAYOUT_TRANSFER_SRC_OPTIMAL,
       .cmdSetLayout .reachableImage .VK_IMAGE_LAYOUT_UNDEFINED
         .VK_IMAGE_LAYOUT_TRANSFER_DST_OPTIMAL,
       .vkCmdCopyImage .VK_IMAGE_LAYOUT_TRANSFER_SRC_OPTIMAL
         .VK_IMAGE_LAYOUT_TRANSFER_DST_OPTIMAL,
       .cmdSetLayout .fbColor .VK_IMAGE_LAYOUT_TRANSFER_SRC_OPTIMAL
         .VK_IMAGE_LAYOUT_COLOR_ATTACHMENT_OPTIMAL,
       .cmdSetLayout .reachableImage .VK_IMAGE_LAYOUT_TRANSFER_DST_OPTIMAL
         .VK_IMAGE_LAYOUT_GENERAL] ∧
    (secondCommandBuffer width height)[2]? = some (.vkCmdCopyImage .fbColor
      .VK_IMAGE_LAYOUT_TRANSFER_SRC_OPTIMAL .reachableImage
      .VK_IMAGE_LAYOUT_TRANSFER_DST_OPTIMAL (ic width height)) ∧
    (ic width height).extent = imageExtent width height ∧
    (ic width height).srcOffset = ⟨0, 0, 0⟩ ∧ (ic width height).dstOffset = ⟨0, 0, 0⟩ ∧
    matchesAlong (renderPassLayouts (layoutsAfter width height n))
        (secondCommandBuffer width height) =
      [true, decide (n = 0), true, true, true] ∧
    (layoutsAfter width height n).reachableImage =
      (if n = 0 then .VK_IMAGE_LAYOUT_UNDEFINED else .VK_IMAGE_LAYOUT_GENERAL) ∧
    (renderPassLayouts (layoutsAfter width height n)).fbColor =
      .VK_IMAGE_LAYOUT_COLOR_ATTACHMENT_OPTIMAL ∧
    (layoutsAfter width height (n + 1)).fbColor = .VK_IMAGE_LAYOUT_COLOR_ATTACHMENT_OPTIMAL ∧
    (layoutsAfter width height (n + 1)).reachableImage = .VK_IMAGE_LAYOUT_GENERAL := by
  refine ⟨rfl, rfl, rfl, rfl, rfl, ?_, ?_, rfl, ?_, ?_⟩
  · cases n with
    | zero => rfl
    | succ n => rw [layoutsAfter_succ]; rfl
  · cases n with
    | zero => rfl
    | succ n => rw [layoutsAfter_succ]; rfl
  · rw [layoutsAfter_succ]
  · rw [layoutsAfter_succ]

/-- Witness of C25, amended: for a 4 x 3 image, the first frame and the third. -/
theorem copy_layouts_witness :
    matchesAlong (renderPassLayouts (layoutsAfter 4 3 0)) (secondCommandBuffer 4 3) =
      [true, true, true, true, true] ∧
    matchesAlong (renderPassLayouts (layoutsAfter 4 3 2)) (secondCommandBuffer 4 3) =
      [true, false, true, true, true] ∧
    (ic 4 3).extent = ⟨4, 3, 1⟩ := by
  exact ⟨(copy_layouts 4 3 0).2.2.2.2.2.1, (copy_layouts 4 3 2).2.2.2.2.2.1,
    (copy_layouts 4 3 0).2.2.1⟩

/-- The array handed to the writer is `to3chan` of the array after the readback copy. -/
theorem readback_eq_readbackCopy {β : Type} (img : Nat → β) (srl : VkSubresourceLayout)
    (width height : Nat) (data0 : Nat → F32 β) :
    readback img srl width height data0 =
      to3chan (readbackCopy img srl width height data0) width height := by
  simp only [readback, readbackCopy]

/-- The row-by-row copy leaves every float from index `height * (4 * width)` on as it
was. -/
theorem copyRows_outside {β : Type} (img : Nat → β) (width rowPitch tmp : Nat)
    (data : Nat → F32 β) (height i : Nat) (hi : height * (4 * width) ≤ i) :
    copyRows img width height rowPitch tmp data i = data i := by
  simp only [copyRows]
  induction height with
  | zero => rfl
  | succ h ih =>
    have hm : (h + 1) * (4 * width) = h * (4 * width) + 4 * width := by ring
    obtain ⟨h1, -, -⟩ := copyRows_iterate img width rowPitch tmp data h
    rw [Function.iterate_succ_apply']
    simp only []
    rw [(copyRow_spec img width _ _ _).2, h1, if_neg (by omega)]
    exact ih (by omega)

/-- The `memcpy` of `n` bytes leaves every float that starts at byte `n` or later as it
was. -/
theorem memcpyFloats_outside {β : Type} (img : Nat → β) (tmp n : Nat) (data : Nat → F32 β)
    (i : Nat) (hi : n ≤ 4 * i) : memcpyFloats img tmp n data i = data i := by
  simp only [memcpyFloats]
  rw [if_neg (by omega), if_neg (by omega), if_neg (by omega), if_neg (by omega)]

/-- The row-by-row branch of the readback copy stays inside the array of
`height * width * 4` floats, for every subresource layout. -/
theorem readbackCopy_rows_inside {β : Type} (img : Nat → β) (srl : VkSubresourceLayout)
    (width height : Nat) (data0 : Nat → F32 β) (hpitch : srl.rowPitch ≠ width * 4 * 4)
    (i : Nat) (hi : height * width * 4 ≤ i) :
    readbackCopy img srl width height data0 i = data0 i := by
  simp only [readbackCopy, if_neg hpitch]
  have e : height * (4 * width) = height * width * 4 := by ring
  exact copyRows_outside img width srl.rowPitch _ data0 height i (by omega)

/-- The `memcpy` branch of the readback copy stays inside the array of
`height * width * 4` floats when `srl.size` is at most the size of the array in bytes. -/
theorem readbackCopy_memcpy_inside {β : Type} (img : Nat → β) (srl : VkSubresourceLayout)
    (width height : Nat) (data0 : Nat → F32 β) (hpitch : srl.rowPitch = width * 4 * 4)
    (hsize : srl.size ≤ height * width * 4 * 4) (i : Nat) (hi : height * width * 4 ≤ i) :
    readbackCopy img srl width height data0 i = data0 i := by
  simp only [readbackCopy, if_pos hpitch]
  exact memcpyFloats_outside img _ _ data0 i (by omega)

/-- C29 fails in the `memcpy` branch: the branch copies `srl.size` bytes, and nothing
bounds `srl.size` by the `height * width * 4 * 4` bytes of the array `data`.  For every
`width`, `height` and `offset`, with the layout `rowPitch = width * 16` and
`size = height * width * 16 + extra + 1`, the first byte of the float at index
`height * width * 4`, the first one past the end of the array, is overwritten by a byte of
the mapped memory.  For a `2 x 2` image with `rowPitch = 32` and `size = 80` the array of 16
floats is followed by four floats that are overwritten (indices 16 to 19); the float at
index 20 is the first one left as it was. -/
theorem readback_copy_overflow {β : Type} (img : Nat → β) (width height offset extra : Nat)
    (data0 : Nat → F32 β) :
    (readbackCopy img ⟨offset, height * width * 16 + extra + 1, width * 4 * 4⟩ width height
        data0 (height * width * 4)).b0 = img (4 * (offset / 4 + height * width * 4)) ∧
    (List.range 6).map (fun (k : Nat) =>
        readbackCopy byteLabels ⟨0, 80, 32⟩ 2 2 (fun _ => ⟨0, 0, 0, 0⟩) (15 + k)) =
      [⟨60, 61, 62, 63⟩, ⟨64, 65, 66, 67⟩, ⟨68, 69, 70, 71⟩, ⟨72, 73, 74, 75⟩,
       ⟨76, 77, 78, 79⟩, ⟨0, 0, 0, 0⟩] := by
  refine ⟨?_, by decide⟩
  simp only [readbackCopy, if_true, memcpyFloats, loadFloat, floatAtByte]
  rw [if_pos (by omega)]

/-! ## Theorems: the readback conversion without padding -/

/-- C3, as stated, fails when `srl.offset` is not a multiple of the size of a float: with
`width = 1`, `height = 2`, `rowPitch = 16 = width * 4 * 4`, `size = 32` and `offset = 2`
the `memcpy` branch reads from `tmp + 2 / 4`, that is from byte 0 of the mapped memory,
while the first source pixel starts at byte 2.  The byte at offset `b` of the mapped memory
is labelled `b`. -/
theorem readback_no_padding_counterexample :
    (⟨2, 32, 16⟩ : VkSubresourceLayout).rowPitch = 1 * 4 * 4 ∧
    readback byteLabels ⟨2, 32, 16⟩ 1 2 (fun _ => ⟨0, 0, 0, 0⟩) (3 * (0 * 1 + 0) + 0) =
      ⟨0, 1, 2, 3⟩ ∧
    imageFloats byteLabels ⟨2, 32, 16⟩ (4 * (0 * 1 + 0) + 0) = ⟨2, 3, 4, 5⟩ ∧
    readback byteLabels ⟨2, 32, 16⟩ 1 2 (fun _ => ⟨0, 0, 0, 0⟩) (3 * (0 * 1 + 0) + 0) ≠
      alphaDropped (imageFloats byteLabels ⟨2, 32, 16⟩) (3 * (0 * 1 + 0) + 0) := by
  decide

/-- C3, amended: without padding (`rowPitch == width * 4 * 4`), when `srl.offset` is a
multiple of 4 (the size of a float) and `srl.size` is the size of the image,
`width * height * 16` bytes, the buffer that `renderCustom` hands to the writer (the
`memcpy` branch followed by `to3chan`) is the tightly packed alpha-dropped copy of the
source pixels: `out[3 * (y * width + x) + k] = src[4 * (y * width + x) + k]` for every
pixel `(x, y)` and `k < 3`, where `src[i]` is the float at byte offset `srl.offset + 4 * i`
of the mapped memory; and the `memcpy` writes no float outside the array of
`height * width * 4` floats. -/
theorem readback_no_padding {β : Type} (img : Nat → β) (srl : VkSubresourceLayout)
    (width height : Nat) (data0 : Nat → F32 β) (hpitch : srl.rowPitch = width * 4 * 4)
    (hoff : 4 ∣ srl.offset) (hsize : srl.size = width * height * 16) :
    (∀ x y k, x < width → y < height → k < 3 →
      readback img srl width height data0 (3 * (y * width + x) + k) =
        imageFloats img srl (4 * (y * width + x) + k)) ∧
    (∀ m, m < width * height * 3 →
      readback img srl width height data0 m = alphaDropped (imageFloats img srl) m) ∧
    (∀ i, height * width * 4 ≤ i → readbackCopy img srl width height data0 i = data0 i) := by
  have key : ∀ i k, i < width * height → k < 3 →
      readback img srl width height data0 (3 * i + k) = imageFloats img srl (4 * i + k) := by
    intro i k hi hk
    rw [readback_tight img srl width height data0 hpitch (by omega) i k hi hk, imageFloats]
    have := loadFloat_aligned img hoff (dvd_refl 4) 0 (4 * i + k)
    simp only [Nat.zero_mul, Nat.add_zero] at this
    rw [this]
    congr 1
    ring
  refine ⟨?_, ?_, ?_⟩
  · intro x y k hx hy hk
    exact key _ k (pixel_lt hx hy) hk
  · intro m hm
    have h1 : m / 3 < width * height := by omega
    have h2 : m % 3 < 3 := Nat.mod_lt _ (by omega)
    have h3 : 3 * (m / 3) + m % 3 = m := Nat.div_add_mod m 3
    have := key (m / 3) (m % 3) h1 h2
    rw [h3] at this
    exact this
  · intro i hi
    have e : width * height = height * width := Nat.mul_comm _ _
    exact readbackCopy_memcpy_inside img srl width height data0 hpitch (by omega) i hi

/-- Witness of C3, amended: an image of one column and two rows that starts at byte 4 of
the mapped memory. -/
theorem readback_no_padding_witness :
    (⟨4, 32, 16⟩ : VkSubresourceLayout).rowPitch = 1 * 4 * 4 ∧
    4 ∣ (⟨4, 32, 16⟩ : VkSubresourceLayout).offset ∧
    (⟨4, 32, 16⟩ : VkSubresourceLayout).size = 1 * 2 * 16 ∧
    (∀ x y k, x < 1 → y < 2 → k < 3 →
      readback byteLabels ⟨4, 32, 16⟩ 1 2 (fun _ => ⟨0, 0, 0, 0⟩) (3 * (y * 1 + x) + k) =
        imageFloats byteLabels ⟨4, 32, 16⟩ (4 * (y * 1 + x) + k)) ∧
    (∀ m, m < 1 * 2 * 3 →
      readback byteLabels ⟨4, 32, 16⟩ 1 2 (fun _ => ⟨0, 0, 0, 0⟩) m =
        alphaDropped (imageFloats byteLabels ⟨4, 32, 16⟩) m) ∧
    readback byteLabels ⟨4, 32, 16⟩ 1 2 (fun _ => ⟨0, 0, 0, 0⟩) 3 = ⟨20, 21, 22, 23⟩ :=
  ⟨by decide, by decide, by decide,
    (readback_no_padding byteLabels ⟨4, 32, 16⟩ 1 2 (fun _ => ⟨0, 0, 0, 0⟩) (by decide)
      (by decide) (by decide)).1,
    (readback_no_padding byteLabels ⟨4, 32, 16⟩ 1 2 (fun _ => ⟨0, 0, 0, 0⟩) (by decide)
      (by decide) (by decide)).2.1, by decide⟩

/-! ## Theorems: the fence and the batches in flight after a failed wait -/

/-- The part of "at most one frame in flight" that holds.  In every execution of any number
of calls of `renderCustom` in which no fence wait returned a hard error: the number of
batches submitted and not yet awaited never exceeds one; when a batch is submitted, none is
unawaited; between a successful submission and the next submission a fence wait completes
(returns `VK_SUCCESS`); and when the render batch is submitted, either no copy has been
submitted so far or the last copy has been awaited and its pixels read back. -/
theorem one_frame_without_hard_error (followPath : Bool) (env : Nat → VkResult) (k : Nat)
    (hno : noHardWaitError (runHost followPath env k).trace) :
    unawaited (runHost followPath env k).trace ≤ 1 ∧
    (∀ pre post ev b, (runHost followPath env k).trace = pre ++ ev :: post →
      ev.op = .vkQueueSubmit b →
      unawaited pre = 0 ∧
      (b = .render → copyPhase pre = .notSubmitted ∨ copyPhase pre = .readBack)) ∧
    (∀ pre mid post s1 s2 b,
      (runHost followPath env k).trace = pre ++ s1 :: (mid ++ s2 :: post) →
      submission s1 → s2.op = .vkQueueSubmit b → ∃ w ∈ mid, completedWait w) := by
  have hsub : ∀ pre post ev b, (runHost followPath env k).trace = pre ++ ev :: post →
      ev.op = .vkQueueSubmit b →
      unawaited pre = 0 ∧
      (b = .render → copyPhase pre = .notSubmitted ∨ copyPhase pre = .readBack) := by
    intro pre post ev b h hev
    obtain ⟨j, _, hj, hj1⟩ := trace_at followPath env k pre post ev h
    have hpos := (step_event_pos followPath env _ ev hj1).1 b hev
    have hpre : hardErrorSeen pre = false :=
      hardErrorSeen_false pre (fun e he => hno e (by rw [h]; simp [he]))
    have hun := unawaited_inv followPath env j
    have hph := copyPhase_inv followPath env j
    rw [hj] at hun hph
    have hun := (hun hpre).1
    rcases hpos with ⟨hp, hb⟩ | ⟨hp, hb⟩
    · rw [hp] at hun hph
      exact ⟨hun 0 rfl, fun _ => hph⟩
    · rw [hp] at hun
      exact ⟨hun 0 rfl, fun hbr => by rw [hb] at hbr; cases hbr⟩
  refine ⟨(unawaited_inv followPath env k (hardErrorSeen_false _ hno)).2, hsub, ?_⟩
  intro pre mid post s1 s2 b h hs1 hs2
  have h' : (runHost followPath env k).trace = (pre ++ s1 :: mid) ++ s2 :: post := by
    rw [h]; simp
  have h0 := (hsub _ _ s2 b h' hs2).1
  obtain ⟨b1, rfl⟩ := hs1
  have : unawaited (pre ++ ⟨.vkQueueSubmit b1, some .VK_SUCCESS⟩ :: mid) =
      mid.foldl unawaitedStep (unawaited pre + 1) := by
    simp [unawaited, List.foldl_append, unawaitedStep]
  rw [this] at h0
  exact unawaited_drop mid _ (by omega) h0

set_option maxRecDepth 100000 in
/-- C16 fails after a fence wait that returned a hard error, the defect of C20.  When the
render wait of the first call returns `VK_ERROR_OUT_OF_HOST_MEMORY`, the loop is left, the
fence, still pending, is reset, and the copy batch is submitted with it: at that
submission the fence is not unsignaled, although the last operation on it is a successful
reset.  When the copy wait returns `VK_ERROR_DEVICE_LOST`, the same holds at the render
submission of the next call. -/
theorem fence_not_unsignaled_at_submission :
    (runHost true (resultAt 3 .VK_ERROR_OUT_OF_HOST_MEMORY) 13).trace =
      (captureTrace.take 9 ++
        [⟨.vkWaitForFences 10000000, some .VK_ERROR_OUT_OF_HOST_MEMORY⟩,
         ⟨.vkResetFences, some .VK_SUCCESS⟩]) ++ [⟨.vkQueueSubmit .copy, some .VK_SUCCESS⟩] ∧
    fenceAfter (captureTrace.take 9 ++
      [⟨.vkWaitForFences 10000000, some .VK_ERROR_OUT_OF_HOST_MEMORY⟩]) = .pending ∧
    fenceAfter (captureTrace.take 9 ++
      [⟨.vkWaitForFences 10000000, some .VK_ERROR_OUT_OF_HOST_MEMORY⟩,
       ⟨.vkResetFences, some .VK_SUCCESS⟩]) = .misused ∧
    lastFenceOp (captureTrace.take 9 ++
      [⟨.vkWaitForFences 10000000, some .VK_ERROR_OUT_OF_HOST_MEMORY⟩,
       ⟨.vkResetFences, some .VK_SUCCESS⟩]) = some ⟨.vkResetFences, some .VK_SUCCESS⟩ ∧
    (runHost true (resultAt 6 .VK_ERROR_DEVICE_LOST) 23).trace =
      (captureTrace.take 12 ++
        ⟨.vkWaitForFences 10000, some .VK_ERROR_DEVICE_LOST⟩ :: captureTrace.drop 13) ++
        [⟨.vkQueueSubmit .render, some .VK_SUCCESS⟩] ∧
    fenceAfter (captureTrace.take 12 ++
      ⟨.vkWaitForFences 10000, some .VK_ERROR_DEVICE_LOST⟩ :: captureTrace.drop 13) =
        .misused := by
  decide

set_option maxRecDepth 100000 in
/-- C18 fails after a fence wait that returned a hard error, the defect of C20.  When the
render wait of the first call returns `VK_ERROR_OUT_OF_HOST_MEMORY`, the loop is left and
the copy batch is submitted while the render batch has not been awaited: two batches are
submitted and not awaited.  When the copy wait returns `VK_ERROR_DEVICE_LOST`, the pixels
are read and the render batch of the next call is submitted while the copy has not been
awaited. -/
theorem two_batches_in_flight :
    (runHost true (resultAt 3 .VK_ERROR_OUT_OF_HOST_MEMORY) 13).trace =
      (captureTrace.take 9 ++
        [⟨.vkWaitForFences 10000000, some .VK_ERROR_OUT_OF_HOST_MEMORY⟩,
         ⟨.vkResetFences, some .VK_SUCCESS⟩]) ++ [⟨.vkQueueSubmit .copy, some .VK_SUCCESS⟩] ∧
    unawaited (captureTrace.take 9 ++
      [⟨.vkWaitForFences 10000000, some .VK_ERROR_OUT_OF_HOST_MEMORY⟩,
       ⟨.vkResetFences, some .VK_SUCCESS⟩]) = 1 ∧
    unawaited (runHost true (resultAt 3 .VK_ERROR_OUT_OF_HOST_MEMORY) 13).trace = 2 ∧
    (runHost true (resultAt 6 .VK_ERROR_DEVICE_LOST) 23).trace =
      (captureTrace.take 12 ++
        ⟨.vkWaitForFences 10000, some .VK_ERROR_DEVICE_LOST⟩ :: captureTrace.drop 13) ++
        [⟨.vkQueueSubmit .render, some .VK_SUCCESS⟩] ∧
    unawaited (captureTrace.take 12 ++
      ⟨.vkWaitForFences 10000, some .VK_ERROR_DEVICE_LOST⟩ :: captureTrace.drop 13) = 1 ∧
    ⟨.readPixels, none⟩ ∈ captureTrace.drop 13 ∧
    unawaited (runHost true (resultAt 6 .VK_ERROR_DEVICE_LOST) 23).trace = 2 := by
  decide

/-! ## Theorems: `destroyCustomStuff` after `setupCustomStuff` -/

/-- The function `destroyCustomStuff` is its thirteen calls, in order. -/
theorem destroyCustomStuff_eq_foldl (c : CustomStuff) (d : Device) :
    destroyCustomStuff c d = c.destroyed.foldl vkDestroy d := rfl

/-- The handles are destroyed in another order than they are created. -/
theorem destroyed_perm_created (c : CustomStuff) : c.destroyed.Perm c.created := by
  simp only [CustomStuff.destroyed, CustomStuff.created]
  rw [← Multiset.coe_eq_coe]
  simp only [← Multiset.cons_coe, ← Multiset.singleton_add]
  abel

/-- Releasing, in any order, objects that exist, once each, makes no invalid call and
leaves the other objects. -/
theorem foldl_vkDestroy_live (base inv : List Nat) :
    ∀ (order hs : List Nat), order.Perm hs → hs.Nodup → (∀ h ∈ hs, h ≠ 0 ∧ h ∉ base) →
      order.foldl vkDestroy ⟨base ++ hs, inv⟩ = ⟨base, inv⟩ := by
  intro order
  induction order with
  | nil =>
    intro hs hp _ _
    rw [List.nil_perm.1 hp]
    simp
  | cons h rest ih =>
    intro hs hp hnd hnew
    have hmem : h ∈ hs := hp.subset (by simp)
    have h0 := (hnew h hmem).1
    have hb := (hnew h hmem).2
    have hstep : vkDestroy ⟨base ++ hs, inv⟩ h = ⟨base ++ hs.erase h, inv⟩ := by
      simp only [vkDestroy, if_neg h0]
      rw [if_pos (by simp [hmem])]
      simp [List.erase_append_right _ hb]
    rw [List.foldl_cons, hstep]
    apply ih
    · have := hp.erase h
      simpa using this
    · exact hnd.erase h
    · intro x hx
      exact hnew x (List.mem_of_mem_erase hx)

/-- Releasing handles that are not `VK_NULL_HANDLE` and name no existing object releases
nothing: every call is an invalid use. -/
theorem foldl_vkDestroy_invalid (base : List Nat) :
    ∀ (order inv : List Nat), (∀ h ∈ order, h ≠ 0 ∧ h ∉ base) →
      order.foldl vkDestroy ⟨base, inv⟩ = ⟨base, inv ++ order⟩ := by
  intro order
  induction order with
  | nil => intro inv _; simp
  | cons h rest ih =>
    intro inv hnew
    have h0 := (hnew h (by simp)).1
    have hb := (hnew h (by simp)).2
    have hstep : vkDestroy ⟨base, inv⟩ h = ⟨base, inv ++ [h]⟩ := by
      simp only [vkDestroy, if_neg h0, if_neg hb]
    rw [List.foldl_cons, hstep, ih _ (fun x hx => hnew x (by simp [hx]))]
    simp

/-- A checked creation call that returns has created the object. -/
theorem createChecked_eq_some (env : Nat → Option Nat) (n : Nat) (d d' : Device) (h : Nat) :
    createChecked env n d = some (h, d') ↔ env n = some h ∧ d' = vkCreate d h := by
  simp only [createChecked]
  cases env n with
  | none => simp
  | some x =>
    simp only [Option.some.injEq, Prod.mk.injEq]
    constructor <;> rintro ⟨rfl, rfl⟩ <;> exact ⟨rfl, rfl⟩

/-- A completed `setupCustomStuff` has added the thirteen created objects to the device. -/
theorem setupCustomStuff_some (env : Nat → Option Nat) (d : Device) (c : CustomStuff)
    (d' : Device) (h : setupCustomStuff env d = some (c, d')) :
    d' = ⟨d.live ++ c.created, d.invalid⟩ ∧ ∀ i, i < 14 → env i ≠ none := by
  unfold setupCustomStuff at h
  iterate 14 (split at h <;> first | (cases h; done) | skip)
  obtain ⟨rfl, rfl⟩ := Prod.mk.inj (Option.some.inj h)
  simp only [createChecked_eq_some] at *
  refine ⟨?_, ?_⟩
  · simp_all [vkCreate, CustomStuff.created]
  · intro i hi
    interval_cases i <;> simp_all

/-- C23, as stated, fails: `destroyCustomStuff` is not idempotent.  After a complete
`setupCustomStuff` (on a device that names the thirteen objects 1 to 13) one call releases
the thirteen objects; a second call passes the same thirteen handles to the device again,
each of them the handle of an object that no longer exists, so destroy followed by destroy
does not have the effect of a single destroy. -/
theorem destroyCustomStuff_counterexample :
    setupCustomStuff countingDevice ⟨[], []⟩ = some (countedStuff, ⟨List.range' 1 13, []⟩) ∧
    destroyCustomStuff countedStuff ⟨List.range' 1 13, []⟩ = ⟨[], []⟩ ∧
    destroyCustomStuff countedStuff (destroyCustomStuff countedStuff ⟨List.range' 1 13, []⟩) =
      ⟨[], [2, 3, 4, 5, 6, 9, 7, 8, 12, 10, 11, 1, 13]⟩ ∧
    destroyCustomStuff countedStuff (destroyCustomStuff countedStuff ⟨List.range' 1 13, []⟩) ≠
      destroyCustomStuff countedStuff ⟨List.range' 1 13, []⟩ := by
  decide

/-- C23, amended: `destroyCustomStuff` releases each of the thirteen objects that
`setupCustomStuff` has created exactly once, with no invalid call, when it is called once
after a completed setup, the handles returned by the device being those of thirteen new
objects; this is the one call the program makes (the destructor).  It is not idempotent: it
tests no handle and resets none, so a second call would pass all thirteen handles to the
device again, none of them naming an object that exists.  A setup that stops part-way is
not followed by a destroy: a creation call that fails ends the process. -/
theorem destroyCustomStuff_once (env : Nat → Option Nat) (d : Device) (c : CustomStuff)
    (d' : Device) (hsetup : setupCustomStuff env d = some (c, d'))
    (hnodup : c.created.Nodup) (hnew : ∀ h ∈ c.created, h ≠ 0 ∧ h ∉ d.live) :
    d' = ⟨d.live ++ c.created, d.invalid⟩ ∧
    destroyCustomStuff c d' = d ∧
    destroyCustomStuff c (destroyCustomStuff c d') = ⟨d.live, d.invalid ++ c.destroyed⟩ ∧
    (∀ env' : Nat → Option Nat, (∃ i, i < 14 ∧ env' i = none) →
      setupCustomStuff env' d = none) := by
  have hd' := (setupCustomStuff_some env d c d' hsetup).1
  have hperm := destroyed_perm_created c
  have honce : destroyCustomStuff c d' = d := by
    rw [hd', destroyCustomStuff_eq_foldl,
      foldl_vkDestroy_live d.live d.invalid c.destroyed c.created hperm hnodup hnew]
  refine ⟨hd', honce, ?_, ?_⟩
  · rw [honce, destroyCustomStuff_eq_foldl]
    exact foldl_vkDestroy_invalid d.live c.destroyed d.invalid
      (fun h hh => hnew h (hperm.subset hh))
  · rintro env' ⟨i, hi, hnone⟩
    cases hs : setupCustomStuff env' d with
    | none => rfl
    | some p =>
      obtain ⟨c', d2⟩ := p
      exact absurd hnone ((setupCustomStuff_some env' d c' d2 hs).2 i hi)

/-- Witness of C23, amended: the setup on `countingDevice`, from a device without
objects. -/
theorem destroyCustomStuff_once_witness :
    setupCustomStuff countingDevice ⟨[], []⟩ = some (countedStuff, ⟨List.range' 1 13, []⟩) ∧
    countedStuff.created.Nodup ∧
    destroyCustomStuff countedStuff ⟨List.range' 1 13, []⟩ = ⟨[], []⟩ ∧
    setupCustomStuff (fun n => if n = 2 then none else some (n + 1)) ⟨[], []⟩ = none :=
  ⟨by decide, by decide,
    (destroyCustomStuff_once countingDevice ⟨[], []⟩ countedStuff ⟨List.range' 1 13, []⟩
      (by decide) (by decide) (by decide)).2.1,
    (destroyCustomStuff_once countingDevice ⟨[], []⟩ countedStuff ⟨List.range' 1 13, []⟩
      (by decide) (by decide) (by decide)).2.2.2 _ ⟨2, by decide, rfl⟩⟩

/-! ## Theorems: the rotation part of the view matrix -/

namespace OverField

/-- Over the rationals the function is the one of the first embedding. -/
theorem getInterpolatedView_ofCheckpoint (sqrt : ℚ → ℚ) (cc1 cc2 : PBR.CameraCheckpoint)
    (t : Int) :
    getInterpolatedView sqrt (ofCheckpoint cc1) (ofCheckpoint cc2) t =
      ofMat4 (PBR.getInterpolatedView sqrt cc1 cc2 t) := rfl

end OverField

end PBR
